import Mathlib

/-!
# Release planner of nelm-for-werf-helm: embedding and checked properties

A shallow embedding of `pkg/resrcprocssr/deployable_resources_processor.go`,
`pkg/resrcinfo/build_deployable_resources_infos.go` and `pkg/action/plan.go`.

Conventions of the embedding:

* Go pointers are modelled by addresses (`Nat`) carried next to the value a
  pointer refers to; `Mem` holds the allocation pointer and a chronological log
  of the calls the processor makes on patchers (ghost state used to state
  identity and frame properties).
* Go `error` values are their messages (`String`); `nil` is `none`.
* Go `map[string]string` is an association list.
* Packages that are not among the sources (`resrc`, `resrcid`, `resrcpatcher`,
  `resrctransfrmr`, `utls`, `rls`, ...) are taken as parameters, bundled in `Ext`
  and `PlanWorld`.
-/

namespace Nelm

/-! ## Machine integers -/

/-- Go `int` on a 64-bit platform: the value of an integer expression, wrapped into
`[-2^63, 2^63)`. -/
def wrapInt (x : Int) : Int := (x + 2 ^ 63) % 2 ^ 64 - 2 ^ 63

/-- Largest value of Go `int` (`math.MaxInt`) on a 64-bit platform. -/
def maxInt : Int := 2 ^ 63 - 1

/-! ## Data model -/

/-- Go `map[string]string`. -/
abbrev StrMap := List (String × String)

/-- Go `schema.GroupVersionKind`. -/
structure GroupVersionKind where
  Group : String
  Version : String
  Kind : String
deriving DecidableEq, Repr

/-- Modelled from the spec: package `resrcid` is not among the sources. A ResourceID is the
(group, version, kind, namespace, name) tuple; its canonical string form `ID()`, its
`HumanID()` and its comparator are parameters (see `Ext`). -/
structure ResourceID where
  gvk : GroupVersionKind
  ns : String
  name : String
deriving DecidableEq, Repr

/-- Go `(*ResourceID).GroupVersionKind()`. -/
def ResourceID.GroupVersionKind (r : ResourceID) : GroupVersionKind := r.gvk

/-- Go `(*ResourceID).Name()`. -/
def ResourceID.Name (r : ResourceID) : String := r.name

/-- Content of an `unstructured.Unstructured`: the identifying fields, the annotation and
label views, and the remainder of the attribute tree as a payload. -/
structure Object where
  gvk : GroupVersionKind
  name : String
  ns : String
  annotations : StrMap
  labels : StrMap
  body : String
deriving DecidableEq, Repr

/-- A `*unstructured.Unstructured`: the address of the object and its content at the time
the pointer is used. -/
structure Unstructured where
  addr : Nat
  obj : Object
deriving DecidableEq, Repr

/-- Go `resrc.Type`. -/
inductive ResourceType where
  | TypeStandaloneCRD
  | TypeHookResource
  | TypeGeneralResource
deriving DecidableEq, Repr

/-- Hook phases a hook resource can carry. -/
inductive HookPhase where
  | preInstall | postInstall | preUpgrade | postUpgrade
  | preRollback | postRollback | preDelete | postDelete | test
deriving DecidableEq, Repr

/-- Modelled from the spec: the declaration of `common.DeployType` is not among the
sources. The four named constants, and `other` for a value of the underlying type that is
none of them (the switch of `buildDeployableHookResources` has a fall-through for it). -/
inductive DeployType where
  | DeployTypeInitial
  | DeployTypeInstall
  | DeployTypeUpgrade
  | DeployTypeRollback
  | other (s : String)
deriving DecidableEq, Repr

/-- Modelled from the spec: the resource types of package `resrc` are not among the sources.
One carrier for `*resrc.StandaloneCRD`, `*resrc.HookResource` and `*resrc.GeneralResource`:
the address of the resource, the parsed object it carries (`Unstructured()`), the file it
came from, its ResourceID, its ManageableBy tag and its hook phases (derived once, at
construction). -/
structure Resource where
  addr : Nat
  unstruct : Unstructured
  filePath : String
  ResourceID : ResourceID
  manageableBy : String
  hookTypes : List HookPhase
deriving DecidableEq, Repr

/-- Go `Unstructured()` accessor. -/
def Resource.Unstructured (r : Resource) : Unstructured := r.unstruct

/-- Go `FilePath()` accessor. -/
def Resource.FilePath (r : Resource) : String := r.filePath

/-- Go `ManageableBy()` accessor. -/
def Resource.ManageableBy (r : Resource) : String := r.manageableBy

/-- Go `(*HookResource).OnPreInstall()`. -/
def Resource.OnPreInstall (r : Resource) : Bool := r.hookTypes.contains HookPhase.preInstall

/-- Go `(*HookResource).OnPostInstall()`. -/
def Resource.OnPostInstall (r : Resource) : Bool := r.hookTypes.contains HookPhase.postInstall

/-- Go `(*HookResource).OnPreUpgrade()`. -/
def Resource.OnPreUpgrade (r : Resource) : Bool := r.hookTypes.contains HookPhase.preUpgrade

/-- Go `(*HookResource).OnPostUpgrade()`. -/
def Resource.OnPostUpgrade (r : Resource) : Bool := r.hookTypes.contains HookPhase.postUpgrade

/-- Go `(*HookResource).OnPreRollback()`. -/
def Resource.OnPreRollback (r : Resource) : Bool := r.hookTypes.contains HookPhase.preRollback

/-- Go `(*HookResource).OnPostRollback()`. -/
def Resource.OnPostRollback (r : Resource) : Bool := r.hookTypes.contains HookPhase.postRollback

/-- Go `resrcpatcher.ResourceInfo` and `resrctransfrmr.ResourceInfo`. -/
structure ResourceInfo where
  Obj : Unstructured
  Typ : ResourceType
  ManageableBy : String
deriving DecidableEq, Repr

/-- What a `Patch` call hands back: the content of the returned object and whether the
returned pointer is the one it was given (the object was changed in place) or points to an
object the patcher allocated. -/
structure PatchedObj where
  inPlace : Bool
  obj : Object
deriving DecidableEq, Repr

/-- Go `resrcpatcher.ResourcePatcher` (interface). -/
structure ResourcePatcher where
  Typ : String
  Match : ResourceInfo → Except String Bool
  Patch : ResourceInfo → Except String PatchedObj

/-- Go `resrctransfrmr.ResourceTransformer` (interface): `Transform` returns the contents of
the 0..N objects that replace the resource. -/
structure ResourceTransformer where
  Typ : String
  Match : ResourceInfo → Except String Bool
  Transform : ResourceInfo → Except String (List Object)

/-- A live object read from the cluster. -/
structure LiveResource where
  obj : Object
deriving DecidableEq, Repr

/-- Modelled from the spec: the info types of package `resrcinfo` are not among the sources.
One carrier for the four `Deployable...Info` types: the desired resource paired with the live
object, if there is one. -/
structure DeployableInfo where
  resource : Resource
  live : Option LiveResource
deriving DecidableEq, Repr

/-- Go `LiveResource()` accessor of an info. -/
def DeployableInfo.LiveResource (i : DeployableInfo) : Option LiveResource := i.live

/-- The four classes of resources `BuildDeployableResourceInfos` reads from the cluster. -/
inductive InfoClass where
  | standaloneCRD
  | hookResource
  | generalResource
  | prevReleaseGeneralResource
deriving DecidableEq, Repr

/-- The functions of this repository and of its libraries that the embedded code calls and
that are not among the sources. -/
structure Ext where
  /-- Go `resrcid.NewResourceID(name, namespace, gvk, opts)` with the default namespace. -/
  NewResourceID : String → String → GroupVersionKind → String → ResourceID
  /-- Go `(*ResourceID).ID()`. -/
  ID : ResourceID → String
  /-- Go `(*ResourceID).HumanID()`. -/
  HumanID : ResourceID → String
  /-- Go `resrcid.ResourceIDsSortHandler`. -/
  ResourceIDsSortHandler : ResourceID → ResourceID → Bool
  /-- The ManageableBy tag a constructor of package `resrc` derives from the object. -/
  manageableByOf : ResourceType → Object → String
  /-- The hook phases `resrc.NewHookResource` derives from the annotations. -/
  hookTypesOf : Object → List HookPhase
  /-- Go `Validate()` of a resource: `none` is `nil`. -/
  Validate : ResourceType → Resource → Option String
  /-- Go `resrctransfrmr.NewResourceListsTransformer()`. -/
  listsTransformer : ResourceTransformer
  /-- Go `resrctransfrmr.NewDropInvalidAnnotationsAndLabelsTransformer()`. -/
  annoLabelsTransformer : ResourceTransformer
  /-- Go `resrcpatcher.NewReleaseMetadataPatcher(releaseName, releaseNamespace)`. -/
  NewReleaseMetadataPatcher : String → String → ResourcePatcher
  /-- Go `resrcpatcher.NewExtraMetadataPatcher(annotations, labels)`. -/
  NewExtraMetadataPatcher : StrMap → StrMap → ResourcePatcher
  /-- The cluster GET behind `NewDeployable...Info(ctx, res, releaseNamespace, ...)`. -/
  getLive : InfoClass → Resource → String → Except String (Option LiveResource)
  /-- Go `(*LiveResource).AdoptableBy(releaseName, releaseNamespace)`. -/
  AdoptableBy : LiveResource → String → String → Bool × String
  /-- The order in which a pool hands over the results of its tasks. -/
  deliver : List (Except String DeployableInfo) → List (Except String DeployableInfo)

/-- Go `HumanID()` of a resource (promoted from its embedded ResourceID). -/
def Resource.HumanID (K : Ext) (r : Resource) : String := K.HumanID r.ResourceID

/-- Options of the `resrc.New...Resource` constructors (mapper and discovery client are
part of `Ext`). -/
structure ResourceOptions where
  FilePath : String
  DefaultNamespace : String

/-- Modelled from the spec: `resrc.NewStandaloneCRD`, `resrc.NewHookResource` and
`resrc.NewGeneralResource` are not among the sources. The new resource, allocated at `addr`,
carries the object it is given (the same pointer), the file path of the options, and the
identity and attributes derived from the object. -/
def NewResource (K : Ext) (ty : ResourceType) (addr : Nat) (unstruct : Unstructured)
    (opts : ResourceOptions) : Resource :=
  { addr := addr
    unstruct := unstruct
    filePath := opts.FilePath
    ResourceID := K.NewResourceID unstruct.obj.name unstruct.obj.ns unstruct.obj.gvk
      opts.DefaultNamespace
    manageableBy := K.manageableByOf ty unstruct.obj
    hookTypes := match ty with
      | ResourceType.TypeHookResource => K.hookTypesOf unstruct.obj
      | _ => [] }

/-! ## Ghost memory -/

/-- Equality of results is decidable when equality of errors and of values is. -/
instance instDecidableEqExcept {ε α : Type} [DecidableEq ε] [DecidableEq α] :
    DecidableEq (Except ε α)
  | Except.error a, Except.error b =>
    if h : a = b then isTrue (by rw [h])
    else isFalse (fun h' => h (by injection h'))
  | Except.ok a, Except.ok b =>
    if h : a = b then isTrue (by rw [h])
    else isFalse (fun h' => h (by injection h'))
  | Except.error _, Except.ok _ => isFalse (fun h' => by cases h')
  | Except.ok _, Except.error _ => isFalse (fun h' => by cases h')


/-- Calls the processor makes while patching, in the order they happen, each `Match` and
`Patch` call with the info it is given and what it returns. -/
inductive Event where
  | matchCall (patcher : String) (info : ResourceInfo) (result : Except String Bool)
  | deepCopy (src dst : Nat)
  | patchCall (patcher : String) (info : ResourceInfo) (result : Except String PatchedObj)
deriving DecidableEq, Repr

/-- Allocation pointer (every address `≥ next` is unused) and call log. -/
structure Mem where
  next : Nat
  log : List Event
deriving DecidableEq, Repr

/-- Append an event to the log. -/
def Mem.record (m : Mem) (e : Event) : Mem := { m with log := m.log ++ [e] }

/-- Allocate one address. -/
def Mem.alloc (m : Mem) : Nat × Mem := (m.next, { m with next := m.next + 1 })

/-- Go `(*unstructured.Unstructured).DeepCopy()`: a new object with the same content. -/
def Unstructured.DeepCopy (u : Unstructured) (m : Mem) : Unstructured × Mem :=
  ({ addr := m.next, obj := u.obj },
   { next := m.next + 1, log := m.log ++ [Event.deepCopy u.addr m.next] })

/-- Go `%q` of a string without characters that need escaping. -/
def quote (s : String) : String := "\"" ++ s ++ "\""


/-! ## Library functions -/

/-- The second loop of `lo.FindDuplicates`: walk the collection and emit a value when it
occurs more than once in the whole collection and was not emitted before. -/
def findDuplicatesLoop (collection : List String) : List String → List String → List String
  | [], _ => []
  | x :: rest, emitted =>
    if 2 ≤ collection.count x ∧ x ∉ emitted then
      x :: findDuplicatesLoop collection rest (x :: emitted)
    else findDuplicatesLoop collection rest emitted

/-- Go `lo.FindDuplicates`: the values that occur more than once, each listed once, in the
order of their first occurrence. -/
def FindDuplicates (collection : List String) : List String :=
  findDuplicatesLoop collection collection []

/-- Go `lo.Assign(a, b)`: the union of two maps, the entries of the later map winning. -/
def Assign (a b : StrMap) : StrMap :=
  a.filter (fun kv => !(b.any (fun kv' => kv'.1 == kv.1))) ++ b

/-- Go `sort.SliceStable(xs, less)` for a handler that is a strict weak order, where every
stable sort returns the same list: insertion keeps equal elements in their input order. -/
def SliceStable {α : Type} (less : α → α → Bool) (xs : List α) : List α :=
  xs.insertionSort (fun a b => less b a = false)

/-- Modelled from the spec: `utls.Multierrorf` is not among the sources. No error for an
empty list; otherwise one error labelled with the cohort and listing every collected error. -/
def Multierrorf (label : String) (errs : List String) : Option String :=
  if errs.isEmpty then none else some (label ++ ": " ++ ", ".intercalate errs)

/-- Go `fmt.Errorf(prefix + ": %w", err)`. -/
def wrapErr (pre : String) (err : String) : String := pre ++ ": " ++ err

/-! ## Patching one resource through a stack -/

/-- What distinguishes the five build loops: the `Type` put in the info given to `Match`, the
`Type` put in the info given to `Patch`, the constructor that rebuilds the resource, and the
noun of the error messages. -/
structure BuildLoop where
  matchType : ResourceType
  patchType : ResourceType
  newType : ResourceType
  noun : String

/-- Loop of `buildReleasableHookResources` (lines 317-358). -/
def releasableHookLoop : BuildLoop :=
  { matchType := ResourceType.TypeHookResource, patchType := ResourceType.TypeHookResource,
    newType := ResourceType.TypeHookResource, noun := "hook resource" }

/-- Loop of `buildReleasableGeneralResources` (lines 372-413). -/
def releasableGeneralLoop : BuildLoop :=
  { matchType := ResourceType.TypeGeneralResource, patchType := ResourceType.TypeGeneralResource,
    newType := ResourceType.TypeGeneralResource, noun := "general resource" }

/-- Loop of `buildDeployableStandaloneCRDs` (lines 427-468): `Match` is given
`TypeHookResource` (line 434), `Patch` is given `TypeStandaloneCRD` (line 452). -/
def deployableStandaloneCRDLoop : BuildLoop :=
  { matchType := ResourceType.TypeHookResource, patchType := ResourceType.TypeStandaloneCRD,
    newType := ResourceType.TypeStandaloneCRD, noun := "deployable standalone crd" }

/-- Loop of `buildDeployableHookResources` (lines 495-536). -/
def deployableHookLoop : BuildLoop :=
  { matchType := ResourceType.TypeHookResource, patchType := ResourceType.TypeHookResource,
    newType := ResourceType.TypeHookResource, noun := "deployable hook resource" }

/-- Loop of `buildDeployableGeneralResources` (lines 550-591). -/
def deployableGeneralLoop : BuildLoop :=
  { matchType := ResourceType.TypeGeneralResource, patchType := ResourceType.TypeGeneralResource,
    newType := ResourceType.TypeGeneralResource, noun := "deployable general resource" }

/-- The pointer a `Patch` call returns: the pointer it was given or a new object. -/
def patchedPointer (arg : Unstructured) (out : PatchedObj) (m : Mem) : Unstructured × Mem :=
  if out.inPlace then ({ addr := arg.addr, obj := out.obj }, m)
  else ({ addr := m.next, obj := out.obj }, { m with next := m.next + 1 })

/-- The info a build loop gives to `Match` for the current `patchedRes` (lines 322-326). -/
def matchInfoOf (L : BuildLoop) (patchedRes : Resource) : ResourceInfo :=
  { Obj := patchedRes.Unstructured, Typ := L.matchType,
    ManageableBy := patchedRes.ManageableBy }

/-- Lines 332-338: `unstruct` is the object of `patchedRes` when a copy was made before,
and a deep copy of it otherwise. -/
def copyForPatch (patchedRes : Resource) (deepCopied : Bool) (m : Mem) : Unstructured × Mem :=
  if deepCopied then (patchedRes.Unstructured, m) else patchedRes.Unstructured.DeepCopy m

/-- The info a build loop gives to `Patch` (lines 340-344). -/
def patchInfoOf (L : BuildLoop) (patchedRes : Resource) (unstruct : Unstructured) :
    ResourceInfo :=
  { Obj := unstruct, Typ := L.patchType, ManageableBy := patchedRes.ManageableBy }

/-- Lines 349-354: the resource rebuilt from the object `Patch` returned. -/
def rebuild (K : Ext) (L : BuildLoop) (releaseNamespace : String) (patchedRes : Resource)
    (unstruct : Unstructured) (out : PatchedObj) (m : Mem) : Resource × Mem :=
  let po := patchedPointer unstruct out m
  (NewResource K L.newType po.2.next po.1
      { FilePath := patchedRes.FilePath, DefaultNamespace := releaseNamespace },
    { po.2 with next := po.2.next + 1 })

/-- The inner loop `for _, resPatcher := range patchers` of a build function, from the
current `patchedRes` and `deepCopied` on. Returns the final `patchedRes`, or the error of the
first failing `Match` or `Patch`. -/
def patchLoop (K : Ext) (L : BuildLoop) (releaseNamespace : String) :
    List ResourcePatcher → Resource → Bool → Mem → Mem × Except String Resource
  | [], patchedRes, _, m => (m, Except.ok patchedRes)
  | resPatcher :: rest, patchedRes, deepCopied, m =>
    let matchInfo := matchInfoOf L patchedRes
    let m1 := m.record (Event.matchCall resPatcher.Typ matchInfo (resPatcher.Match matchInfo))
    match resPatcher.Match matchInfo with
    | Except.error err =>
      (m1, Except.error (wrapErr ("error matching " ++ L.noun ++ " "
        ++ quote (patchedRes.HumanID K) ++ " for patching by " ++ quote resPatcher.Typ) err))
    | Except.ok false => patchLoop K L releaseNamespace rest patchedRes deepCopied m1
    | Except.ok true =>
      let cp := copyForPatch patchedRes deepCopied m1
      let patchInfo := patchInfoOf L patchedRes cp.1
      let m2 := cp.2.record
        (Event.patchCall resPatcher.Typ patchInfo (resPatcher.Patch patchInfo))
      match resPatcher.Patch patchInfo with
      | Except.error err =>
        (m2, Except.error (wrapErr ("error patching " ++ L.noun ++ " "
          ++ quote (patchedRes.HumanID K) ++ " by " ++ quote resPatcher.Typ) err))
      | Except.ok out =>
        let rebuilt := rebuild K L releaseNamespace patchedRes cp.1 out m2
        patchLoop K L releaseNamespace rest rebuilt.1 true rebuilt.2

/-- One iteration of the outer loop: `patchedRes := res`, `deepCopied = false`, then the
inner loop. -/
def patchResource (K : Ext) (L : BuildLoop) (releaseNamespace : String)
    (patchers : List ResourcePatcher) (res : Resource) (m : Mem) :
    Mem × Except String Resource :=
  patchLoop K L releaseNamespace patchers res false m

/-- The outer loop `for _, res := range resources` of a build function: the patched
resources in input order, or the first error. -/
def patchResources (K : Ext) (L : BuildLoop) (releaseNamespace : String)
    (patchers : List ResourcePatcher) : List Resource → Mem → Mem × Except String (List Resource)
  | [], m => (m, Except.ok [])
  | res :: rest, m =>
    match patchResource K L releaseNamespace patchers res m with
    | (m1, Except.error err) => (m1, Except.error err)
    | (m1, Except.ok patchedRes) =>
      match patchResources K L releaseNamespace patchers rest m1 with
      | (m2, Except.error err) => (m2, Except.error err)
      | (m2, Except.ok patchedResources) => (m2, Except.ok (patchedRes :: patchedResources))


/-! ## The processor -/

/-- Go `DeployableResourcesProcessorOptions` (kube client, mapper and discovery client are
part of `Ext`). -/
structure DeployableResourcesProcessorOptions where
  NetworkParallelism : Int
  HookResourceTransformers : List ResourceTransformer
  GeneralResourceTransformers : List ResourceTransformer
  ReleasableHookResourcePatchers : List ResourcePatcher
  ReleasableGeneralResourcePatchers : List ResourcePatcher
  DeployableStandaloneCRDsPatchers : List ResourcePatcher
  DeployableHookResourcePatchers : List ResourcePatcher
  DeployableGeneralResourcePatchers : List ResourcePatcher
  AllowClusterAccess : Bool

/-- Go `DeployableResourcesProcessor`. -/
structure DeployableResourcesProcessor where
  deployType : DeployType
  releaseName : String
  releaseNamespace : String
  standaloneCRDs : List Resource
  hookResources : List Resource
  generalResources : List Resource
  prevRelGeneralResources : List Resource
  networkParallelism : Int
  allowClusterAccess : Bool
  hookResourceTransformers : List ResourceTransformer
  generalResourceTransformers : List ResourceTransformer
  releasableHookResourcePatchers : List ResourcePatcher
  releasableGeneralResourcePatchers : List ResourcePatcher
  deployableStandaloneCRDsPatchers : List ResourcePatcher
  deployableHookResourcePatchers : List ResourcePatcher
  deployableGeneralResourcePatchers : List ResourcePatcher
  releasableHookResources : List Resource
  releasableGeneralResources : List Resource
  deployableStandaloneCRDs : List Resource
  deployableHookResources : List Resource
  deployableGeneralResources : List Resource
  deployableReleaseNamespaceInfo : Option DeployableInfo
  deployableStandaloneCRDsInfos : List DeployableInfo
  deployableHookResourcesInfos : List DeployableInfo
  deployableGeneralResourcesInfos : List DeployableInfo
  deployablePrevRelGeneralResourcesInfos : List DeployableInfo

/-- Go `NewDeployableResourcesProcessor` (lines 26-67). -/
def NewDeployableResourcesProcessor (K : Ext) (deployType : DeployType)
    (releaseName releaseNamespace : String)
    (standaloneCRDs hookResources generalResources prevReleaseGeneralResources : List Resource)
    (opts : DeployableResourcesProcessorOptions) : DeployableResourcesProcessor :=
  let listsTransformer := K.listsTransformer
  let annoLabelsTransformer := K.annoLabelsTransformer
  let hookResourceTransformers :=
    [listsTransformer, annoLabelsTransformer] ++ opts.HookResourceTransformers
  let generalResourceTransformers :=
    [listsTransformer, annoLabelsTransformer] ++ opts.GeneralResourceTransformers
  let releaseMetadataPatcher := K.NewReleaseMetadataPatcher releaseName releaseNamespace
  let deployableStandaloneCRDsPatchers :=
    [releaseMetadataPatcher] ++ opts.DeployableStandaloneCRDsPatchers
  let deployableHookResourcePatchers :=
    [releaseMetadataPatcher] ++ opts.DeployableHookResourcePatchers
  let deployableGeneralResourcePatchers :=
    [releaseMetadataPatcher] ++ opts.DeployableGeneralResourcePatchers
  { deployType := deployType
    releaseName := releaseName
    releaseNamespace := releaseNamespace
    standaloneCRDs := standaloneCRDs
    hookResources := hookResources
    generalResources := generalResources
    prevRelGeneralResources := prevReleaseGeneralResources
    allowClusterAccess := opts.AllowClusterAccess
    networkParallelism := max opts.NetworkParallelism 1
    hookResourceTransformers := hookResourceTransformers
    generalResourceTransformers := generalResourceTransformers
    releasableHookResourcePatchers := opts.ReleasableHookResourcePatchers
    releasableGeneralResourcePatchers := opts.ReleasableGeneralResourcePatchers
    deployableStandaloneCRDsPatchers := deployableStandaloneCRDsPatchers
    deployableHookResourcePatchers := deployableHookResourcePatchers
    deployableGeneralResourcePatchers := deployableGeneralResourcePatchers
    releasableHookResources := []
    releasableGeneralResources := []
    deployableStandaloneCRDs := []
    deployableHookResources := []
    deployableGeneralResources := []
    deployableReleaseNamespaceInfo := none
    deployableStandaloneCRDsInfos := []
    deployableHookResourcesInfos := []
    deployableGeneralResourcesInfos := []
    deployablePrevRelGeneralResourcesInfos := [] }

/-- Result of a method of the processor: the memory and the processor after the call, and
the returned error (`none` is `nil`). -/
structure Outcome where
  mem : Mem
  p : DeployableResourcesProcessor
  err : Option String

/-! ### Transformation (lines 230-312) -/

/-- The `for _, newObj := range newObjs` loop: one new resource per returned object, each
object and each resource newly allocated. -/
def newResources (K : Ext) (ty : ResourceType) (opts : ResourceOptions) :
    List Object → Mem → List Resource × Mem
  | [], m => ([], m)
  | newObj :: rest, m =>
    let newRes := NewResource K ty (m.next + 1) { addr := m.next, obj := newObj } opts
    let r := newResources K ty opts rest { m with next := m.next + 2 }
    (newRes :: r.1, r.2)

/-- The inner loop `for _, res := range resources` of a transform function, for one
transformer: the transformed resources, or the first error. -/
def transformWith (K : Ext) (ty : ResourceType) (noun : String) (releaseNamespace : String)
    (resTransformer : ResourceTransformer) :
    List Resource → Mem → Mem × Except String (List Resource)
  | [], m => (m, Except.ok [])
  | res :: rest, m =>
    let info : ResourceInfo :=
      { Obj := res.Unstructured, Typ := ty, ManageableBy := res.ManageableBy }
    match resTransformer.Match info with
    | Except.error err =>
      (m, Except.error (wrapErr ("error matching " ++ noun ++ " " ++ quote (res.HumanID K)
        ++ " for transformation by " ++ quote resTransformer.Typ) err))
    | Except.ok false =>
      match transformWith K ty noun releaseNamespace resTransformer rest m with
      | (m1, Except.error err) => (m1, Except.error err)
      | (m1, Except.ok transformed) => (m1, Except.ok (res :: transformed))
    | Except.ok true =>
      match resTransformer.Transform info with
      | Except.error err =>
        (m, Except.error (wrapErr ("error transforming " ++ noun ++ " "
          ++ quote (res.HumanID K) ++ " by " ++ quote resTransformer.Typ) err))
      | Except.ok newObjs =>
        let created := newResources K ty
          { FilePath := res.FilePath, DefaultNamespace := releaseNamespace } newObjs m
        match transformWith K ty noun releaseNamespace resTransformer rest created.2 with
        | (m1, Except.error err) => (m1, Except.error err)
        | (m1, Except.ok transformed) => (m1, Except.ok (created.1 ++ transformed))

/-- The outer loop `for _, resTransformer := range transformers`: the resources after the
last transformer that completed, and the error of the one that failed, if any. -/
def transformAll (K : Ext) (ty : ResourceType) (noun : String) (releaseNamespace : String) :
    List ResourceTransformer → List Resource → Mem → Mem × List Resource × Option String
  | [], resources, m => (m, resources, none)
  | resTransformer :: rest, resources, m =>
    match transformWith K ty noun releaseNamespace resTransformer resources m with
    | (m1, Except.error err) => (m1, resources, some err)
    | (m1, Except.ok transformed) => transformAll K ty noun releaseNamespace rest transformed m1

/-- Go `transformHookResources` (lines 230-270). -/
def transformHookResources (K : Ext) (p : DeployableResourcesProcessor) (m : Mem) : Outcome :=
  let r := transformAll K ResourceType.TypeHookResource "hook resource" p.releaseNamespace
    p.hookResourceTransformers p.hookResources m
  { mem := r.1, p := { p with hookResources := r.2.1 }, err := r.2.2 }

/-- Go `transformGeneralResources` (lines 272-312). -/
def transformGeneralResources (K : Ext) (p : DeployableResourcesProcessor) (m : Mem) :
    Outcome :=
  let r := transformAll K ResourceType.TypeGeneralResource "general resource"
    p.releaseNamespace p.generalResourceTransformers p.generalResources m
  { mem := r.1, p := { p with generalResources := r.2.1 }, err := r.2.2 }


/-! ### Building the releasable and deployable resources (lines 314-600) -/

/-- Comparator given to `sort.SliceStable` by the build functions. -/
def resourceLess (K : Ext) (a b : Resource) : Bool :=
  K.ResourceIDsSortHandler a.ResourceID b.ResourceID

/-- Go `buildReleasableHookResources` (lines 314-367). -/
def buildReleasableHookResources (K : Ext) (p : DeployableResourcesProcessor) (m : Mem) :
    Outcome :=
  match patchResources K releasableHookLoop p.releaseNamespace
      p.releasableHookResourcePatchers p.hookResources m with
  | (m1, Except.error err) => { mem := m1, p := p, err := some err }
  | (m1, Except.ok patchedResources) =>
    { mem := m1
      p := { p with releasableHookResources := SliceStable (resourceLess K) patchedResources }
      err := none }

/-- Go `buildReleasableGeneralResources` (lines 369-422). -/
def buildReleasableGeneralResources (K : Ext) (p : DeployableResourcesProcessor) (m : Mem) :
    Outcome :=
  match patchResources K releasableGeneralLoop p.releaseNamespace
      p.releasableGeneralResourcePatchers p.generalResources m with
  | (m1, Except.error err) => { mem := m1, p := p, err := some err }
  | (m1, Except.ok patchedResources) =>
    { mem := m1
      p := { p with releasableGeneralResources := SliceStable (resourceLess K) patchedResources }
      err := none }

/-- Go `buildDeployableStandaloneCRDs` (lines 424-477). -/
def buildDeployableStandaloneCRDs (K : Ext) (p : DeployableResourcesProcessor) (m : Mem) :
    Outcome :=
  match patchResources K deployableStandaloneCRDLoop p.releaseNamespace
      p.deployableStandaloneCRDsPatchers p.standaloneCRDs m with
  | (m1, Except.error err) => { mem := m1, p := p, err := some err }
  | (m1, Except.ok patchedResources) =>
    { mem := m1
      p := { p with deployableStandaloneCRDs := SliceStable (resourceLess K) patchedResources }
      err := none }

/-- The predicate given to `lo.Filter` in `buildDeployableHookResources` (lines 480-491). -/
def hookMatchesDeployType (deployType : DeployType) (res : Resource) : Bool :=
  match deployType with
  | DeployType.DeployTypeInitial => res.OnPreInstall || res.OnPostInstall
  | DeployType.DeployTypeInstall => res.OnPreInstall || res.OnPostInstall
  | DeployType.DeployTypeUpgrade => res.OnPreUpgrade || res.OnPostUpgrade
  | DeployType.DeployTypeRollback => res.OnPreRollback || res.OnPostRollback
  | DeployType.other _ => false

/-- The local `matchingHookResources` of `buildDeployableHookResources` (line 480). -/
def matchingHookResources (p : DeployableResourcesProcessor) : List Resource :=
  p.hookResources.filter (hookMatchesDeployType p.deployType)

/-- Go `buildDeployableHookResources` (lines 479-545). -/
def buildDeployableHookResources (K : Ext) (p : DeployableResourcesProcessor) (m : Mem) :
    Outcome :=
  match patchResources K deployableHookLoop p.releaseNamespace
      p.deployableHookResourcePatchers (matchingHookResources p) m with
  | (m1, Except.error err) => { mem := m1, p := p, err := some err }
  | (m1, Except.ok patchedResources) =>
    { mem := m1
      p := { p with deployableHookResources := SliceStable (resourceLess K) patchedResources }
      err := none }

/-- Go `buildDeployableGeneralResources` (lines 547-600). -/
def buildDeployableGeneralResources (K : Ext) (p : DeployableResourcesProcessor) (m : Mem) :
    Outcome :=
  match patchResources K deployableGeneralLoop p.releaseNamespace
      p.deployableGeneralResourcePatchers p.generalResources m with
  | (m1, Except.error err) => { mem := m1, p := p, err := some err }
  | (m1, Except.ok patchedResources) =>
    { mem := m1
      p := { p with deployableGeneralResources := SliceStable (resourceLess K) patchedResources }
      err := none }

/-! ### Validation (lines 623-747) -/

/-- The errors `Validate()` reports on a list of resources, in order. -/
def validationErrors (K : Ext) (ty : ResourceType) (resources : List Resource) : List String :=
  resources.filterMap (K.Validate ty)

/-- Go `validateResources` (lines 623-645). -/
def validateResources (K : Ext) (p : DeployableResourcesProcessor) : Option String :=
  Multierrorf "resources validation failed"
    (validationErrors K ResourceType.TypeStandaloneCRD p.standaloneCRDs
      ++ validationErrors K ResourceType.TypeHookResource p.hookResources
      ++ validationErrors K ResourceType.TypeGeneralResource p.generalResources)

/-- Go `validateReleasableResources` (lines 647-663). -/
def validateReleasableResources (K : Ext) (p : DeployableResourcesProcessor) : Option String :=
  Multierrorf "releasable resources validation failed"
    (validationErrors K ResourceType.TypeHookResource p.releasableHookResources
      ++ validationErrors K ResourceType.TypeGeneralResource p.releasableGeneralResources)

/-- Go `validateDeployableResources` (lines 665-687). -/
def validateDeployableResources (K : Ext) (p : DeployableResourcesProcessor) : Option String :=
  Multierrorf "deployable resources validation failed"
    (validationErrors K ResourceType.TypeStandaloneCRD p.deployableStandaloneCRDs
      ++ validationErrors K ResourceType.TypeHookResource p.deployableHookResources
      ++ validationErrors K ResourceType.TypeGeneralResource p.deployableGeneralResources)

/-- The local `resources` of `validateNoDuplicates` (lines 690-702): the ResourceIDs of the
standalone CRDs, then of the hooks, then of the generals. -/
def allResourceIDs (p : DeployableResourcesProcessor) : List ResourceID :=
  p.standaloneCRDs.map (fun res => res.ResourceID)
    ++ p.hookResources.map (fun res => res.ResourceID)
    ++ p.generalResources.map (fun res => res.ResourceID)

/-- The condition of line 705: the resource is the Namespace/v1 named like the release
namespace. -/
def isReleaseNamespace (releaseNamespace : String) (res : ResourceID) : Bool :=
  decide (res.GroupVersionKind = { Group := "", Version := "v1", Kind := "Namespace" })
    && decide (res.Name = releaseNamespace)

/-- Go `validateNoDuplicates` (lines 689-732). The format of line 706 has a `%q` verb and no
argument, which `fmt` renders as `%!q(MISSING)`. -/
def validateNoDuplicates (K : Ext) (p : DeployableResourcesProcessor) : Option String :=
  let resources := allResourceIDs p
  if resources.any (isReleaseNamespace p.releaseNamespace) then
    some "release namespace %!q(MISSING) cannot be deployed as part of the release"
  else
    let resourceIDs := resources.map (fun res => K.ID res)
    let duplicatedIDs := FindDuplicates resourceIDs
    if 0 < duplicatedIDs.length then
      let duplicatedResources :=
        resources.filter (fun resID => (duplicatedIDs.find? (fun id => id == K.ID resID)).isSome)
      let duplicatedHumanIDs := duplicatedResources.map (fun res => K.HumanID res)
      some ("duplicated resources found: " ++ ", ".intercalate duplicatedHumanIDs)
    else none

/-- The body of the loop of `validateAdoptableResources` (lines 737-743): the error
appended for one info, if any. -/
def adoptionError (K : Ext) (releaseName releaseNamespace : String)
    (genResInfo : DeployableInfo) : Option String :=
  match genResInfo.LiveResource with
  | none => none
  | some live =>
    let r := K.AdoptableBy live releaseName releaseNamespace
    if r.1 then none
    else some ("resource " ++ quote (genResInfo.resource.HumanID K)
      ++ " is not adoptable: " ++ r.2)

/-- The local `errs` of `validateAdoptableResources` when the loop is over (line 746). -/
def adoptionErrors (K : Ext) (p : DeployableResourcesProcessor) : List String :=
  p.deployableGeneralResourcesInfos.filterMap
    (adoptionError K p.releaseName p.releaseNamespace)

/-- Go `validateAdoptableResources` (lines 734-747). -/
def validateAdoptableResources (K : Ext) (p : DeployableResourcesProcessor) : Option String :=
  Multierrorf "adoption validation failed" (adoptionErrors K p)


/-! ### Live state (build_deployable_resources_infos.go) -/

/-- A `pool.NewWithResults[...]().WithContext(ctx).WithMaxGoroutines(n).WithCancelOnError()
.WithFirstError()` with the tasks handed to `Go`, each task given by its outcome. -/
structure Pool where
  maxGoroutines : Int
  tasks : List (Except String DeployableInfo)

/-- The `routines` expression of lines 38, 51, 64 and 77:
`lo.Max([]int(len(xs) / lo.Max([]int(total, 1)) * parallelism, 1))`. -/
def routines (count totalResourcesCount parallelism : Int) : Int :=
  max (wrapInt (Int.tdiv count (max totalResourcesCount 1) * parallelism)) 1

/-- The task a pool runs for one resource: the info pairing the resource with its live
object, or the wrapped error of the constructor. -/
def infoTask (K : Ext) (cls : InfoClass) (noun : String) (releaseNamespace : String)
    (res : Resource) : Except String DeployableInfo :=
  match K.getLive cls res releaseNamespace with
  | Except.error err => Except.error (wrapErr ("error constructing " ++ noun ++ " info") err)
  | Except.ok live => Except.ok { resource := res, live := live }

/-- The pool of one class (lines 38-49, 51-62, 64-75, 77-88). -/
def newPool (K : Ext) (cls : InfoClass) (noun : String) (releaseNamespace : String)
    (resources : List Resource) (totalResourcesCount parallelism : Int) : Pool :=
  { maxGoroutines := routines resources.length totalResourcesCount parallelism
    tasks := resources.map (infoTask K cls noun releaseNamespace) }

/-- Go `pool.Wait()`: the first error among the results in the order they are handed over,
or else all the results in that order. -/
def Pool.Wait (K : Ext) (pool : Pool) : Except String (List DeployableInfo) :=
  let delivered := K.deliver pool.tasks
  match delivered.findSome? (fun r => match r with
      | Except.error err => some err
      | Except.ok _ => none) with
  | some err => Except.error err
  | none => Except.ok (delivered.filterMap (fun r => match r with
      | Except.ok info => some info
      | Except.error _ => none))

/-- The values `BuildDeployableResourceInfos` returns. -/
structure DeployableResourceInfos where
  releaseNamespaceInfo : Option DeployableInfo
  standaloneCRDsInfos : List DeployableInfo
  hookResourcesInfos : List DeployableInfo
  generalResourcesInfos : List DeployableInfo
  prevReleaseGeneralResourceInfos : List DeployableInfo
  err : Option String

/-- The return statement of lines 92, 97, 102 and 107. -/
def infosFailure (err : String) : DeployableResourceInfos :=
  { releaseNamespaceInfo := none, standaloneCRDsInfos := [], hookResourcesInfos := [],
    generalResourcesInfos := [], prevReleaseGeneralResourceInfos := [], err := some err }

/-- Comparator given to `sort.SliceStable` for the info lists (lines 110-124). -/
def infoLess (K : Ext) (a b : DeployableInfo) : Bool :=
  K.ResourceIDsSortHandler a.resource.ResourceID b.resource.ResourceID

/-- The four pools of `BuildDeployableResourceInfos`, in the order they are created and
waited for. -/
structure InfoPools where
  standaloneCRDsPool : Pool
  hookResourcesPool : Pool
  generalResourcesPool : Pool
  prevReleaseGeneralResourcesPool : Pool

/-- Lines 36-88 of `BuildDeployableResourceInfos`: the total count and the four pools with
their limits and tasks. -/
def infoPools (K : Ext) (releaseNamespace : String)
    (standaloneCRDs hookResources generalResources prevReleaseGeneralResources : List Resource)
    (parallelism : Int) : InfoPools :=
  let totalResourcesCount : Int :=
    wrapInt (standaloneCRDs.length + hookResources.length + generalResources.length
      + prevReleaseGeneralResources.length)
  { standaloneCRDsPool := newPool K InfoClass.standaloneCRD "standalone crd"
      releaseNamespace standaloneCRDs totalResourcesCount parallelism
    hookResourcesPool := newPool K InfoClass.hookResource "hook resource"
      releaseNamespace hookResources totalResourcesCount parallelism
    generalResourcesPool := newPool K InfoClass.generalResource "general resource"
      releaseNamespace generalResources totalResourcesCount parallelism
    prevReleaseGeneralResourcesPool := newPool K InfoClass.prevReleaseGeneralResource
      "general resource" releaseNamespace prevReleaseGeneralResources totalResourcesCount
      parallelism }

/-- Lines 90-127 of `BuildDeployableResourceInfos`: wait for the four pools in order, then
sort the four lists. -/
def waitAndSort (K : Ext) (pools : InfoPools) : DeployableResourceInfos :=
  match pools.standaloneCRDsPool.Wait K with
  | Except.error err => infosFailure (wrapErr "error waiting for standalone crds pool" err)
  | Except.ok standaloneCRDsInfos =>
  match pools.hookResourcesPool.Wait K with
  | Except.error err => infosFailure (wrapErr "error waiting for hook resources pool" err)
  | Except.ok hookResourcesInfos =>
  match pools.generalResourcesPool.Wait K with
  | Except.error err => infosFailure (wrapErr "error waiting for general resources pool" err)
  | Except.ok generalResourcesInfos =>
  match pools.prevReleaseGeneralResourcesPool.Wait K with
  | Except.error err => infosFailure (wrapErr "error waiting for general resources pool" err)
  | Except.ok prevReleaseGeneralResourceInfos =>
    { releaseNamespaceInfo := none
      standaloneCRDsInfos := SliceStable (infoLess K) standaloneCRDsInfos
      hookResourcesInfos := SliceStable (infoLess K) hookResourcesInfos
      generalResourcesInfos := SliceStable (infoLess K) generalResourcesInfos
      prevReleaseGeneralResourceInfos := SliceStable (infoLess K) prevReleaseGeneralResourceInfos
      err := none }

/-- Go `BuildDeployableResourceInfos` (lines 17-127). -/
def BuildDeployableResourceInfos (K : Ext) (releaseNamespace : String)
    (standaloneCRDs hookResources generalResources prevReleaseGeneralResources : List Resource)
    (parallelism : Int) : DeployableResourceInfos :=
  waitAndSort K (infoPools K releaseNamespace standaloneCRDs hookResources generalResources
    prevReleaseGeneralResources parallelism)

/-- Go `buildDeployableResourceInfos` (lines 602-621): the five results are assigned to the
fields of the processor whether or not the call failed. -/
def buildDeployableResourceInfos (K : Ext) (p : DeployableResourcesProcessor) (m : Mem) :
    Outcome :=
  let r := BuildDeployableResourceInfos K p.releaseNamespace p.deployableStandaloneCRDs
    p.deployableHookResources p.deployableGeneralResources p.prevRelGeneralResources
    p.networkParallelism
  { mem := m
    p := { p with
      deployableReleaseNamespaceInfo := r.releaseNamespaceInfo
      deployableStandaloneCRDsInfos := r.standaloneCRDsInfos
      deployableHookResourcesInfos := r.hookResourcesInfos
      deployableGeneralResourcesInfos := r.generalResourcesInfos
      deployablePrevRelGeneralResourcesInfos := r.prevReleaseGeneralResourceInfos }
    err := r.err.map (wrapErr "error building deployable resource infos") }

/-! ### Process (lines 123-192) -/

/-- A stage of `Process`: a method of the processor and the text its error is wrapped in. -/
structure Stage where
  label : String
  run : DeployableResourcesProcessor → Mem → Outcome

/-- A stage that checks and leaves the processor as it is. -/
def checkStage (label : String) (check : DeployableResourcesProcessor → Option String) :
    Stage :=
  { label := label, run := fun p m => { mem := m, p := p, err := check p } }

/-- Run the stages in order, up to and including the first that fails; its error is
wrapped in its label. -/
def runStages : List Stage → DeployableResourcesProcessor → Mem → Outcome
  | [], p, m => { mem := m, p := p, err := none }
  | stage :: rest, p, m =>
    let r := stage.run p m
    match r.err with
    | some err => { mem := r.mem, p := r.p, err := some (wrapErr stage.label err) }
    | none => runStages rest r.p r.mem

/-- The stages of `Process` up to the validation of the deployable resources
(lines 124-177). -/
def offlineStages (K : Ext) : List Stage :=
  [ { label := "error transforming hook resources", run := transformHookResources K },
    { label := "error transforming general resources", run := transformGeneralResources K },
    checkStage "error validating resources" (validateResources K),
    checkStage "error validating for no duplicated resources" (validateNoDuplicates K),
    { label := "error building releasable hook resources",
      run := buildReleasableHookResources K },
    { label := "error building releasable general resources",
      run := buildReleasableGeneralResources K },
    checkStage "error validating releasable resources" (validateReleasableResources K),
    { label := "error building deployable standalone crds",
      run := buildDeployableStandaloneCRDs K },
    { label := "error building deployable hook resources",
      run := buildDeployableHookResources K },
    { label := "error building deployable general resources",
      run := buildDeployableGeneralResources K },
    checkStage "error validating deployable resources" (validateDeployableResources K) ]

/-- The stages of `Process` that need the cluster (lines 179-189). -/
def clusterStages (K : Ext) : List Stage :=
  [ { label := "error building deployable resource infos",
      run := buildDeployableResourceInfos K },
    checkStage "error validating adoptable resources" (validateAdoptableResources K) ]

/-- The stages `Process` runs after the offline stages (line 179): the cluster stages when
cluster access is allowed, none otherwise. -/
def lastStages (K : Ext) (p : DeployableResourcesProcessor) : List Stage :=
  if p.allowClusterAccess then clusterStages K else []

/-- Go `Process` (lines 123-192). -/
def Process (K : Ext) (p : DeployableResourcesProcessor) (m : Mem) : Outcome :=
  runStages (offlineStages K ++ lastStages K p) p m

/-- Go `ReleasableHookResources()`. -/
def ReleasableHookResources (p : DeployableResourcesProcessor) : List Resource :=
  p.releasableHookResources

/-- Go `ReleasableGeneralResources()`. -/
def ReleasableGeneralResources (p : DeployableResourcesProcessor) : List Resource :=
  p.releasableGeneralResources

/-- Go `DeployableStandaloneCRDsInfos()`. -/
def DeployableStandaloneCRDsInfos (p : DeployableResourcesProcessor) : List DeployableInfo :=
  p.deployableStandaloneCRDsInfos

/-- Go `DeployableHookResourcesInfos()`. -/
def DeployableHookResourcesInfos (p : DeployableResourcesProcessor) : List DeployableInfo :=
  p.deployableHookResourcesInfos

/-- Go `DeployableGeneralResourcesInfos()`. -/
def DeployableGeneralResourcesInfos (p : DeployableResourcesProcessor) : List DeployableInfo :=
  p.deployableGeneralResourcesInfos

/-- Go `DeployablePrevReleaseGeneralResourcesInfos()`. -/
def DeployablePrevReleaseGeneralResourcesInfos (p : DeployableResourcesProcessor) :
    List DeployableInfo :=
  p.deployablePrevRelGeneralResourcesInfos

/-- Go `DeployableStandaloneCRDs()`. -/
def DeployableStandaloneCRDs (p : DeployableResourcesProcessor) : List Resource :=
  p.deployableStandaloneCRDs

/-- Go `DeployableHookResources()`. -/
def DeployableHookResources (p : DeployableResourcesProcessor) : List Resource :=
  p.deployableHookResources

/-- Go `DeployableGeneralResources()`. -/
def DeployableGeneralResources (p : DeployableResourcesProcessor) : List Resource :=
  p.deployableGeneralResources


/-! ## Plan (pkg/action/plan.go) -/

/-- Go `time.Time`, as the time elapsed since the instant of its zero value. -/
structure Time where
  sinceZero : Int
deriving DecidableEq, Repr

/-- The zero value `time.Time` of a declared and unassigned variable. -/
def Time.zero : Time := { sinceZero := 0 }

/-- Go `ReleaseStorageDriver`, a string type (line 158 converts it with `string(...)`): the
four named constants and `other` for any other value. -/
inductive ReleaseStorageDriver where
  | ReleaseStorageDriverDefault
  | ReleaseStorageDriverSecrets
  | ReleaseStorageDriverConfigMaps
  | ReleaseStorageDriverMemory
  | other (s : String)
deriving DecidableEq, Repr

/-- Go `PlanOptions` (lines 36-78). The legacy hook is given by its result for a release
namespace. -/
structure PlanOptions where
  ChartDirPath : String
  ChartRepositoryInsecure : Bool
  ChartRepositorySkipTLSVerify : Bool
  ChartRepositorySkipUpdate : Bool
  DefaultSecretValuesDisable : Bool
  DefaultValuesDisable : Bool
  ErrorIfChangesPlanned : Bool
  ExtraAnnotations : StrMap
  ExtraLabels : StrMap
  ExtraRuntimeAnnotations : StrMap
  KubeConfigBase64 : String
  KubeConfigPaths : List String
  KubeContext : String
  LogDebug : Bool
  LogRegistryStreamOut : Option String
  NetworkParallelism : Int
  RegistryCredentialsPath : String
  ReleaseName : String
  ReleaseNamespace : String
  ReleaseStorageDriver : ReleaseStorageDriver
  SecretKeyIgnore : Bool
  SecretValuesPaths : List String
  TempDirPath : String
  ValuesFileSets : List String
  ValuesFilesPaths : List String
  ValuesSets : List String
  ValuesStringSets : List String
  LegacyPrePlanHook : Option (String → Option String)

/-- Modelled from the spec: `rls.Release` is not among the sources. The accessors `Plan`
reads. -/
structure Release where
  Revision : Int
  FirstDeployed : Time
  Failed : Bool
  GeneralResources : List Resource
deriving DecidableEq, Repr

/-- What `Plan` reads from the chart tree. -/
structure ChartTree where
  Notes : String
  ReleaseValues : String
  LegacyChart : String
  StandaloneCRDs : List Resource
  HookResources : List Resource
  GeneralResources : List Resource

/-- The arguments `Plan` hands to the release builder `rls.NewRelease` (lines 327-340). -/
structure NewReleaseArgs where
  name : String
  ns : String
  revision : Int
  values : String
  legacyChart : String
  hookResources : List Resource
  generalResources : List Resource
  notes : String
  FirstDeployed : Time

/-- The arguments `Plan` hands to `resrcchangcalc.CalculatePlannedChanges` (lines 346-354). -/
structure CalculatePlannedChangesArgs where
  releaseName : String
  releaseNamespace : String
  standaloneCRDsInfos : List DeployableInfo
  hookResourcesInfos : List DeployableInfo
  generalResourcesInfos : List DeployableInfo
  prevReleaseGeneralResourcesInfos : List DeployableInfo
  prevRelFailed : Bool

/-- The values `resrcchangcalc.CalculatePlannedChanges` returns. -/
structure PlannedChanges where
  created : List ResourceID
  recreated : List ResourceID
  updated : List ResourceID
  applied : List ResourceID
  deleted : List ResourceID
  planChangesPlanned : Bool

/-- The collaborators of `Plan` that are not among the sources, each given by what it
returns, and the state `Plan` starts from. `now` is the reading of the clock during the
call. -/
structure PlanWorld where
  Getwd : Except String String
  UserCurrentHomeDir : Except String String
  MkdirTemp : Except String String
  NewKubeConfigGetter : Option String
  SettingsNamespace : String → String
  NewRegistryClient : Option String
  ActionConfigInit : Option String
  NewClientFactory : Option String
  NewHistory : Option String
  LastRelease : Except String (Option Release)
  LastDeployedRelease : Except String (Option Release)
  NewChartTree : Int → DeployType → Except String ChartTree
  NewRelease : NewReleaseArgs → Except String Release
  CalculatePlannedChanges : CalculatePlannedChangesArgs → PlannedChanges
  ReleaseUpToDate : Release → Release → Except String Bool
  now : Time
  mem : Mem

/-- The error `Plan` returns: a wrapped failure of a step, or the sentinel
`resrcchangcalc.ErrChangesPlanned`. -/
inductive PlanError where
  | failed (msg : String)
  | ErrChangesPlanned
deriving DecidableEq, Repr

/-- Lines 384-386 of `applyPlanOptionsDefaults`. -/
def defaultChartDirPath (opts : PlanOptions) (currentDir : String) : PlanOptions :=
  if opts.ChartDirPath = "" then { opts with ChartDirPath := currentDir } else opts

/-- Lines 388-394 of `applyPlanOptionsDefaults`. -/
def defaultTempDirPath (W : PlanWorld) (opts : PlanOptions) : Except String PlanOptions :=
  if opts.TempDirPath = "" then
    match W.MkdirTemp with
    | Except.error err => Except.error (wrapErr "create temp dir" err)
    | Except.ok dir => Except.ok { opts with TempDirPath := dir }
  else Except.ok opts

/-- Lines 396-398 of `applyPlanOptionsDefaults`. -/
def defaultKubeConfigPaths (opts : PlanOptions) (currentUserHomeDir : String) : PlanOptions :=
  if opts.KubeConfigBase64 = "" ∧ opts.KubeConfigPaths.length = 0 then
    { opts with KubeConfigPaths := [currentUserHomeDir ++ "/.kube/config"] }
  else opts

/-- Lines 400-402 of `applyPlanOptionsDefaults`. -/
def defaultLogRegistryStreamOut (opts : PlanOptions) : PlanOptions :=
  if opts.LogRegistryStreamOut = none then { opts with LogRegistryStreamOut := some "stdout" }
  else opts

/-- Lines 404-406 of `applyPlanOptionsDefaults`. -/
def defaultNetworkParallelism (opts : PlanOptions) : PlanOptions :=
  if opts.NetworkParallelism ≤ 0 then { opts with NetworkParallelism := 30 } else opts

/-- Lines 412-418 of `applyPlanOptionsDefaults`. -/
def resolveReleaseStorageDriver (opts : PlanOptions) : Except String PlanOptions :=
  if opts.ReleaseStorageDriver = ReleaseStorageDriver.ReleaseStorageDriverDefault then
    Except.ok { opts with ReleaseStorageDriver := ReleaseStorageDriver.ReleaseStorageDriverSecrets }
  else if opts.ReleaseStorageDriver = ReleaseStorageDriver.ReleaseStorageDriverMemory then
    Except.error "memory release storage driver is not supported"
  else Except.ok opts

/-- Go `applyPlanOptionsDefaults` (lines 383-419). -/
def applyPlanOptionsDefaults (W : PlanWorld) (opts : PlanOptions) (currentDir : String)
    (currentUserHomeDir : String) : Except String PlanOptions :=
  match defaultTempDirPath W (defaultChartDirPath opts currentDir) with
  | Except.error err => Except.error err
  | Except.ok opts =>
    let opts := defaultNetworkParallelism
      (defaultLogRegistryStreamOut (defaultKubeConfigPaths opts currentUserHomeDir))
    if opts.ReleaseName = "" then Except.error "release name not specified"
    else resolveReleaseStorageDriver opts

/-- Lines 231-238 of `Plan`: `newRevision` and `firstDeployed`. Without a previous release
`firstDeployed` keeps the zero value it was declared with. -/
def newRevisionAndFirstDeployed (prevRelease : Option Release) : Int × Time :=
  match prevRelease with
  | some prev => (wrapInt (prev.Revision + 1), prev.FirstDeployed)
  | none => (1, Time.zero)

/-- Lines 240-247 of `Plan`: `deployType`. -/
def selectDeployType (prevReleaseFound prevDeployedReleaseFound : Bool) : DeployType :=
  if prevReleaseFound && prevDeployedReleaseFound then DeployType.DeployTypeUpgrade
  else if prevReleaseFound then DeployType.DeployTypeInstall
  else DeployType.DeployTypeInitial

/-- Lines 289-319 of `Plan`: the options of the processor. -/
def processorOptions (K : Ext) (opts : PlanOptions) : DeployableResourcesProcessorOptions :=
  { NetworkParallelism := opts.NetworkParallelism
    HookResourceTransformers := []
    GeneralResourceTransformers := []
    ReleasableHookResourcePatchers :=
      [K.NewExtraMetadataPatcher opts.ExtraAnnotations opts.ExtraLabels]
    ReleasableGeneralResourcePatchers :=
      [K.NewExtraMetadataPatcher opts.ExtraAnnotations opts.ExtraLabels]
    DeployableStandaloneCRDsPatchers :=
      [K.NewExtraMetadataPatcher (Assign opts.ExtraAnnotations opts.ExtraRuntimeAnnotations)
        opts.ExtraLabels]
    DeployableHookResourcePatchers :=
      [K.NewExtraMetadataPatcher (Assign opts.ExtraAnnotations opts.ExtraRuntimeAnnotations)
        opts.ExtraLabels]
    DeployableGeneralResourcePatchers :=
      [K.NewExtraMetadataPatcher (Assign opts.ExtraAnnotations opts.ExtraRuntimeAnnotations)
        opts.ExtraLabels]
    AllowClusterAccess := true }

/-- Lines 116-119 of `Plan`: the release namespace becomes the namespace of the settings. -/
def withSettingsNamespace (W : PlanWorld) (opts : PlanOptions) : PlanOptions :=
  { opts with ReleaseNamespace := W.SettingsNamespace opts.ReleaseNamespace }

/-- Lines 186-203 of `Plan`: the error of the legacy hook, if there is a hook. -/
def runLegacyPrePlanHook (opts : PlanOptions) : Option String :=
  match opts.LegacyPrePlanHook with
  | some hook => hook opts.ReleaseNamespace
  | none => none

/-- Lines 81-219 of `Plan`: the options after the defaults and the namespace of the
settings, or the wrapped error of the first step that fails. -/
def planSetup (W : PlanWorld) (opts : PlanOptions) : Except String PlanOptions :=
  match W.Getwd with
  | Except.error err => Except.error (wrapErr "get current working directory" err)
  | Except.ok currentDir =>
  match W.UserCurrentHomeDir with
  | Except.error err => Except.error (wrapErr "get current user" err)
  | Except.ok currentUserHomeDir =>
  match applyPlanOptionsDefaults W opts currentDir currentUserHomeDir with
  | Except.error err => Except.error (wrapErr "build plan options" err)
  | Except.ok opts =>
  match W.NewKubeConfigGetter with
  | some err => Except.error (wrapErr "construct kube config getter" err)
  | none =>
  match W.NewRegistryClient with
  | some err => Except.error (wrapErr "construct registry client" err)
  | none =>
  match W.ActionConfigInit with
  | some err => Except.error (wrapErr "helm action config init" err)
  | none =>
  match W.NewClientFactory with
  | some err => Except.error (wrapErr "construct kube client factory" err)
  | none =>
  match runLegacyPrePlanHook (withSettingsNamespace W opts) with
  | some err => Except.error (wrapErr "legacy pre plan hook" err)
  | none =>
  match W.NewHistory with
  | some err => Except.error (wrapErr "construct release history" err)
  | none => Except.ok (withSettingsNamespace W opts)

/-- The local variables of `Plan` when it reaches line 364. -/
structure PlanLocals where
  opts : PlanOptions
  prevRelease : Option Release
  prevDeployedReleaseFound : Bool
  newRevision : Int
  firstDeployed : Time
  deployType : DeployType
  resProcessor : DeployableResourcesProcessor
  newRelArgs : NewReleaseArgs
  newRel : Release
  changes : PlannedChanges
  releaseUpToDate : Bool

/-- Lines 273-278 of `Plan`: `prevRelGeneralResources`. -/
def prevRelGeneralResourcesOf (prevRelease : Option Release) : List Resource :=
  match prevRelease with
  | some prev => prev.GeneralResources
  | none => []

/-- Lines 273-278 of `Plan`: `prevRelFailed`. -/
def prevRelFailedOf (prevRelease : Option Release) : Bool :=
  match prevRelease with
  | some prev => prev.Failed
  | none => false

/-- Lines 356-362 of `Plan`: `releaseUpToDate`, which keeps the `false` it was declared with
when there is no previous release. -/
def checkReleaseUpToDate (W : PlanWorld) (prevRelease : Option Release) (newRel : Release) :
    Except String Bool :=
  match prevRelease with
  | some prev =>
    match W.ReleaseUpToDate prev newRel with
    | Except.error err => Except.error (wrapErr "check if release is up to date" err)
    | Except.ok upToDate => Except.ok upToDate
  | none => Except.ok false

/-- Lines 81-362 of `Plan`: the local variables at line 364, or the wrapped error of the
first step that fails. -/
def planLocals (K : Ext) (W : PlanWorld) (opts : PlanOptions) : Except String PlanLocals :=
  match planSetup W opts with
  | Except.error err => Except.error err
  | Except.ok opts =>
  match W.LastRelease with
  | Except.error err => Except.error (wrapErr "get last release" err)
  | Except.ok prevRelease =>
  match W.LastDeployedRelease with
  | Except.error err => Except.error (wrapErr "get last deployed release" err)
  | Except.ok prevDeployedRelease =>
  let prevReleaseFound := prevRelease.isSome
  let prevDeployedReleaseFound := prevDeployedRelease.isSome
  let newRevision := (newRevisionAndFirstDeployed prevRelease).1
  let firstDeployed := (newRevisionAndFirstDeployed prevRelease).2
  let deployType := selectDeployType prevReleaseFound prevDeployedReleaseFound
  match W.NewChartTree newRevision deployType with
  | Except.error err => Except.error (wrapErr "construct chart tree" err)
  | Except.ok chartTree =>
  let notes := chartTree.Notes
  let prevRelGeneralResources := prevRelGeneralResourcesOf prevRelease
  let prevRelFailed := prevRelFailedOf prevRelease
  let resProcessor := NewDeployableResourcesProcessor K deployType opts.ReleaseName
    opts.ReleaseNamespace chartTree.StandaloneCRDs chartTree.HookResources
    chartTree.GeneralResources prevRelGeneralResources (processorOptions K opts)
  let processed := Process K resProcessor W.mem
  match processed.err with
  | some err => Except.error (wrapErr "process resources" err)
  | none =>
  let resProcessor := processed.p
  let newRelArgs : NewReleaseArgs :=
    { name := opts.ReleaseName, ns := opts.ReleaseNamespace, revision := newRevision,
      values := chartTree.ReleaseValues, legacyChart := chartTree.LegacyChart,
      hookResources := ReleasableHookResources resProcessor,
      generalResources := ReleasableGeneralResources resProcessor,
      notes := notes, FirstDeployed := firstDeployed }
  match W.NewRelease newRelArgs with
  | Except.error err => Except.error (wrapErr "construct new release" err)
  | Except.ok newRel =>
  let changes := W.CalculatePlannedChanges
    { releaseName := opts.ReleaseName, releaseNamespace := opts.ReleaseNamespace,
      standaloneCRDsInfos := DeployableStandaloneCRDsInfos resProcessor,
      hookResourcesInfos := DeployableHookResourcesInfos resProcessor,
      generalResourcesInfos := DeployableGeneralResourcesInfos resProcessor,
      prevReleaseGeneralResourcesInfos := DeployablePrevReleaseGeneralResourcesInfos resProcessor,
      prevRelFailed := prevRelFailed }
  match checkReleaseUpToDate W prevRelease newRel with
  | Except.error err => Except.error err
  | Except.ok releaseUpToDate =>
    Except.ok
      { opts := opts, prevRelease := prevRelease,
        prevDeployedReleaseFound := prevDeployedReleaseFound, newRevision := newRevision,
        firstDeployed := firstDeployed, deployType := deployType,
        resProcessor := resProcessor, newRelArgs := newRelArgs, newRel := newRel,
        changes := changes, releaseUpToDate := releaseUpToDate }

/-- Lines 376-380 of `Plan`: the final step. -/
def planVerdict (errorIfChangesPlanned planChangesPlanned releaseUpToDate : Bool) :
    Option PlanError :=
  if errorIfChangesPlanned && (planChangesPlanned || !releaseUpToDate) then
    some PlanError.ErrChangesPlanned
  else none

/-- Go `Plan` (lines 80-381): the returned error, `none` for `nil`. -/
def Plan (K : Ext) (W : PlanWorld) (opts : PlanOptions) : Option PlanError :=
  match planLocals K W opts with
  | Except.error err => some (PlanError.failed err)
  | Except.ok l =>
    planVerdict l.opts.ErrorIfChangesPlanned l.changes.planChangesPlanned l.releaseUpToDate


/-! ## Reading the call log -/

/-- The info and the result of a `Patch` call; nothing for another event. -/
def Event.patchCall? : Event → Option (ResourceInfo × Except String PatchedObj)
  | Event.patchCall _ info result => some (info, result)
  | _ => none

/-- The source and the new address of a deep copy; nothing for another event. -/
def Event.deepCopy? : Event → Option (Nat × Nat)
  | Event.deepCopy src dst => some (src, dst)
  | _ => none

/-- Whether the event is a `Match` call that returned true. -/
def Event.matched : Event → Bool
  | Event.matchCall _ _ (Except.ok true) => true
  | _ => false

/-- The `Patch` calls of a log, in order. -/
def patchCalls (log : List Event) : List (ResourceInfo × Except String PatchedObj) :=
  log.filterMap Event.patchCall?

/-- The deep copies of a log, in order. -/
def deepCopies (log : List Event) : List (Nat × Nat) :=
  log.filterMap Event.deepCopy?

/-- Whether some patcher matched in a log. -/
def someMatched (log : List Event) : Bool :=
  log.any Event.matched

/-- A `Patch` call is given the object of the resource rebuilt from the output of the
previous `Patch` call: the content that call returned, at the address that call was given
when it returned its argument. -/
def rebuiltFrom (prev next : ResourceInfo × Except String PatchedObj) : Prop :=
  ∃ out, prev.2 = Except.ok out ∧ next.1.Obj.obj = out.obj
    ∧ (out.inPlace = true → next.1.Obj.addr = prev.1.Obj.addr)

/-- What the stages of `Process` read and never assign: the deploy type, the identity of the
release and the five patcher stacks. -/
def setupOf (p : DeployableResourcesProcessor) :
    DeployType × String × String × List ResourcePatcher × List ResourcePatcher
      × List ResourcePatcher × List ResourcePatcher × List ResourcePatcher :=
  (p.deployType, p.releaseName, p.releaseNamespace, p.releasableHookResourcePatchers,
    p.releasableGeneralResourcePatchers, p.deployableStandaloneCRDsPatchers,
    p.deployableHookResourcePatchers, p.deployableGeneralResourcePatchers)

/-- The union `validateNoDuplicates` checks: the standalone CRDs, the (transformed) hooks and
the (transformed) generals of the processor. -/
def unionResources (p : DeployableResourcesProcessor) : List Resource :=
  p.standaloneCRDs ++ p.hookResources ++ p.generalResources

/-! ## Uninstall (pkg/action/uninstall.go) -/

/-- Go `UninstallOptions` (lines 32-45); the print interval is a `time.Duration`, in
nanoseconds. -/
structure UninstallOptions where
  DeleteHooks : Bool
  DeleteReleaseNamespace : Bool
  KubeConfigBase64 : String
  KubeConfigPaths : List String
  KubeContext : String
  LogDebug : Bool
  ProgressTablePrintInterval : Int
  ReleaseHistoryLimit : Int
  ReleaseName : String
  ReleaseNamespace : String
  ReleaseStorageDriver : ReleaseStorageDriver
  TempDirPath : String
deriving DecidableEq, Repr

/-- Lines 242-248 of `applyUninstallOptionsDefaults`; `mkdirTemp` is what `os.MkdirTemp`
returns. -/
def uninstallDefaultTempDirPath (mkdirTemp : Except String String) (opts : UninstallOptions) :
    Except String UninstallOptions :=
  if opts.TempDirPath = "" then
    match mkdirTemp with
    | Except.error err => Except.error (wrapErr "create temp dir" err)
    | Except.ok dir => Except.ok { opts with TempDirPath := dir }
  else Except.ok opts

/-- Lines 250-252 of `applyUninstallOptionsDefaults`. -/
def uninstallDefaultKubeConfigPaths (opts : UninstallOptions) (currentUserHomeDir : String) :
    UninstallOptions :=
  if opts.KubeConfigBase64 = "" ∧ opts.KubeConfigPaths.length = 0 then
    { opts with KubeConfigPaths := [currentUserHomeDir ++ "/.kube/config"] }
  else opts

/-- Lines 254-256 of `applyUninstallOptionsDefaults`: five seconds by default. -/
def uninstallDefaultPrintInterval (opts : UninstallOptions) : UninstallOptions :=
  if opts.ProgressTablePrintInterval ≤ 0 then
    { opts with ProgressTablePrintInterval := 5 * 1000000000 }
  else opts

/-- Lines 258-260 of `applyUninstallOptionsDefaults`. -/
def uninstallDefaultHistoryLimit (opts : UninstallOptions) : UninstallOptions :=
  if opts.ReleaseHistoryLimit ≤ 0 then { opts with ReleaseHistoryLimit := 10 } else opts

/-- Lines 266-270 of `applyUninstallOptionsDefaults`. -/
def uninstallResolveReleaseStorageDriver (opts : UninstallOptions) :
    Except String UninstallOptions :=
  if opts.ReleaseStorageDriver = ReleaseStorageDriver.ReleaseStorageDriverDefault then
    Except.ok { opts with ReleaseStorageDriver := ReleaseStorageDriver.ReleaseStorageDriverSecrets }
  else if opts.ReleaseStorageDriver = ReleaseStorageDriver.ReleaseStorageDriverMemory then
    Except.error "memory release storage driver is not supported"
  else Except.ok opts

/-- Go `applyUninstallOptionsDefaults` (lines 241-273 of uninstall.go); the current directory
is not used. -/
def applyUninstallOptionsDefaults (mkdirTemp : Except String String) (opts : UninstallOptions)
    (_currentDir : String) (currentUserHomeDir : String) : Except String UninstallOptions :=
  match uninstallDefaultTempDirPath mkdirTemp opts with
  | Except.error err => Except.error err
  | Except.ok opts =>
    let opts := uninstallDefaultHistoryLimit
      (uninstallDefaultPrintInterval (uninstallDefaultKubeConfigPaths opts currentUserHomeDir))
    if opts.ReleaseName = "" then Except.error "release name not specified"
    else uninstallResolveReleaseStorageDriver opts

/-- The limits of the four pools, in the order standalone CRDs, hooks, generals,
previous-release generals. -/
def InfoPools.limits (pools : InfoPools) : List Int :=
  [pools.standaloneCRDsPool.maxGoroutines, pools.hookResourcesPool.maxGoroutines,
    pools.generalResourcesPool.maxGoroutines,
    pools.prevReleaseGeneralResourcesPool.maxGoroutines]

/-- Whether the check of `validateAdoptableResources` fails for an info: it has a live
resource and `AdoptableBy` says no. -/
def isNotAdoptable (K : Ext) (releaseName releaseNamespace : String)
    (genResInfo : DeployableInfo) : Bool :=
  match genResInfo.LiveResource with
  | none => false
  | some live => !(K.AdoptableBy live releaseName releaseNamespace).1

/-- The message of line 742 for an info and the reason `AdoptableBy` gave. -/
def notAdoptableMessage (K : Ext) (genResInfo : DeployableInfo) (reason : String) : String :=
  "resource " ++ quote (genResInfo.resource.HumanID K) ++ " is not adoptable: " ++ reason

/-- The reason `AdoptableBy` gives for the live resource of an info (empty without one). -/
def nonAdoptableReason (K : Ext) (releaseName releaseNamespace : String)
    (genResInfo : DeployableInfo) : String :=
  match genResInfo.LiveResource with
  | none => ""
  | some live => (K.AdoptableBy live releaseName releaseNamespace).2

/-- What the result accessors of the processor return: the five resource lists and the four
info lists. -/
def resultsOf (p : DeployableResourcesProcessor) :
    List Resource × List Resource × List Resource × List Resource × List Resource
      × List DeployableInfo × List DeployableInfo × List DeployableInfo × List DeployableInfo :=
  (p.releasableHookResources, p.releasableGeneralResources, p.deployableStandaloneCRDs,
    p.deployableHookResources, p.deployableGeneralResources, p.deployableStandaloneCRDsInfos,
    p.deployableHookResourcesInfos, p.deployableGeneralResourcesInfos,
    p.deployablePrevRelGeneralResourcesInfos)

/-! ## The transformer pipeline as the spec words it -/

/-- The info a transform function gives to `Match` and `Transform` for a resource
(lines 235-239, 246-250). -/
def transformInfoOf (ty : ResourceType) (res : Resource) : ResourceInfo :=
  { Obj := res.Unstructured, Typ := ty, ManageableBy := res.ManageableBy }

/-- Following the spec (4.C): what one transformer makes of one resource. A resource it
matches is replaced by the resources built from the objects `Transform` returns, in the
returned order; any other resource is kept as it is. -/
def replaceOrKeep (K : Ext) (ty : ResourceType) (releaseNamespace : String)
    (T : ResourceTransformer) (res : Resource) (m : Mem) : List Resource × Mem :=
  match T.Match (transformInfoOf ty res), T.Transform (transformInfoOf ty res) with
  | Except.ok true, Except.ok newObjs =>
    newResources K ty { FilePath := res.FilePath, DefaultNamespace := releaseNamespace }
      newObjs m
  | _, _ => ([res], m)

/-- A flat-map over a resource list: the results for the elements, concatenated in order;
the memory is handed from one element to the next. -/
def flatMapResources (f : Resource → Mem → List Resource × Mem) :
    List Resource → Mem → List Resource × Mem
  | [], m => ([], m)
  | res :: rest, m =>
    let here := f res m
    let there := flatMapResources f rest here.2
    (here.1 ++ there.1, there.2)

/-- Following the spec (4.C): the pipeline is the fold, over the transformers in order, of
the flat-map of each; a transformer sees the output of the one before. -/
def pipelineSpec (K : Ext) (ty : ResourceType) (releaseNamespace : String)
    (transformers : List ResourceTransformer) (resources : List Resource) (m : Mem) :
    List Resource × Mem :=
  transformers.foldl
    (fun st T => flatMapResources (replaceOrKeep K ty releaseNamespace T) st.1 st.2)
    (resources, m)

/-! ## Sorted lists -/

/-- A comparison handler that is a strict weak order, as `sort.SliceStable` expects of its
`less` function: never both `a < b` and `b < a`, and "not less" is transitive. -/
def StrictWeak {α : Type} (less : α → α → Bool) : Prop :=
  (∀ a b, less a b = true → less b a = false)
  ∧ ∀ a b c, less a b = false → less b c = false → less a c = false

/-- A list sorted ascending under a handler: no element is less than one before it. -/
def Ascending {α : Type} (less : α → α → Bool) (xs : List α) : Prop :=
  xs.Pairwise (fun a b => less b a = false)

/-- Following the spec (sorted, stable): `out` is a permutation of `input`, is ascending, and
two elements of which the later is not less than the earlier - in particular two that compare
equal - appear in `out` in the relative order they have in `input`. -/
def StableSortOf {α : Type} (less : α → α → Bool) (input out : List α) : Prop :=
  out.Perm input
  ∧ Ascending less out
  ∧ ∀ a b, List.Sublist [a, b] input → less b a = false → List.Sublist [a, b] out

/-! ## Delivery orders of a pool -/

/-- The collaborators `K` with another order in which a pool hands over its results. -/
def withDelivery (K : Ext)
    (d : List (Except String DeployableInfo) → List (Except String DeployableInfo)) : Ext :=
  { K with deliver := d }

/-- An order of delivery: the pool hands over every result of its tasks once, in some
order. -/
def IsDelivery
    (d : List (Except String DeployableInfo) → List (Except String DeployableInfo)) : Prop :=
  ∀ results, (d results).Perm results

/-- A handler decides between any two different elements of a list. -/
def TotalOn {α : Type} (less : α → α → Bool) (xs : List α) : Prop :=
  ∀ a ∈ xs, ∀ b ∈ xs, a ≠ b → less a b = true ∨ less b a = true

/-- Every resource of a class can be read from the cluster: no GET fails. -/
def allLive (K : Ext) (cls : InfoClass) (releaseNamespace : String)
    (resources : List Resource) : Prop :=
  ∀ res ∈ resources, ∃ live, K.getLive cls res releaseNamespace = Except.ok live

/-- Following the spec (4.F): one info per resource, pairing the resource with the live
object the cluster returns for it, in the order of the resources. -/
def expectedInfos (K : Ext) (cls : InfoClass) (releaseNamespace : String)
    (resources : List Resource) : List DeployableInfo :=
  resources.filterMap (fun res =>
    match K.getLive cls res releaseNamespace with
    | Except.ok live => some { resource := res, live := live }
    | Except.error _ => none)

/-! ## Stages splitter (pkg/deploy/stages_splitter.go) -/

/-- Modelled from the spec: `resource.Info` of the Kubernetes client library is not among
the sources; what `Split` reads of it is the object it carries. -/
structure resource.Info where
  Object : Nelm.Object
deriving DecidableEq, Repr

/-- Modelled from the spec: `stages.Stage` is not among the sources; `Split` assigns its
`Weight` and appends to its `DesiredResources`. -/
structure stages.Stage where
  Weight : Int
  DesiredResources : List resource.Info
deriving DecidableEq, Repr

/-- Go `stages.SortedStageList`, a slice of stage pointers. -/
abbrev stages.SortedStageList := List stages.Stage

/-- What `Split` calls and reads that is not among the sources. -/
structure DeployExt where
  /-- Go constant `StageWeightAnnoName` of package `deploy`. -/
  StageWeightAnnoName : String
  /-- Go `strconv.Atoi`. -/
  Atoi : String → Except String Int
  /-- Go `metadataAccessor.Annotations(obj)`. -/
  Annotations : Object → Except String StrMap
  /-- The error `Visit` hands to the function together with an info; `none` is `nil`. -/
  visitErr : resource.Info → Option String

/-- Modelled from the spec: `StageByWeight` is not among the sources. The stage of the list
that has the given weight - the first one, as a position in the list - or `none` for `nil`. -/
def stages.StageByWeight : stages.SortedStageList → Int → Option Nat
  | [], _ => none
  | stage :: rest, weight =>
    if stage.Weight = weight then some 0
    else (stages.StageByWeight rest weight).map (fun i => i + 1)

/-- Go `stage.DesiredResources.Append(resInfo)` through the pointer `stage`: the stage at
that position gets the info at the end of its resources. -/
def stages.appendAt (resInfo : resource.Info) :
    stages.SortedStageList → Nat → stages.SortedStageList
  | [], _ => []
  | stage :: rest, 0 =>
    { stage with DesiredResources := stage.DesiredResources ++ [resInfo] } :: rest
  | stage :: rest, i + 1 => stage :: stages.appendAt resInfo rest i

/-- Lines 34-40 of `Split`: the weight of a resource with the given annotations - zero when
the weight annotation is absent, the parsed value when it is an integer. -/
def stageWeight (D : DeployExt) (annotations : StrMap) : Except String Int :=
  match annotations.lookup D.StageWeightAnnoName with
  | none => Except.ok 0
  | some w =>
    match D.Atoi w with
    | Except.error err =>
      Except.error (wrapErr ("error parsing annotation \"" ++ D.StageWeightAnnoName ++ ": "
        ++ w ++ "\" — value should be an integer") err)
    | Except.ok weight => Except.ok weight

/-- Lines 42-52 of `Split`: the stage list after the resource is put into the stage of its
weight, a new stage at the end of the list when there is none yet. -/
def placeResource (stageList : stages.SortedStageList) (weight : Int)
    (resInfo : resource.Info) : stages.SortedStageList :=
  match stages.StageByWeight stageList weight with
  | none => stageList ++ [{ Weight := weight, DesiredResources := [resInfo] }]
  | some stage => stages.appendAt resInfo stageList stage

/-- The function `Split` gives to `Visit` (lines 26-54); the stage list the closure captures
is an argument and a result. -/
def visitFn (D : DeployExt) (stageList : stages.SortedStageList) (resInfo : resource.Info)
    (err : Option String) : Except String stages.SortedStageList :=
  match err with
  | some e => Except.error e
  | none =>
    match D.Annotations resInfo.Object with
    | Except.error e => Except.error (wrapErr "error getting annotations for object" e)
    | Except.ok annotations =>
      match stageWeight D annotations with
      | Except.error e => Except.error e
      | Except.ok weight => Except.ok (placeResource stageList weight resInfo)

/-- Modelled from the spec: `kube.ResourceList.Visit` is not among the sources. It calls the
function once per resource, in list order, and stops at the first error. -/
def Visit (D : DeployExt)
    (fn : stages.SortedStageList → resource.Info → Option String →
      Except String stages.SortedStageList) :
    List resource.Info → stages.SortedStageList → Except String stages.SortedStageList
  | [], stageList => Except.ok stageList
  | resInfo :: rest, stageList =>
    match fn stageList resInfo (D.visitErr resInfo) with
    | Except.error e => Except.error e
    | Except.ok stageList1 => Visit D fn rest stageList1

/-- Modelled from the spec: `sort.Sort(stageList)` with the `Less` of the list type, which is
not among the sources: the stages in ascending weight. The stages of `Split` have pairwise
distinct weights, so every sorting algorithm returns the same list. -/
def stages.Sort (stageList : stages.SortedStageList) : stages.SortedStageList :=
  stageList.insertionSort (fun a b => a.Weight ≤ b.Weight)

/-- Go `(*StagesSplitter).Split` (lines 23-63). -/
def StagesSplitter.Split (D : DeployExt) (resources : List resource.Info) :
    Except String stages.SortedStageList :=
  match Visit D (visitFn D) resources [] with
  | Except.error err => Except.error (wrapErr "error visiting resources list" err)
  | Except.ok stageList => Except.ok (stages.Sort stageList)

/-- Following the spec (4.H): the weight of a resource - the value of its weight annotation,
zero when the annotation is absent. -/
def weightOf (D : DeployExt) (resInfo : resource.Info) : Int :=
  match D.Annotations resInfo.Object with
  | Except.error _ => 0
  | Except.ok annotations =>
    match annotations.lookup D.StageWeightAnnoName with
    | none => 0
    | some w =>
      match D.Atoi w with
      | Except.error _ => 0
      | Except.ok weight => weight

/-- Following the spec (4.H): a resource that can be visited and whose weight annotation is
absent or a valid integer. -/
def validWeight (D : DeployExt) (resInfo : resource.Info) : Prop :=
  D.visitErr resInfo = none
  ∧ ∃ annotations, D.Annotations resInfo.Object = Except.ok annotations
    ∧ ∀ w, annotations.lookup D.StageWeightAnnoName = some w → ∃ weight, D.Atoi w = Except.ok weight

/-- The resources of the stage with a given weight, none when the list has no such stage. -/
def bucket (stageList : stages.SortedStageList) (weight : Int) : List resource.Info :=
  match stageList.find? (fun stage => decide (stage.Weight = weight)) with
  | some stage => stage.DesiredResources
  | none => []

/-- What holds of the stage list after `Visit` has handed the resources `done` to the
function of `Split`: the weights of the stages are pairwise distinct, the stage of a weight
holds the resources of that weight in the order they came, no stage is empty, and the sizes
of the stages sum to the number of resources. -/
def splitInvariant (D : DeployExt) (done : List resource.Info)
    (stageList : stages.SortedStageList) : Prop :=
  (stageList.map (fun stage => stage.Weight)).Nodup
  ∧ (∀ weight, bucket stageList weight
      = done.filter (fun resInfo => decide (weightOf D resInfo = weight)))
  ∧ (∀ weight ∈ stageList.map (fun stage => stage.Weight), bucket stageList weight ≠ [])
  ∧ (stageList.map (fun stage => stage.DesiredResources.length)).sum = done.length

/-! ## Annotation helpers (resrc/util.go) -/

/-- Go `*regexp.Regexp`, as far as the helpers use it: its `MatchString`. -/
structure Regexp where
  MatchString : String → Bool

/-- What the annotation helpers call and read that is not among the sources. -/
structure UtilExt where
  /-- Go variable `annotationKeyPatternHook` of package `resrc`. -/
  annotationKeyPatternHook : Regexp
  /-- Go `strings.TrimSpace`. -/
  TrimSpace : String → String
  /-- The order in which a `range` over a map visits the entries of the map. -/
  rangeOrder : StrMap → StrMap

/-- Go `lo.FindKeyBy(object, predicate)`: the key of the first entry, in the order the map is
ranged over, that satisfies the predicate; the zero key and false when there is none. -/
def FindKeyBy (U : UtilExt) (object : StrMap) (predicate : String → String → Bool) :
    String × Bool :=
  match (U.rangeOrder object).find? (fun kv => predicate kv.1 kv.2) with
  | some kv => (kv.1, true)
  | none => ("", false)

/-- Go `m[key]` on a `map[string]string`: the value of the key, the empty string when the
key is absent. -/
def mapIndex (m : StrMap) (key : String) : String :=
  (m.lookup key).getD ""

/-- Go `m[key] = value`: the entry of the key is replaced, or added when the key is new. -/
def mapSet (m : StrMap) (key value : String) : StrMap :=
  if m.any (fun kv => kv.1 == key) then
    m.map (fun kv => if kv.1 = key then (key, value) else kv)
  else m ++ [(key, value)]

/-- Go `FindAnnotationOrLabelByKeyPattern` (lines 30-39): key, value, found. -/
def FindAnnotationOrLabelByKeyPattern (U : UtilExt) (annotationsOrLabels : StrMap)
    (pattern : Regexp) : String × String × Bool :=
  let r := FindKeyBy U annotationsOrLabels (fun k _ => pattern.MatchString k)
  let key := r.1
  let found := r.2
  let value := if found then U.TrimSpace (mapIndex annotationsOrLabels key) else ""
  (key, value, found)

/-- Go `FindAnnotationsOrLabelsByKeyPattern` (lines 41-51): result, found. -/
def FindAnnotationsOrLabelsByKeyPattern (U : UtilExt) (annotationsOrLabels : StrMap)
    (pattern : Regexp) : StrMap × Bool :=
  let result := (U.rangeOrder annotationsOrLabels).foldl
    (fun result kv =>
      if pattern.MatchString kv.1 then mapSet result kv.1 (U.TrimSpace kv.2) else result)
    []
  (result, decide (result.length > 0))

/-- Go `IsHook` (lines 25-28). -/
def IsHook (U : UtilExt) (annotations : StrMap) : Bool :=
  (FindAnnotationOrLabelByKeyPattern U annotations U.annotationKeyPatternHook).2.2

/-- The helpers with another order in which a `range` visits a map. -/
def withRangeOrder (U : UtilExt) (order : StrMap → StrMap) : UtilExt :=
  { U with rangeOrder := order }

/-- A `map[string]string` as a list of entries: no key occurs twice. -/
def IsGoMap (m : StrMap) : Prop :=
  (m.map (fun kv => kv.1)).Nodup

/-- An order of ranging: every entry of the map is visited once. -/
def IsRangeOrder (order : StrMap → StrMap) : Prop :=
  ∀ m, (order m).Perm m

/-- The entries of a map whose key matches a pattern, the values trimmed, in the order of
the list. -/
def matchingEntries (U : UtilExt) (pattern : Regexp) (entries : StrMap) : StrMap :=
  entries.filterMap (fun kv =>
    if pattern.MatchString kv.1 then some (kv.1, U.TrimSpace kv.2) else none)

/-! ## The permit formula -/

/-- Following the spec, the permit formula: `max(floor(n / max(t, 1)) * p, 1)`, the division
applied before the multiplication, in unbounded integers. -/
def limitFormula (n t p : Int) : Int :=
  max (n / max t 1 * p) 1

/-! ## Reading the types and the texts of a run -/

/-- The `Type` of the info given to each `Match` call of a log, with the patcher called, in
order. -/
def matchCallTypes (log : List Event) : List (String × ResourceType) :=
  log.filterMap (fun e =>
    match e with
    | Event.matchCall patcher info _ => some (patcher, info.Typ)
    | _ => none)

/-- The `Type` of the info given to each `Patch` call of a log, with the patcher called, in
order. -/
def patchCallTypes (log : List Event) : List (String × ResourceType) :=
  log.filterMap (fun e =>
    match e with
    | Event.patchCall patcher info _ => some (patcher, info.Typ)
    | _ => none)

/-- Go `strings.Contains(text, part)`. -/
def containsText (text part : String) : Bool :=
  (List.range (text.length + 1)).any (fun i => part.toList.isPrefixOf (text.toList.drop i))

/-! ## Concrete inputs -/

/-- A patcher that matches every resource and adds one annotation in place. -/
def annotatePatcher (ty key value : String) : ResourcePatcher :=
  { Typ := ty
    Match := fun _ => Except.ok true
    Patch := fun info => Except.ok
      { inPlace := true
        obj := { info.Obj.obj with annotations := info.Obj.obj.annotations ++ [(key, value)] } } }

/-- A patcher that matches no resource. -/
def idlePatcher (ty : String) : ResourcePatcher :=
  { Typ := ty
    Match := fun _ => Except.ok false
    Patch := fun info => Except.ok { inPlace := true, obj := info.Obj.obj } }

/-- A transformer that matches no resource. -/
def idleTransformer (ty : String) : ResourceTransformer :=
  { Typ := ty
    Match := fun _ => Except.ok false
    Transform := fun info => Except.ok [info.Obj.obj] }

/-- The hook phase a value of the hook annotation names. -/
def phaseOfName (name : String) : Option HookPhase :=
  if name = "pre-install" then some HookPhase.preInstall
  else if name = "post-install" then some HookPhase.postInstall
  else if name = "pre-upgrade" then some HookPhase.preUpgrade
  else if name = "post-upgrade" then some HookPhase.postUpgrade
  else if name = "pre-rollback" then some HookPhase.preRollback
  else if name = "post-rollback" then some HookPhase.postRollback
  else if name = "pre-delete" then some HookPhase.preDelete
  else if name = "post-delete" then some HookPhase.postDelete
  else if name = "test" then some HookPhase.test
  else none

/-- An instance of the functions that are not among the sources: the hook phases are read
from the annotation `helm.sh/hook`; identities are rendered as
`namespace:group:version:kind:name`, ordered by name; every resource is valid; the cluster
holds no object; the release-metadata patcher stamps the release name; the extra-metadata
patcher adds its annotations. -/
def sampleExt : Ext :=
  { NewResourceID := fun name ns gvk defaultNamespace =>
      { gvk := gvk, ns := if ns = "" then defaultNamespace else ns, name := name }
    ID := fun r => r.ns ++ ":" ++ r.gvk.Group ++ ":" ++ r.gvk.Version ++ ":" ++ r.gvk.Kind
      ++ ":" ++ r.name
    HumanID := fun r => r.gvk.Kind ++ "/" ++ r.name
    ResourceIDsSortHandler := fun a b => decide (a.name.length < b.name.length)
    manageableByOf := fun _ _ => "any"
    hookTypesOf := fun obj => obj.annotations.filterMap (fun kv =>
      if kv.1 = "helm.sh/hook" then phaseOfName kv.2 else none)
    Validate := fun _ _ => none
    listsTransformer := idleTransformer "lists"
    annoLabelsTransformer := idleTransformer "drop-invalid-annotations-and-labels"
    NewReleaseMetadataPatcher := fun releaseName _ =>
      annotatePatcher "release-metadata" "release-name" releaseName
    NewExtraMetadataPatcher := fun annotations _ =>
      { Typ := "extra-metadata"
        Match := fun _ => Except.ok true
        Patch := fun info => Except.ok
          { inPlace := true
            obj := { info.Obj.obj with
              annotations := Assign info.Obj.obj.annotations annotations } } }
    getLive := fun _ _ _ => Except.ok none
    AdoptableBy := fun _ _ _ => (true, "")
    deliver := fun results => results }

/-- A Deployment named `web`, as a general resource at address 1 with its object at 0. -/
def webDeployment : Resource :=
  { addr := 1
    unstruct :=
      { addr := 0
        obj := { gvk := { Group := "apps", Version := "v1", Kind := "Deployment" },
                 name := "web", ns := "prod", annotations := [], labels := [], body := "" } }
    filePath := "templates/web.yaml"
    ResourceID := { gvk := { Group := "apps", Version := "v1", Kind := "Deployment" },
                    ns := "prod", name := "web" }
    manageableBy := "any"
    hookTypes := [] }

/-- A ConfigMap named `web` in namespace `prod`, as a hook resource at address 11. -/
def webConfigMapHook : Resource :=
  { addr := 11
    unstruct :=
      { addr := 10
        obj := { gvk := { Group := "", Version := "v1", Kind := "ConfigMap" },
                 name := "web", ns := "prod", annotations := [], labels := [], body := "" } }
    filePath := "templates/hook.yaml"
    ResourceID := { gvk := { Group := "", Version := "v1", Kind := "ConfigMap" },
                    ns := "prod", name := "web" }
    manageableBy := "any"
    hookTypes := [HookPhase.preInstall] }

/-- A second resource with the identity of `webDeployment`, from another file. -/
def webDeploymentAgain : Resource :=
  { webDeployment with addr := 21, unstruct := { webDeployment.unstruct with addr := 20 },
                       filePath := "templates/copy.yaml",
                       hookTypes := [HookPhase.preInstall] }

/-- The Namespace `prod`, as a general resource. -/
def prodNamespace : Resource :=
  { addr := 31
    unstruct :=
      { addr := 30
        obj := { gvk := { Group := "", Version := "v1", Kind := "Namespace" },
                 name := "prod", ns := "", annotations := [], labels := [], body := "" } }
    filePath := "templates/ns.yaml"
    ResourceID := { gvk := { Group := "", Version := "v1", Kind := "Namespace" },
                    ns := "", name := "prod" }
    manageableBy := "any"
    hookTypes := [] }

/-- A Job hook with one phase, named in its hook annotation, at address `addr + 1` with its
object at `addr`. -/
def hookJob (name phaseName : String) (phase : HookPhase) (addr : Nat) : Resource :=
  { addr := addr + 1
    unstruct :=
      { addr := addr
        obj := { gvk := { Group := "batch", Version := "v1", Kind := "Job" },
                 name := name, ns := "prod", annotations := [("helm.sh/hook", phaseName)],
                 labels := [], body := "" } }
    filePath := "templates/" ++ name ++ ".yaml"
    ResourceID := { gvk := { Group := "batch", Version := "v1", Kind := "Job" },
                    ns := "prod", name := name }
    manageableBy := "any"
    hookTypes := [phase] }

/-- A Job hook that runs before an install only. -/
def preInstallJob : Resource := hookJob "seed" "pre-install" HookPhase.preInstall 40

/-- A Job hook that runs before an upgrade only. -/
def preUpgradeJob : Resource := hookJob "migrate" "pre-upgrade" HookPhase.preUpgrade 50

/-- A processor for release `app` in namespace `prod` with the given resources and caller
options, as `NewDeployableResourcesProcessor` builds it. -/
def sampleProcessor (deployType : DeployType)
    (standaloneCRDs hookResources generalResources : List Resource)
    (opts : DeployableResourcesProcessorOptions) : DeployableResourcesProcessor :=
  NewDeployableResourcesProcessor sampleExt deployType "app" "prod" standaloneCRDs hookResources
    generalResources [] opts

/-- Caller options with no transformer and no patcher, and no cluster access. -/
def bareOptions : DeployableResourcesProcessorOptions :=
  { NetworkParallelism := 1, HookResourceTransformers := [], GeneralResourceTransformers := [],
    ReleasableHookResourcePatchers := [], ReleasableGeneralResourcePatchers := [],
    DeployableStandaloneCRDsPatchers := [], DeployableHookResourcePatchers := [],
    DeployableGeneralResourcePatchers := [], AllowClusterAccess := false }

/-- Caller options whose releasable general stack adds the annotation `team=core` and whose
deployable stacks are empty. -/
def releasableOnlyOptions : DeployableResourcesProcessorOptions :=
  { bareOptions with
    ReleasableGeneralResourcePatchers := [annotatePatcher "extra-metadata" "team" "core"] }

/-- A release read from the history, with a given revision. -/
def sampleRelease (revision : Int) : Release :=
  { Revision := revision, FirstDeployed := { sinceZero := 1000 }, Failed := false,
    GeneralResources := [] }

/-- A world in which every collaborator succeeds: the history holds `prevRelease` and
`prevDeployedRelease`, the chart has the one Deployment, the clock reads 5000. -/
def sampleWorld (prevRelease prevDeployedRelease : Option Release) (planChangesPlanned : Bool)
    (upToDate : Bool) : PlanWorld :=
  { Getwd := Except.ok "/work"
    UserCurrentHomeDir := Except.ok "/home/user"
    MkdirTemp := Except.ok "/tmp/plan"
    NewKubeConfigGetter := none
    SettingsNamespace := fun ns => if ns = "" then "default" else ns
    NewRegistryClient := none
    ActionConfigInit := none
    NewClientFactory := none
    NewHistory := none
    LastRelease := Except.ok prevRelease
    LastDeployedRelease := Except.ok prevDeployedRelease
    NewChartTree := fun _ _ => Except.ok
      { Notes := "", ReleaseValues := "", LegacyChart := "chart-1.0.0", StandaloneCRDs := [],
        HookResources := [], GeneralResources := [webDeployment] }
    NewRelease := fun args => Except.ok
      { Revision := args.revision, FirstDeployed := args.FirstDeployed, Failed := false,
        GeneralResources := args.generalResources }
    CalculatePlannedChanges := fun _ =>
      { created := [], recreated := [], updated := [], applied := [], deleted := [],
        planChangesPlanned := planChangesPlanned }
    ReleaseUpToDate := fun _ _ => Except.ok upToDate
    now := { sinceZero := 5000 }
    mem := { next := 2, log := [] } }

/-- Options of a plan of release `app` in namespace `prod`. -/
def sampleOptions (errorIfChangesPlanned : Bool) : PlanOptions :=
  { ChartDirPath := "", ChartRepositoryInsecure := false, ChartRepositorySkipTLSVerify := false,
    ChartRepositorySkipUpdate := false, DefaultSecretValuesDisable := false,
    DefaultValuesDisable := false, ErrorIfChangesPlanned := errorIfChangesPlanned,
    ExtraAnnotations := [("team", "core")], ExtraLabels := [], ExtraRuntimeAnnotations := [],
    KubeConfigBase64 := "", KubeConfigPaths := [], KubeContext := "", LogDebug := false,
    LogRegistryStreamOut := none, NetworkParallelism := 0, RegistryCredentialsPath := "",
    ReleaseName := "app", ReleaseNamespace := "prod",
    ReleaseStorageDriver := ReleaseStorageDriver.ReleaseStorageDriverDefault,
    SecretKeyIgnore := false, SecretValuesPaths := [], TempDirPath := "", ValuesFileSets := [],
    ValuesFilesPaths := [], ValuesSets := [], ValuesStringSets := [], LegacyPrePlanHook := none }

/-- Options of an uninstall of release `app` in namespace `prod` with a given storage
driver. -/
def sampleUninstallOptions (driver : ReleaseStorageDriver) : UninstallOptions :=
  { DeleteHooks := false, DeleteReleaseNamespace := false, KubeConfigBase64 := "",
    KubeConfigPaths := [], KubeContext := "", LogDebug := false,
    ProgressTablePrintInterval := 0, ReleaseHistoryLimit := 0, ReleaseName := "app",
    ReleaseNamespace := "prod", ReleaseStorageDriver := driver, TempDirPath := "" }

/-- A Service named `api` in namespace `prod`, as a general resource at address 71. -/
def apiService : Resource :=
  { addr := 71
    unstruct :=
      { addr := 70
        obj := { gvk := { Group := "", Version := "v1", Kind := "Service" },
                 name := "api", ns := "prod", annotations := [], labels := [], body := "" } }
    filePath := "templates/api.yaml"
    ResourceID := { gvk := { Group := "", Version := "v1", Kind := "Service" },
                    ns := "prod", name := "api" }
    manageableBy := "any"
    hookTypes := [] }

/-- As `sampleExt`, on a cluster where every general resource has a live object owned by
another release. -/
def conflictExt : Ext :=
  { sampleExt with
    getLive := fun cls res _ =>
      match cls with
      | InfoClass.generalResource => Except.ok (some { obj := res.unstruct.obj })
      | _ => Except.ok none
    AdoptableBy := fun _ _ _ => (false, "owned by release \"other\"") }

/-- Caller options with no transformer and no patcher, and cluster access. -/
def clusterOptions : DeployableResourcesProcessorOptions :=
  { bareOptions with AllowClusterAccess := true }

/-- The processor of release `app` over the Service `api` on the cluster of `conflictExt`. -/
def conflictProcessor : DeployableResourcesProcessor :=
  NewDeployableResourcesProcessor conflictExt DeployType.DeployTypeInitial "app" "prod" [] []
    [apiService] [] clusterOptions

/-- A List envelope holding two ConfigMaps, as a general resource at address 91. -/
def configMapList : Resource :=
  { addr := 91
    unstruct :=
      { addr := 90
        obj := { gvk := { Group := "", Version := "v1", Kind := "List" },
                 name := "", ns := "", annotations := [], labels := [], body := "a,b" } }
    filePath := "templates/list.yaml"
    ResourceID := { gvk := { Group := "", Version := "v1", Kind := "List" },
                    ns := "prod", name := "" }
    manageableBy := "any"
    hookTypes := [] }

/-- A ConfigMap object with a given name. -/
def configMapObject (name : String) : Object :=
  { gvk := { Group := "", Version := "v1", Kind := "ConfigMap" }, name := name, ns := "prod",
    annotations := [], labels := [], body := "" }

/-- A transformer that replaces an object of kind List by the ConfigMaps `a` and `b`. -/
def listExpander : ResourceTransformer :=
  { Typ := "lists"
    Match := fun info => Except.ok (decide (info.Obj.obj.gvk.Kind = "List"))
    Transform := fun _ => Except.ok [configMapObject "a", configMapObject "b"] }

/-- A transformer that drops every ConfigMap named `b`. -/
def dropB : ResourceTransformer :=
  { Typ := "drop-b"
    Match := fun info => Except.ok (decide (info.Obj.obj.name = "b"))
    Transform := fun _ => Except.ok [] }

/-- A processor whose one general resource is the List envelope and whose caller pipeline
expands Lists and then drops `b`. -/
def expandingProcessor : DeployableResourcesProcessor :=
  sampleProcessor DeployType.DeployTypeInitial [] [] [configMapList]
    { bareOptions with GeneralResourceTransformers := [listExpander, dropB] }

/-- A Secret named `db` in namespace `prod`, as a general resource at address 95. -/
def dbSecret : Resource :=
  { addr := 95
    unstruct :=
      { addr := 94
        obj := { gvk := { Group := "", Version := "v1", Kind := "Secret" },
                 name := "db", ns := "prod", annotations := [], labels := [], body := "" } }
    filePath := "templates/db.yaml"
    ResourceID := { gvk := { Group := "", Version := "v1", Kind := "Secret" },
                    ns := "prod", name := "db" }
    manageableBy := "any"
    hookTypes := [] }

/-- A decimal parser in the manner of `strconv.Atoi`: an optional sign, then one or more
digits, the value within the range of a 64-bit `int`. -/
def sampleAtoi (s : String) : Except String Int :=
  let digits (cs : List Char) : Option Nat :=
    if cs.isEmpty then none
    else cs.foldl (fun acc c =>
      match acc with
      | some n => if 48 ≤ c.toNat ∧ c.toNat ≤ 57 then some (n * 10 + (c.toNat - 48)) else none
      | none => none) (some 0)
  let signed : Option Int :=
    match s.toList with
    | [] => none
    | c :: rest =>
      if c.toNat = 45 then (digits rest).map (fun n => -(n : Int))
      else if c.toNat = 43 then (digits rest).map (fun n => (n : Int))
      else (digits (c :: rest)).map (fun n => (n : Int))
  match signed with
  | none => Except.error ("strconv.Atoi: parsing " ++ quote s ++ ": invalid syntax")
  | some v =>
    if -(2 ^ 63) ≤ v ∧ v ≤ maxInt then Except.ok v
    else Except.error ("strconv.Atoi: parsing " ++ quote s ++ ": value out of range")

/-- Collaborators of `Split` under which every object has readable annotations and `Visit`
raises no error; the weight annotation is `werf.io/weight`. -/
def sampleDeployExt : DeployExt :=
  { StageWeightAnnoName := "werf.io/weight"
    Atoi := sampleAtoi
    Annotations := fun obj => Except.ok obj.annotations
    visitErr := fun _ => none }

/-- A ConfigMap with a given name and, when `weight` is given, that weight annotation. -/
def weighted (name : String) (weight : Option String) : resource.Info :=
  { Object :=
      { gvk := { Group := "", Version := "v1", Kind := "ConfigMap" }
        name := name
        ns := "prod"
        annotations := match weight with
          | some w => [("werf.io/weight", w)]
          | none => []
        labels := []
        body := "" } }

/-- Caller options that give the extra-metadata patcher `team=core` for the releasable
general stack and for the deployable general stack. -/
def stackedOptions : DeployableResourcesProcessorOptions :=
  { bareOptions with
    ReleasableGeneralResourcePatchers := [annotatePatcher "extra-metadata" "team" "core"]
    DeployableGeneralResourcePatchers := [annotatePatcher "extra-metadata" "team" "core"] }

/-- A pattern that matches the keys starting with `helm.sh/hook`. -/
def sampleHookPattern : Regexp :=
  { MatchString := fun k => "helm.sh/hook".toList.isPrefixOf k.toList }

/-- A trimming of blanks at both ends of a string. -/
def sampleTrimSpace (s : String) : String :=
  String.mk ((s.toList.dropWhile (fun c => c.toNat = 32)).reverse.dropWhile
    (fun c => c.toNat = 32)).reverse

/-- Helpers that range over a map in the order of its list. -/
def sampleUtilExt : UtilExt :=
  { annotationKeyPatternHook := sampleHookPattern
    TrimSpace := sampleTrimSpace
    rangeOrder := fun m => m }

/-- Annotations of a hook: a team, the hook phase (with blanks around the value) and the
hook weight. -/
def hookAnnotations : StrMap :=
  [("team", "core"), ("helm.sh/hook", " pre-install "), ("helm.sh/hook-weight", "5")]

/-- The CustomResourceDefinition `widgets.example.com`, as a standalone CRD at address 111. -/
def widgetCRD : Resource :=
  { addr := 111
    unstruct :=
      { addr := 110
        obj := { gvk := { Group := "apiextensions.k8s.io", Version := "v1",
                          Kind := "CustomResourceDefinition" },
                 name := "widgets.example.com", ns := "", annotations := [], labels := [],
                 body := "" } }
    filePath := "crds/widgets.yaml"
    ResourceID := { gvk := { Group := "apiextensions.k8s.io", Version := "v1",
                             Kind := "CustomResourceDefinition" },
                    ns := "", name := "widgets.example.com" }
    manageableBy := "any"
    hookTypes := [] }

/-- As `sampleExt`, on a cluster that refuses the GET of every hook and times out on the GET
of every general resource. -/
def failingExt : Ext :=
  { sampleExt with
    getLive := fun cls _ _ =>
      match cls with
      | InfoClass.hookResource => Except.error "connection refused"
      | InfoClass.generalResource => Except.error "timeout"
      | _ => Except.ok none }

/-! ## Properties of Plan -/

/-- The defaults leave `ErrorIfChangesPlanned` as the caller gave it. -/
theorem applyPlanOptionsDefaults_errorIfChangesPlanned (W : PlanWorld) (opts o : PlanOptions)
    (currentDir home : String)
    (h : applyPlanOptionsDefaults W opts currentDir home = Except.ok o) :
    o.ErrorIfChangesPlanned = opts.ErrorIfChangesPlanned := by
  have h1 : ∀ (a : PlanOptions), (defaultChartDirPath a currentDir).ErrorIfChangesPlanned
      = a.ErrorIfChangesPlanned := by
    intro a; unfold defaultChartDirPath; split <;> rfl
  have h2 : ∀ (a b : PlanOptions), defaultTempDirPath W a = Except.ok b →
      b.ErrorIfChangesPlanned = a.ErrorIfChangesPlanned := by
    intro a b hab; unfold defaultTempDirPath at hab
    split at hab
    · split at hab
      · cases hab
      · cases hab; rfl
    · cases hab; rfl
  have h3 : ∀ (a : PlanOptions), (defaultKubeConfigPaths a home).ErrorIfChangesPlanned
      = a.ErrorIfChangesPlanned := by
    intro a; unfold defaultKubeConfigPaths; split <;> rfl
  have h4 : ∀ (a : PlanOptions), (defaultLogRegistryStreamOut a).ErrorIfChangesPlanned
      = a.ErrorIfChangesPlanned := by
    intro a; unfold defaultLogRegistryStreamOut; split <;> rfl
  have h5 : ∀ (a : PlanOptions), (defaultNetworkParallelism a).ErrorIfChangesPlanned
      = a.ErrorIfChangesPlanned := by
    intro a; unfold defaultNetworkParallelism; split <;> rfl
  have h6 : ∀ (a b : PlanOptions), resolveReleaseStorageDriver a = Except.ok b →
      b.ErrorIfChangesPlanned = a.ErrorIfChangesPlanned := by
    intro a b hab; unfold resolveReleaseStorageDriver at hab
    split at hab
    · cases hab; rfl
    · split at hab
      · cases hab
      · cases hab; rfl
  unfold applyPlanOptionsDefaults at h
  split at h
  · cases h
  · rename_i o1 ho1
    simp only at h
    split at h
    · cases h
    · rw [h6 _ _ h, h5, h4, h3, h2 _ _ ho1, h1]

/-- The setup of `Plan` leaves `ErrorIfChangesPlanned` as the caller gave it. -/
theorem planSetup_errorIfChangesPlanned (W : PlanWorld) (opts o : PlanOptions)
    (h : planSetup W opts = Except.ok o) :
    o.ErrorIfChangesPlanned = opts.ErrorIfChangesPlanned := by
  unfold planSetup at h
  split at h
  · cases h
  split at h
  · cases h
  split at h
  · cases h
  rename_i o1 ho1
  split at h
  · cases h
  split at h
  · cases h
  split at h
  · cases h
  split at h
  · cases h
  split at h
  · cases h
  split at h
  · cases h
  cases h
  exact applyPlanOptionsDefaults_errorIfChangesPlanned W opts o1 _ _ ho1

/-- What a successful run of lines 81-362 of `Plan` says about its local variables. -/
theorem planLocals_ok (K : Ext) (W : PlanWorld) (opts : PlanOptions) (l : PlanLocals)
    (h : planLocals K W opts = Except.ok l) :
    planSetup W opts = Except.ok l.opts
    ∧ W.LastRelease = Except.ok l.prevRelease
    ∧ (∃ d, W.LastDeployedRelease = Except.ok d ∧ l.prevDeployedReleaseFound = d.isSome)
    ∧ l.newRevision = (newRevisionAndFirstDeployed l.prevRelease).1
    ∧ l.firstDeployed = (newRevisionAndFirstDeployed l.prevRelease).2
    ∧ l.deployType = selectDeployType l.prevRelease.isSome l.prevDeployedReleaseFound
    ∧ l.newRelArgs.revision = l.newRevision
    ∧ l.newRelArgs.FirstDeployed = l.firstDeployed
    ∧ W.NewRelease l.newRelArgs = Except.ok l.newRel
    ∧ checkReleaseUpToDate W l.prevRelease l.newRel = Except.ok l.releaseUpToDate := by
  unfold planLocals at h
  split at h
  · cases h
  rename_i o1 ho1
  split at h
  · cases h
  rename_i prev hprev
  split at h
  · cases h
  rename_i d hd
  simp only at h
  split at h
  · cases h
  split at h
  · cases h
  split at h
  · cases h
  rename_i newRel hnew
  split at h
  · cases h
  rename_i utd hutd
  cases h
  exact ⟨ho1, hprev, ⟨d, hd, rfl⟩, rfl, rfl, rfl, rfl, rfl, hnew, hutd⟩


/-- Wrapping leaves a value of the range of `int` as it is. -/
theorem wrapInt_of_range (x : Int) (h1 : -(2 ^ 63) ≤ x) (h2 : x < 2 ^ 63) : wrapInt x = x := by
  unfold wrapInt
  norm_num at h1 h2 ⊢
  omega

/-- C1: the deploy type `Plan` selects is a function of the two found flags of the history:
Upgrade iff both are true, Install iff a previous release is found and no deployed one,
Initial iff no previous release is found; Rollback is never selected. -/
theorem plan_deployType_law (K : Ext) (W : PlanWorld) (opts : PlanOptions) (l : PlanLocals)
    (h : planLocals K W opts = Except.ok l) :
    (∃ prevRelease prevDeployedRelease,
      W.LastRelease = Except.ok prevRelease
      ∧ W.LastDeployedRelease = Except.ok prevDeployedRelease
      ∧ l.deployType = selectDeployType prevRelease.isSome prevDeployedRelease.isSome)
    ∧ ∀ prevReleaseFound prevDeployedReleaseFound : Bool,
      (selectDeployType prevReleaseFound prevDeployedReleaseFound = DeployType.DeployTypeUpgrade
        ↔ prevReleaseFound = true ∧ prevDeployedReleaseFound = true)
      ∧ (selectDeployType prevReleaseFound prevDeployedReleaseFound = DeployType.DeployTypeInstall
        ↔ prevReleaseFound = true ∧ prevDeployedReleaseFound = false)
      ∧ (selectDeployType prevReleaseFound prevDeployedReleaseFound = DeployType.DeployTypeInitial
        ↔ prevReleaseFound = false)
      ∧ selectDeployType prevReleaseFound prevDeployedReleaseFound
        ≠ DeployType.DeployTypeRollback := by
  obtain ⟨-, hprev, ⟨d, hd, hfound⟩, -, -, hty, -⟩ := planLocals_ok K W opts l h
  refine ⟨⟨l.prevRelease, d, hprev, hd, by rw [hty, hfound]⟩, ?_⟩
  intro a b
  cases a <;> cases b <;> simp [selectDeployType]

/-- C1, at three histories: none, a release never deployed, a deployed release. -/
theorem plan_deployType_law_witness :
    ((planLocals sampleExt (sampleWorld none none true false) (sampleOptions false)).toOption.map
        (fun l => l.deployType) = some DeployType.DeployTypeInitial)
    ∧ ((planLocals sampleExt (sampleWorld (some (sampleRelease 3)) none true false)
        (sampleOptions false)).toOption.map (fun l => l.deployType)
        = some DeployType.DeployTypeInstall)
    ∧ ((planLocals sampleExt (sampleWorld (some (sampleRelease 3)) (some (sampleRelease 3)) true
        false) (sampleOptions false)).toOption.map (fun l => l.deployType)
        = some DeployType.DeployTypeUpgrade)
    ∧ ∃ l, planLocals sampleExt (sampleWorld (some (sampleRelease 3)) (some (sampleRelease 3))
        true false) (sampleOptions false) = Except.ok l
      ∧ l.deployType = selectDeployType true true :=
  ⟨by decide, by decide, by decide, _, rfl,
    by
      obtain ⟨⟨p, d, hp, hd, hty⟩, -⟩ := plan_deployType_law sampleExt
        (sampleWorld (some (sampleRelease 3)) (some (sampleRelease 3)) true false)
        (sampleOptions false) _ rfl
      cases hp; cases hd; exact hty⟩

/-- C2: at its final step `Plan` returns `ErrChangesPlanned` iff `ErrorIfChangesPlanned` is set
and changes are planned or the release is not up to date, and returns nil otherwise; an
up-to-date release with no planned change never yields `ErrChangesPlanned`. -/
theorem plan_errChangesPlanned_iff (K : Ext) (W : PlanWorld) (opts : PlanOptions)
    (l : PlanLocals) (h : planLocals K W opts = Except.ok l) :
    (Plan K W opts = some PlanError.ErrChangesPlanned
      ↔ opts.ErrorIfChangesPlanned = true
        ∧ (l.changes.planChangesPlanned = true ∨ l.releaseUpToDate = false))
    ∧ (Plan K W opts ≠ some PlanError.ErrChangesPlanned → Plan K W opts = none)
    ∧ (l.releaseUpToDate = true → l.changes.planChangesPlanned = false
        → Plan K W opts = none) := by
  have hopts : l.opts.ErrorIfChangesPlanned = opts.ErrorIfChangesPlanned :=
    planSetup_errorIfChangesPlanned W opts l.opts (planLocals_ok K W opts l h).1
  have hplan : Plan K W opts
      = planVerdict opts.ErrorIfChangesPlanned l.changes.planChangesPlanned
          l.releaseUpToDate := by
    unfold Plan
    rw [h]
    simp only [hopts]
  rw [hplan]
  unfold planVerdict
  cases opts.ErrorIfChangesPlanned <;> cases l.changes.planChangesPlanned
    <;> cases l.releaseUpToDate <;> simp

/-- C2, on an unchanged upgrade with `ErrorIfChangesPlanned` set: nil is returned. -/
theorem plan_errChangesPlanned_iff_witness :
    Plan sampleExt (sampleWorld (some (sampleRelease 3)) (some (sampleRelease 3)) false true)
        (sampleOptions true) = none
    ∧ Plan sampleExt (sampleWorld (some (sampleRelease 3)) (some (sampleRelease 3)) true true)
        (sampleOptions true) = some PlanError.ErrChangesPlanned :=
  ⟨(plan_errChangesPlanned_iff sampleExt
      (sampleWorld (some (sampleRelease 3)) (some (sampleRelease 3)) false true)
      (sampleOptions true) _ rfl).2.2 rfl rfl,
   (plan_errChangesPlanned_iff sampleExt
      (sampleWorld (some (sampleRelease 3)) (some (sampleRelease 3)) true true)
      (sampleOptions true) _ rfl).1.2 ⟨rfl, Or.inl rfl⟩⟩

/-- C3, as stated, fails: with a previous release at the largest `int` revision the new
revision wraps to the smallest `int`, which is neither greater than the previous revision
nor at least 1. -/
theorem plan_newRevision_overflow :
    (1 ≤ (sampleRelease maxInt).Revision)
    ∧ (planLocals sampleExt (sampleWorld (some (sampleRelease maxInt)) none true false)
        (sampleOptions false)).toOption.map (fun l => l.newRevision)
      = some (-9223372036854775808)
    ∧ (planLocals sampleExt (sampleWorld (some (sampleRelease maxInt)) none true false)
        (sampleOptions false)).toOption.map
        (fun l => decide ((sampleRelease maxInt).Revision < l.newRevision)) = some false
    ∧ (planLocals sampleExt (sampleWorld (some (sampleRelease maxInt)) none true false)
        (sampleOptions false)).toOption.map (fun l => decide (1 ≤ l.newRevision))
      = some false := by
  refine ⟨by decide, by decide, by decide, by decide⟩

/-- C3 (amended): without a previous release the new revision is 1; with a previous release
at revision `r` it is `r + 1` wrapped to the range of `int`, so for `1 ≤ r < maxInt` it is
`r + 1`, greater than `r` and at least 1. It is the revision handed to the release builder. -/
theorem plan_newRevision_rule (K : Ext) (W : PlanWorld) (opts : PlanOptions) (l : PlanLocals)
    (h : planLocals K W opts = Except.ok l) :
    W.LastRelease = Except.ok l.prevRelease
    ∧ l.newRelArgs.revision = l.newRevision
    ∧ (l.prevRelease = none → l.newRevision = 1)
    ∧ ∀ prev, l.prevRelease = some prev →
        l.newRevision = wrapInt (prev.Revision + 1)
        ∧ (1 ≤ prev.Revision → prev.Revision < maxInt →
            l.newRevision = prev.Revision + 1 ∧ prev.Revision < l.newRevision
            ∧ 1 ≤ l.newRevision) := by
  obtain ⟨-, hprev, -, hrev, -, -, hargs, -⟩ := planLocals_ok K W opts l h
  refine ⟨hprev, hargs, ?_, ?_⟩
  · intro hnone
    rw [hrev, hnone]
    rfl
  · intro prev hsome
    have hw : l.newRevision = wrapInt (prev.Revision + 1) := by
      rw [hrev, hsome]
      rfl
    refine ⟨hw, ?_⟩
    intro h1 h2
    have hmax : prev.Revision < 2 ^ 63 - 1 := h2
    have hr : wrapInt (prev.Revision + 1) = prev.Revision + 1 :=
      wrapInt_of_range _ (by omega) (by omega)
    rw [hw, hr]
    omega

/-- C3 (amended), on a previous release at revision 3: the new revision is 4. -/
theorem plan_newRevision_rule_witness :
    (planLocals sampleExt (sampleWorld (some (sampleRelease 3)) (some (sampleRelease 3)) false
        true) (sampleOptions false)).toOption.map (fun l => l.newRevision) = some 4
    ∧ ∃ l, planLocals sampleExt (sampleWorld (some (sampleRelease 3)) (some (sampleRelease 3))
        false true) (sampleOptions false) = Except.ok l
      ∧ l.newRelArgs.revision = l.newRevision :=
  ⟨by decide, _, rfl,
    (plan_newRevision_rule sampleExt
      (sampleWorld (some (sampleRelease 3)) (some (sampleRelease 3)) false true)
      (sampleOptions false) _ rfl).2.1⟩

/-- C4, as stated, fails: without a previous release the `FirstDeployed` handed to the release
builder is the zero time, not the reading of the clock. -/
theorem plan_firstDeployed_not_now :
    (planLocals sampleExt (sampleWorld none none true false)
        (sampleOptions false)).toOption.map (fun l => l.newRelArgs.FirstDeployed)
      = some Time.zero
    ∧ (sampleWorld none none true false).now ≠ Time.zero := by
  refine ⟨by decide, by decide⟩

/-- C4 (amended): the `FirstDeployed` handed to the release builder is that of the previous
release when one is found and the zero value of `time.Time` otherwise. -/
theorem plan_firstDeployed_rule (K : Ext) (W : PlanWorld) (opts : PlanOptions)
    (l : PlanLocals) (h : planLocals K W opts = Except.ok l) :
    W.LastRelease = Except.ok l.prevRelease
    ∧ W.NewRelease l.newRelArgs = Except.ok l.newRel
    ∧ (∀ prev, l.prevRelease = some prev → l.newRelArgs.FirstDeployed = prev.FirstDeployed)
    ∧ (l.prevRelease = none → l.newRelArgs.FirstDeployed = Time.zero) := by
  obtain ⟨-, hprev, -, -, hfd, -, -, hargs, hnew, -⟩ := planLocals_ok K W opts l h
  refine ⟨hprev, hnew, ?_, ?_⟩
  · intro prev hsome
    rw [hargs, hfd, hsome]
    rfl
  · intro hnone
    rw [hargs, hfd, hnone]
    rfl

/-- C4 (amended), on a previous release first deployed at 1000. -/
theorem plan_firstDeployed_rule_witness :
    (planLocals sampleExt (sampleWorld (some (sampleRelease 3)) none false true)
        (sampleOptions false)).toOption.map (fun l => l.newRelArgs.FirstDeployed)
      = some (sampleRelease 3).FirstDeployed
    ∧ ∃ l, planLocals sampleExt (sampleWorld (some (sampleRelease 3)) none false true)
        (sampleOptions false) = Except.ok l
      ∧ l.newRelArgs.FirstDeployed = (sampleRelease 3).FirstDeployed :=
  ⟨by decide, _, rfl,
    (plan_firstDeployed_rule sampleExt (sampleWorld (some (sampleRelease 3)) none false true)
      (sampleOptions false) _ rfl).2.2.1 _ rfl⟩

/-- C5: without a previous release `releaseUpToDate` is false and the comparator is not
consulted (replacing it changes nothing); so with `ErrorIfChangesPlanned` set `Plan` returns
`ErrChangesPlanned`, also when no change is planned. -/
theorem plan_initial_not_upToDate (K : Ext) (W : PlanWorld) (opts : PlanOptions)
    (l : PlanLocals) (h : planLocals K W opts = Except.ok l)
    (hprev : W.LastRelease = Except.ok none) :
    l.releaseUpToDate = false
    ∧ (∀ cmp, planLocals K { W with ReleaseUpToDate := cmp } opts = Except.ok l)
    ∧ (opts.ErrorIfChangesPlanned = true → Plan K W opts = some PlanError.ErrChangesPlanned) := by
  obtain ⟨hsetup, hprev', -, -, -, -, -, -, -, hutd⟩ := planLocals_ok K W opts l h
  have hnone : l.prevRelease = none := by
    rw [hprev] at hprev'
    injection hprev' with hp
    exact hp.symm
  have hfalse : l.releaseUpToDate = false := by
    rw [hnone] at hutd
    simp only [checkReleaseUpToDate] at hutd
    injection hutd with hu
    exact hu.symm
  refine ⟨hfalse, ?_, ?_⟩
  · intro cmp
    have hs : planSetup { W with ReleaseUpToDate := cmp } opts = planSetup W opts := rfl
    unfold planLocals at h ⊢
    rw [hs]
    simp only [hprev, checkReleaseUpToDate] at h ⊢
    exact h
  · intro herr
    have hopts : l.opts.ErrorIfChangesPlanned = opts.ErrorIfChangesPlanned :=
      planSetup_errorIfChangesPlanned W opts l.opts hsetup
    unfold Plan
    rw [h]
    simp [planVerdict, hopts, herr, hfalse]

/-- C5, on an initial plan with no planned change and `ErrorIfChangesPlanned` set. -/
theorem plan_initial_not_upToDate_witness :
    (planLocals sampleExt (sampleWorld none none false true)
        (sampleOptions true)).toOption.map (fun l => l.releaseUpToDate) = some false
    ∧ Plan sampleExt (sampleWorld none none false true) (sampleOptions true)
      = some PlanError.ErrChangesPlanned :=
  ⟨by decide,
    (plan_initial_not_upToDate sampleExt (sampleWorld none none false true) (sampleOptions true)
      _ rfl rfl).2.2 rfl⟩


/-! ## Properties of the processor -/

/-- Membership in the output of the second loop of `lo.FindDuplicates`. -/
theorem mem_findDuplicatesLoop (collection : List String) (y : String) :
    ∀ (l emitted : List String), y ∈ findDuplicatesLoop collection l emitted
      ↔ y ∈ l ∧ 2 ≤ collection.count y ∧ y ∉ emitted := by
  intro l
  induction l with
  | nil => intro emitted; simp [findDuplicatesLoop]
  | cons x rest ih =>
    intro emitted
    unfold findDuplicatesLoop
    split
    · rename_i hx
      rw [List.mem_cons, ih]
      constructor
      · rintro (rfl | ⟨hr, hc, he⟩)
        · exact ⟨List.mem_cons_self _ _, hx.1, hx.2⟩
        · exact ⟨List.mem_cons_of_mem _ hr, hc, fun hm => he (List.mem_cons_of_mem _ hm)⟩
      · rintro ⟨hm, hc, he⟩
        by_cases hyx : y = x
        · exact Or.inl hyx
        · right
          rcases List.mem_cons.mp hm with h | h
          · exact absurd h hyx
          · refine ⟨h, hc, ?_⟩
            intro hm'
            rcases List.mem_cons.mp hm' with h' | h'
            · exact hyx h'
            · exact he h'
    · rename_i hx
      rw [ih]
      constructor
      · rintro ⟨hr, hc, he⟩
        exact ⟨List.mem_cons_of_mem _ hr, hc, he⟩
      · rintro ⟨hm, hc, he⟩
        rcases List.mem_cons.mp hm with h | h
        · subst h
          exact absurd ⟨hc, he⟩ hx
        · exact ⟨h, hc, he⟩

/-- The duplicates found are the values that occur at least twice. -/
theorem mem_FindDuplicates (collection : List String) (y : String) :
    y ∈ FindDuplicates collection ↔ 2 ≤ collection.count y := by
  unfold FindDuplicates
  rw [mem_findDuplicatesLoop]
  constructor
  · rintro ⟨-, hc, -⟩
    exact hc
  · intro hc
    refine ⟨?_, hc, by simp⟩
    exact List.count_pos_iff.mp (by omega)

/-- No duplicate is found iff the values are pairwise distinct. -/
theorem FindDuplicates_eq_nil_iff (collection : List String) :
    FindDuplicates collection = [] ↔ collection.Nodup := by
  rw [List.nodup_iff_count_le_one, List.eq_nil_iff_forall_not_mem]
  constructor
  · intro h a
    have := h a
    rw [mem_FindDuplicates] at this
    omega
  · intro h a
    rw [mem_FindDuplicates]
    have := h a
    omega


/-- The union of the ResourceIDs read by `validateNoDuplicates`. -/
theorem allResourceIDs_eq (p : DeployableResourcesProcessor) :
    allResourceIDs p = (unionResources p).map (fun res => res.ResourceID) := by
  simp [allResourceIDs, unionResources]

/-- C6: `validateNoDuplicates` returns nil iff no resource of the union is the Namespace/v1
named like the release namespace and the `ID()` strings are pairwise distinct; two resources
with equal ResourceID (at different positions of the union, whatever their classes) and the
release namespace as a resource are each rejected. -/
theorem validateNoDuplicates_eq_none_iff (K : Ext) (p : DeployableResourcesProcessor) :
    (validateNoDuplicates K p = none
      ↔ (∀ res ∈ unionResources p,
            ¬ (res.ResourceID.GroupVersionKind
                = { Group := "", Version := "v1", Kind := "Namespace" }
              ∧ res.ResourceID.Name = p.releaseNamespace))
        ∧ ((unionResources p).map (fun res => K.ID res.ResourceID)).Nodup)
    ∧ (∀ i j : Fin (unionResources p).length, i ≠ j →
        ((unionResources p).get i).ResourceID = ((unionResources p).get j).ResourceID →
        validateNoDuplicates K p ≠ none)
    ∧ (∀ res ∈ unionResources p,
        res.ResourceID.GroupVersionKind = { Group := "", Version := "v1", Kind := "Namespace" } →
        res.ResourceID.Name = p.releaseNamespace → validateNoDuplicates K p ≠ none) := by
  have hiff : validateNoDuplicates K p = none
      ↔ (∀ res ∈ unionResources p,
            ¬ (res.ResourceID.GroupVersionKind
                = { Group := "", Version := "v1", Kind := "Namespace" }
              ∧ res.ResourceID.Name = p.releaseNamespace))
        ∧ ((unionResources p).map (fun res => K.ID res.ResourceID)).Nodup := by
    unfold validateNoDuplicates
    simp only [allResourceIDs_eq, List.map_map]
    split
    · rename_i hany
      simp only [List.any_eq_true, List.mem_map] at hany
      obtain ⟨r, ⟨res, hres, rfl⟩, hr⟩ := hany
      simp only [isReleaseNamespace, Bool.and_eq_true, decide_eq_true_eq] at hr
      constructor
      · intro h
        cases h
      · rintro ⟨h, -⟩
        exact absurd hr (h res hres)
    · rename_i hany
      have hno : ∀ res ∈ unionResources p,
          ¬ (res.ResourceID.GroupVersionKind
              = { Group := "", Version := "v1", Kind := "Namespace" }
            ∧ res.ResourceID.Name = p.releaseNamespace) := by
        intro res hres hr
        apply hany
        simp only [List.any_eq_true, List.mem_map]
        refine ⟨res.ResourceID, ⟨res, hres, rfl⟩, ?_⟩
        simp only [isReleaseNamespace, Bool.and_eq_true, decide_eq_true_eq]
        exact hr
      have hmap : ((fun res => K.ID res) ∘ fun res : Resource => res.ResourceID)
          = fun res => K.ID res.ResourceID := rfl
      rw [hmap]
      split
      · rename_i hlen
        constructor
        · intro h
          cases h
        · rintro ⟨-, hnodup⟩
          rw [← FindDuplicates_eq_nil_iff] at hnodup
          rw [hnodup] at hlen
          simp at hlen
      · rename_i hlen
        constructor
        · intro _
          refine ⟨hno, ?_⟩
          rw [← FindDuplicates_eq_nil_iff]
          exact List.length_eq_zero.mp (by omega)
        · intro _
          rfl
  refine ⟨hiff, ?_, ?_⟩
  · intro i j hij heq hnone
    have hnodup := (hiff.mp hnone).2
    have hinj := List.inj_on_of_nodup_map hnodup (List.get_mem _ i.1 i.2)
      (List.get_mem _ j.1 j.2) (by rw [heq])
    have hnd : (unionResources p).Nodup := List.Nodup.of_map _ hnodup
    exact hij ((List.Nodup.get_inj_iff hnd).mp hinj)
  · intro res hres hgvk hname hnone
    exact (hiff.mp hnone).1 res hres ⟨hgvk, hname⟩

/-- C6, on a hook and a general resource with equal ResourceID, and on the release
namespace given as a general resource: both inputs are rejected. -/
theorem validateNoDuplicates_eq_none_iff_witness :
    validateNoDuplicates sampleExt
        (sampleProcessor DeployType.DeployTypeInitial [] [webDeploymentAgain] [webDeployment]
          bareOptions) ≠ none
    ∧ validateNoDuplicates sampleExt
        (sampleProcessor DeployType.DeployTypeInitial [] [] [prodNamespace] bareOptions) ≠ none
    ∧ validateNoDuplicates sampleExt
        (sampleProcessor DeployType.DeployTypeInitial [] [webConfigMapHook] [webDeployment]
          bareOptions) = none :=
  ⟨(validateNoDuplicates_eq_none_iff sampleExt
      (sampleProcessor DeployType.DeployTypeInitial [] [webDeploymentAgain] [webDeployment]
        bareOptions)).2.1 ⟨0, by decide⟩ ⟨1, by decide⟩ (by decide) (by decide),
   (validateNoDuplicates_eq_none_iff sampleExt
      (sampleProcessor DeployType.DeployTypeInitial [] [] [prodNamespace] bareOptions)).2.2
      prodNamespace (by decide) (by decide) (by decide),
   by decide⟩


/-- The resource rebuilt after a `Patch` call carries the pointer that call returned. -/
theorem rebuild_spec (K : Ext) (L : BuildLoop) (ns : String) (cur : Resource)
    (arg : Unstructured) (out : PatchedObj) (m : Mem) :
    (rebuild K L ns cur arg out m).2.log = m.log
    ∧ m.next ≤ (rebuild K L ns cur arg out m).2.next
    ∧ (rebuild K L ns cur arg out m).1.unstruct.obj = out.obj
    ∧ (out.inPlace = true → (rebuild K L ns cur arg out m).1.unstruct.addr = arg.addr)
    ∧ (out.inPlace = false → (rebuild K L ns cur arg out m).1.unstruct.addr = m.next) := by
  unfold rebuild patchedPointer NewResource
  cases out.inPlace
  · simp
    omega
  · simp

/-- The calls of the inner loop of a build function, from any state of the loop: the log
grows by the events of the pass; a deep copy is made exactly when the loop starts without
one and a patcher matches, and it copies the object of the current resource to a new
address; each `Patch` call after the first is given what the previous one returned; the
first is given the copy (or the current object when a copy was made before); no `Patch`
call is given an object older than the pass, except the current object after a copy. -/
theorem patchLoop_log (K : Ext) (L : BuildLoop) (ns : String) :
    ∀ (stack : List ResourcePatcher) (cur : Resource) (dc : Bool) (m : Mem),
      ∃ ev, (patchLoop K L ns stack cur dc m).1.log = m.log ++ ev
        ∧ m.next ≤ (patchLoop K L ns stack cur dc m).1.next
        ∧ deepCopies ev
            = (if dc = false ∧ someMatched ev = true then [(cur.unstruct.addr, m.next)] else [])
        ∧ List.Chain' rebuiltFrom (patchCalls ev)
        ∧ (∀ pc ∈ (patchCalls ev).head?,
            pc.1.Obj = if dc = true then cur.unstruct
              else { addr := m.next, obj := cur.unstruct.obj })
        ∧ (∀ pc ∈ patchCalls ev,
            m.next ≤ pc.1.Obj.addr ∨ (dc = true ∧ pc.1.Obj.addr = cur.unstruct.addr))
        ∧ (someMatched ev = true ↔ patchCalls ev ≠ []) := by
  intro stack
  induction stack with
  | nil =>
    intro cur dc m
    refine ⟨[], ?_, ?_, ?_, ?_, ?_, ?_, ?_⟩ <;> simp [patchLoop, deepCopies, patchCalls, someMatched]
  | cons P rest ih =>
    intro cur dc m
    simp only [patchLoop]
    cases hM : P.Match (matchInfoOf L cur) with
    | error e =>
      refine ⟨[Event.matchCall P.Typ (matchInfoOf L cur) (Except.error e)], ?_, ?_, ?_, ?_, ?_,
        ?_, ?_⟩ <;>
        simp [Mem.record, deepCopies, patchCalls, someMatched, Event.deepCopy?, Event.patchCall?,
          Event.matched]
    | ok b =>
      cases b with
      | false =>
        simp only
        obtain ⟨ev, h1, h2, h3, h4, h5, h6, h7⟩ :=
          ih cur dc (m.record (Event.matchCall P.Typ (matchInfoOf L cur) (Except.ok false)))
        refine ⟨Event.matchCall P.Typ (matchInfoOf L cur) (Except.ok false) :: ev, ?_, ?_, ?_,
          ?_, ?_, ?_, ?_⟩
        · rw [h1]; simp [Mem.record]
        · exact h2
        · simpa [deepCopies, someMatched, Event.deepCopy?, Event.matched, Mem.record] using h3
        · simpa [patchCalls, Event.patchCall?] using h4
        · simpa [patchCalls, Event.patchCall?, Mem.record] using h5
        · simpa [patchCalls, Event.patchCall?, Mem.record] using h6
        · simpa [patchCalls, someMatched, Event.patchCall?, Event.matched] using h7
      | true =>
        simp only
        generalize hm1 : m.record (Event.matchCall P.Typ (matchInfoOf L cur) (Except.ok true))
          = m1
        have hm1n : m1.next = m.next := by rw [← hm1]; rfl
        have hm1l : m1.log = m.log ++ [Event.matchCall P.Typ (matchInfoOf L cur) (Except.ok true)] := by
          rw [← hm1]; rfl
        cases dc with
        | false =>
          have hcp : copyForPatch cur false m1
              = ({ addr := m.next, obj := cur.unstruct.obj },
                 { next := m.next + 1,
                   log := m.log ++ [Event.matchCall P.Typ (matchInfoOf L cur) (Except.ok true),
                     Event.deepCopy cur.unstruct.addr m.next] }) := by
            rw [← hm1]
            simp [copyForPatch, Unstructured.DeepCopy, Mem.record, Resource.Unstructured]
          rw [hcp]
          simp only
          cases hP : P.Patch (patchInfoOf L cur { addr := m.next, obj := cur.unstruct.obj }) with
          | error e =>
            simp only
            refine ⟨[Event.matchCall P.Typ (matchInfoOf L cur) (Except.ok true),
              Event.deepCopy cur.unstruct.addr m.next,
              Event.patchCall P.Typ (patchInfoOf L cur { addr := m.next, obj := cur.unstruct.obj })
                (Except.error e)], ?_, ?_, ?_, ?_, ?_, ?_, ?_⟩ <;>
              simp [Mem.record, deepCopies, patchCalls, someMatched, Event.deepCopy?,
                Event.patchCall?, Event.matched, patchInfoOf]
          | ok out =>
            simp only
            obtain ⟨hl, hn, hobj, hin, hfresh⟩ := rebuild_spec K L ns cur
              { addr := m.next, obj := cur.unstruct.obj } out
              (Mem.record
                { next := m.next + 1
                  log := m.log ++ [Event.matchCall P.Typ (matchInfoOf L cur) (Except.ok true),
                    Event.deepCopy cur.unstruct.addr m.next] }
                (Event.patchCall P.Typ
                  (patchInfoOf L cur { addr := m.next, obj := cur.unstruct.obj }) (Except.ok out)))
            generalize rebuild K L ns cur { addr := m.next, obj := cur.unstruct.obj } out
              (Mem.record
                { next := m.next + 1
                  log := m.log ++ [Event.matchCall P.Typ (matchInfoOf L cur) (Except.ok true),
                    Event.deepCopy cur.unstruct.addr m.next] }
                (Event.patchCall P.Typ
                  (patchInfoOf L cur { addr := m.next, obj := cur.unstruct.obj }) (Except.ok out)))
              = rb at hl hn hobj hin hfresh ⊢
            obtain ⟨ev, h1, h2, h3, h4, h5, h6, h7⟩ := ih rb.1 true rb.2
            simp only [Mem.record] at hl hn hfresh
            refine ⟨Event.matchCall P.Typ (matchInfoOf L cur) (Except.ok true)
              :: Event.deepCopy cur.unstruct.addr m.next
              :: Event.patchCall P.Typ
                (patchInfoOf L cur { addr := m.next, obj := cur.unstruct.obj }) (Except.ok out)
              :: ev, ?_, ?_, ?_, ?_, ?_, ?_, ?_⟩
            · rw [h1, hl]; simp
            · omega
            · simp only [if_neg, Bool.true_eq_false, false_and, not_false_eq_true] at h3
              simp [deepCopies, someMatched, Event.deepCopy?, Event.matched] at h3 ⊢
              exact h3
            · simp only [patchCalls, List.filterMap_cons, Event.patchCall?]
              rw [List.chain'_cons']
              refine ⟨?_, h4⟩
              intro pc hpc
              have hpcObj := h5 pc hpc
              simp only [if_true] at hpcObj
              refine ⟨out, rfl, ?_, ?_⟩
              · rw [hpcObj, hobj]
              · intro hip
                rw [hpcObj, hin hip]
                rfl
            · simp [patchCalls, Event.patchCall?, patchInfoOf]
            · intro pc hpc
              simp only [patchCalls, List.filterMap_cons, Event.patchCall?, List.mem_cons] at hpc
              rcases hpc with rfl | hpc
              · left; simp [patchInfoOf]
              · left
                rcases h6 pc hpc with h | ⟨-, h⟩
                · omega
                · rw [h]
                  cases hip : out.inPlace
                  · rw [hfresh hip]; omega
                  · rw [hin hip]
            · simp [patchCalls, someMatched, Event.patchCall?, Event.matched]
        | true =>
          have hcp : copyForPatch cur true m1
              = (cur.unstruct,
                 { next := m.next
                   log := m.log ++ [Event.matchCall P.Typ (matchInfoOf L cur) (Except.ok true)] }) := by
            rw [← hm1]
            simp [copyForPatch, Mem.record, Resource.Unstructured]
          rw [hcp]
          simp only
          cases hP : P.Patch (patchInfoOf L cur cur.unstruct) with
          | error e =>
            simp only
            refine ⟨[Event.matchCall P.Typ (matchInfoOf L cur) (Except.ok true),
              Event.patchCall P.Typ (patchInfoOf L cur cur.unstruct) (Except.error e)],
              ?_, ?_, ?_, ?_, ?_, ?_, ?_⟩ <;>
              simp [Mem.record, deepCopies, patchCalls, someMatched, Event.deepCopy?,
                Event.patchCall?, Event.matched, patchInfoOf]
          | ok out =>
            simp only
            obtain ⟨hl, hn, hobj, hin, hfresh⟩ := rebuild_spec K L ns cur cur.unstruct out
              (Mem.record
                { next := m.next
                  log := m.log ++ [Event.matchCall P.Typ (matchInfoOf L cur) (Except.ok true)] }
                (Event.patchCall P.Typ (patchInfoOf L cur cur.unstruct) (Except.ok out)))
            generalize rebuild K L ns cur cur.unstruct out
              (Mem.record
                { next := m.next
                  log := m.log ++ [Event.matchCall P.Typ (matchInfoOf L cur) (Except.ok true)] }
                (Event.patchCall P.Typ (patchInfoOf L cur cur.unstruct) (Except.ok out)))
              = rb at hl hn hobj hin hfresh ⊢
            obtain ⟨ev, h1, h2, h3, h4, h5, h6, h7⟩ := ih rb.1 true rb.2
            simp only [Mem.record] at hl hn hfresh
            refine ⟨Event.matchCall P.Typ (matchInfoOf L cur) (Except.ok true)
              :: Event.patchCall P.Typ (patchInfoOf L cur cur.unstruct) (Except.ok out)
              :: ev, ?_, ?_, ?_, ?_, ?_, ?_, ?_⟩
            · rw [h1, hl]; simp
            · omega
            · simp only [if_neg, Bool.true_eq_false, false_and, not_false_eq_true] at h3
              simp [deepCopies, someMatched, Event.deepCopy?, Event.matched] at h3 ⊢
              exact h3
            · simp only [patchCalls, List.filterMap_cons, Event.patchCall?]
              rw [List.chain'_cons']
              refine ⟨?_, h4⟩
              intro pc hpc
              have hpcObj := h5 pc hpc
              simp only [if_true] at hpcObj
              refine ⟨out, rfl, ?_, ?_⟩
              · rw [hpcObj, hobj]
              · intro hip
                rw [hpcObj, hin hip]
                rfl
            · simp [patchCalls, Event.patchCall?, patchInfoOf]
            · intro pc hpc
              simp only [patchCalls, List.filterMap_cons, Event.patchCall?, List.mem_cons] at hpc
              rcases hpc with rfl | hpc
              · right; simp [patchInfoOf]
              · rcases h6 pc hpc with h | ⟨-, h⟩
                · left; omega
                · rw [h]
                  cases hip : out.inPlace
                  · left; rw [hfresh hip]
                  · right; exact ⟨trivial, hin hip⟩
            · simp [patchCalls, someMatched, Event.patchCall?, Event.matched]


/-- A pass in which no patcher matches returns the resource it started from, allocates
nothing and logs only the `Match` calls. -/
theorem patchLoop_noMatch (K : Ext) (L : BuildLoop) (ns : String) (cur : Resource) :
    ∀ (stack : List ResourcePatcher) (dc : Bool) (m : Mem),
      (∀ P ∈ stack, P.Match (matchInfoOf L cur) = Except.ok false) →
      patchLoop K L ns stack cur dc m
        = ({ next := m.next
             log := m.log ++ stack.map (fun P =>
               Event.matchCall P.Typ (matchInfoOf L cur) (Except.ok false)) },
           Except.ok cur) := by
  intro stack
  induction stack with
  | nil => intro dc m _; simp [patchLoop]
  | cons P rest ih =>
    intro dc m h
    have hP : P.Match (matchInfoOf L cur) = Except.ok false := h P (List.mem_cons_self _ _)
    have hrest : ∀ Q ∈ rest, Q.Match (matchInfoOf L cur) = Except.ok false :=
      fun Q hQ => h Q (List.mem_cons_of_mem _ hQ)
    simp only [patchLoop, hP]
    rw [ih dc _ hrest]
    simp [Mem.record]

/-- The outer loop of a build function, when it succeeds, returns one patched resource per
input resource, in input order. -/
theorem patchResources_ok (K : Ext) (L : BuildLoop) (ns : String)
    (stack : List ResourcePatcher) :
    ∀ (rs : List Resource) (m m' : Mem) (out : List Resource),
      patchResources K L ns stack rs m = (m', Except.ok out) →
      List.Forall₂ (fun res patched =>
        ∃ m1, (patchResource K L ns stack res m1).2 = Except.ok patched) rs out := by
  intro rs
  induction rs with
  | nil =>
    intro m m' out h
    simp only [patchResources] at h
    cases h
    exact List.Forall₂.nil
  | cons res rest ih =>
    intro m m' out h
    simp only [patchResources] at h
    split at h
    · cases h
    · rename_i m1 patchedRes hres
      split at h
      · cases h
      · rename_i m2 patchedResources hrest
        cases h
        exact List.Forall₂.cons ⟨m, by rw [hres]⟩ (ih _ _ _ hrest)

/-- When the outer loop of a build function succeeds, a resource no patcher matches is among
the patched resources as it was given. -/
theorem patchResources_keeps (K : Ext) (L : BuildLoop) (ns : String)
    (stack : List ResourcePatcher) (rs : List Resource) (m m' : Mem) (out : List Resource)
    (h : patchResources K L ns stack rs m = (m', Except.ok out)) (res : Resource)
    (hres : res ∈ rs)
    (hno : ∀ P ∈ stack, P.Match (matchInfoOf L res) = Except.ok false) : res ∈ out := by
  have hall := patchResources_ok K L ns stack rs m m' out h
  clear h
  induction hall with
  | nil => cases hres
  | cons hhead _ ih =>
    rename_i a b l1 l2
    rcases List.mem_cons.mp hres with rfl | hmem
    · obtain ⟨m1, hm1⟩ := hhead
      unfold patchResource at hm1
      rw [patchLoop_noMatch K L ns res stack false m1 hno] at hm1
      injection hm1 with hm1
      rw [← hm1]
      exact List.mem_cons_self _ _
    · exact List.mem_cons_of_mem _ (ih hmem)

/-- The outer loop of a build function returns as many resources as it is given. -/
theorem patchResources_length (K : Ext) (L : BuildLoop) (ns : String)
    (stack : List ResourcePatcher) (rs : List Resource) (m m' : Mem) (out : List Resource)
    (h : patchResources K L ns stack rs m = (m', Except.ok out)) : out.length = rs.length :=
  (List.Forall₂.length_eq (patchResources_ok K L ns stack rs m m' out h)).symm

/-- Sorting keeps the elements. -/
theorem mem_SliceStable {α : Type} (less : α → α → Bool) (xs : List α) (x : α) :
    x ∈ SliceStable less xs ↔ x ∈ xs := by
  unfold SliceStable
  exact List.mem_insertionSort _

/-- Sorting keeps the length. -/
theorem length_SliceStable {α : Type} (less : α → α → Bool) (xs : List α) :
    (SliceStable less xs).length = xs.length := by
  unfold SliceStable
  exact List.length_insertionSort _ _

/-- What a successful `buildReleasableHookResources` leaves in the processor. -/
theorem buildReleasableHookResources_ok (K : Ext) (p : DeployableResourcesProcessor) (m : Mem)
    (h : (buildReleasableHookResources K p m).err = none) :
    ∃ m1 patched, patchResources K releasableHookLoop p.releaseNamespace
        p.releasableHookResourcePatchers p.hookResources m = (m1, Except.ok patched)
      ∧ (buildReleasableHookResources K p m).p
        = { p with releasableHookResources := SliceStable (resourceLess K) patched } := by
  unfold buildReleasableHookResources at h ⊢
  split at h
  · cases h
  · rename_i m1 patched heq
    exact ⟨m1, patched, heq, rfl⟩

/-- What a successful `buildReleasableGeneralResources` leaves in the processor. -/
theorem buildReleasableGeneralResources_ok (K : Ext) (p : DeployableResourcesProcessor)
    (m : Mem) (h : (buildReleasableGeneralResources K p m).err = none) :
    ∃ m1 patched, patchResources K releasableGeneralLoop p.releaseNamespace
        p.releasableGeneralResourcePatchers p.generalResources m = (m1, Except.ok patched)
      ∧ (buildReleasableGeneralResources K p m).p
        = { p with releasableGeneralResources := SliceStable (resourceLess K) patched } := by
  unfold buildReleasableGeneralResources at h ⊢
  split at h
  · cases h
  · rename_i m1 patched heq
    exact ⟨m1, patched, heq, rfl⟩

/-- What a successful `buildDeployableStandaloneCRDs` leaves in the processor. -/
theorem buildDeployableStandaloneCRDs_ok (K : Ext) (p : DeployableResourcesProcessor)
    (m : Mem) (h : (buildDeployableStandaloneCRDs K p m).err = none) :
    ∃ m1 patched, patchResources K deployableStandaloneCRDLoop p.releaseNamespace
        p.deployableStandaloneCRDsPatchers p.standaloneCRDs m = (m1, Except.ok patched)
      ∧ (buildDeployableStandaloneCRDs K p m).p
        = { p with deployableStandaloneCRDs := SliceStable (resourceLess K) patched } := by
  unfold buildDeployableStandaloneCRDs at h ⊢
  split at h
  · cases h
  · rename_i m1 patched heq
    exact ⟨m1, patched, heq, rfl⟩

/-- What a successful `buildDeployableHookResources` leaves in the processor. -/
theorem buildDeployableHookResources_ok (K : Ext) (p : DeployableResourcesProcessor) (m : Mem)
    (h : (buildDeployableHookResources K p m).err = none) :
    ∃ m1 patched, patchResources K deployableHookLoop p.releaseNamespace
        p.deployableHookResourcePatchers (matchingHookResources p) m = (m1, Except.ok patched)
      ∧ (buildDeployableHookResources K p m).p
        = { p with deployableHookResources := SliceStable (resourceLess K) patched } := by
  unfold buildDeployableHookResources at h ⊢
  split at h
  · cases h
  · rename_i m1 patched heq
    exact ⟨m1, patched, heq, rfl⟩

/-- What a successful `buildDeployableGeneralResources` leaves in the processor. -/
theorem buildDeployableGeneralResources_ok (K : Ext) (p : DeployableResourcesProcessor)
    (m : Mem) (h : (buildDeployableGeneralResources K p m).err = none) :
    ∃ m1 patched, patchResources K deployableGeneralLoop p.releaseNamespace
        p.deployableGeneralResourcePatchers p.generalResources m = (m1, Except.ok patched)
      ∧ (buildDeployableGeneralResources K p m).p
        = { p with deployableGeneralResources := SliceStable (resourceLess K) patched } := by
  unfold buildDeployableGeneralResources at h ⊢
  split at h
  · cases h
  · rename_i m1 patched heq
    exact ⟨m1, patched, heq, rfl⟩


/-- C7: the hooks `buildDeployableHookResources` patches are exactly the (transformed) hooks
that satisfy the predicate of the deploy type - pre/post-install for Initial and Install,
pre/post-upgrade for Upgrade, pre/post-rollback for Rollback, none for any other value -
while `buildReleasableHookResources` patches all of them; so the releasable hooks are as
many as the hooks, and a hook that is only pre-install is not among the hooks patched for an
Upgrade. -/
theorem hooks_filtered_by_deployType (K : Ext) (p : DeployableResourcesProcessor) (m : Mem) :
    (∀ res, hookMatchesDeployType DeployType.DeployTypeInitial res
        = (res.OnPreInstall || res.OnPostInstall))
    ∧ (∀ res, hookMatchesDeployType DeployType.DeployTypeInstall res
        = (res.OnPreInstall || res.OnPostInstall))
    ∧ (∀ res, hookMatchesDeployType DeployType.DeployTypeUpgrade res
        = (res.OnPreUpgrade || res.OnPostUpgrade))
    ∧ (∀ res, hookMatchesDeployType DeployType.DeployTypeRollback res
        = (res.OnPreRollback || res.OnPostRollback))
    ∧ (∀ res s, hookMatchesDeployType (DeployType.other s) res = false)
    ∧ ((buildReleasableHookResources K p m).err = none →
        ∃ patched,
          List.Forall₂ (fun res r => ∃ m1, (patchResource K releasableHookLoop p.releaseNamespace
            p.releasableHookResourcePatchers res m1).2 = Except.ok r) p.hookResources patched
          ∧ ReleasableHookResources (buildReleasableHookResources K p m).p
            = SliceStable (resourceLess K) patched
          ∧ (ReleasableHookResources (buildReleasableHookResources K p m).p).length
            = p.hookResources.length)
    ∧ ((buildDeployableHookResources K p m).err = none →
        ∃ patched,
          List.Forall₂ (fun res r => ∃ m1, (patchResource K deployableHookLoop p.releaseNamespace
            p.deployableHookResourcePatchers res m1).2 = Except.ok r)
            (p.hookResources.filter (hookMatchesDeployType p.deployType)) patched
          ∧ DeployableHookResources (buildDeployableHookResources K p m).p
            = SliceStable (resourceLess K) patched
          ∧ (DeployableHookResources (buildDeployableHookResources K p m).p).length
            = (p.hookResources.filter (hookMatchesDeployType p.deployType)).length)
    ∧ (∀ res, res.hookTypes = [HookPhase.preInstall] →
        p.deployType = DeployType.DeployTypeUpgrade →
        res ∉ p.hookResources.filter (hookMatchesDeployType p.deployType)) := by
  refine ⟨fun _ => rfl, fun _ => rfl, fun _ => rfl, fun _ => rfl, fun _ _ => rfl, ?_, ?_, ?_⟩
  · intro h
    obtain ⟨m1, patched, hp, hq⟩ := buildReleasableHookResources_ok K p m h
    refine ⟨patched, patchResources_ok _ _ _ _ _ _ _ _ hp, ?_, ?_⟩
    · rw [hq]; rfl
    · rw [hq]
      simp only [ReleasableHookResources, length_SliceStable]
      exact patchResources_length _ _ _ _ _ _ _ _ hp
  · intro h
    obtain ⟨m1, patched, hp, hq⟩ := buildDeployableHookResources_ok K p m h
    refine ⟨patched, patchResources_ok _ _ _ _ _ _ _ _ hp, ?_, ?_⟩
    · rw [hq]; rfl
    · rw [hq]
      simp only [DeployableHookResources, length_SliceStable]
      exact patchResources_length _ _ _ _ _ _ _ _ hp
  · intro res hty hup hmem
    rw [hup] at hmem
    have := (List.mem_filter.mp hmem).2
    simp [hookMatchesDeployType, Resource.OnPreUpgrade, Resource.OnPostUpgrade, hty] at this

/-- C7, on an upgrade of a chart with a pre-install hook and a pre-upgrade hook: both are
releasable, only the pre-upgrade hook is deployable. -/
theorem hooks_filtered_by_deployType_witness :
    (ReleasableHookResources (buildReleasableHookResources sampleExt
        (sampleProcessor DeployType.DeployTypeUpgrade [] [preInstallJob, preUpgradeJob] []
          bareOptions) { next := 60, log := [] }).p).length = 2
    ∧ (DeployableHookResources (buildDeployableHookResources sampleExt
        (sampleProcessor DeployType.DeployTypeUpgrade [] [preInstallJob, preUpgradeJob] []
          bareOptions) { next := 60, log := [] }).p).map (fun res => res.ResourceID.name)
      = ["migrate"] :=
  ⟨((hooks_filtered_by_deployType sampleExt
      (sampleProcessor DeployType.DeployTypeUpgrade [] [preInstallJob, preUpgradeJob] []
        bareOptions) { next := 60, log := [] }).2.2.2.2.2.1 (by decide)).choose_spec.2.2,
   by decide⟩


/-- C9: in every build loop a resource no patcher matches comes out of its pass as the
resource it was on input - same resource address, same object address, nothing allocated -
and so each of the five build functions, when it succeeds, has that very resource in its
output. -/
theorem build_keeps_unmatched_resource (K : Ext) (p : DeployableResourcesProcessor) (m : Mem)
    (res : Resource) :
    (∀ (L : BuildLoop) (stack : List ResourcePatcher) (m0 : Mem),
        (∀ P ∈ stack, P.Match (matchInfoOf L res) = Except.ok false) →
        patchResource K L p.releaseNamespace stack res m0
          = ({ next := m0.next
               log := m0.log ++ stack.map (fun P =>
                 Event.matchCall P.Typ (matchInfoOf L res) (Except.ok false)) },
             Except.ok res))
    ∧ ((buildReleasableHookResources K p m).err = none → res ∈ p.hookResources →
        (∀ P ∈ p.releasableHookResourcePatchers,
          P.Match (matchInfoOf releasableHookLoop res) = Except.ok false) →
        res ∈ ReleasableHookResources (buildReleasableHookResources K p m).p)
    ∧ ((buildReleasableGeneralResources K p m).err = none → res ∈ p.generalResources →
        (∀ P ∈ p.releasableGeneralResourcePatchers,
          P.Match (matchInfoOf releasableGeneralLoop res) = Except.ok false) →
        res ∈ ReleasableGeneralResources (buildReleasableGeneralResources K p m).p)
    ∧ ((buildDeployableStandaloneCRDs K p m).err = none → res ∈ p.standaloneCRDs →
        (∀ P ∈ p.deployableStandaloneCRDsPatchers,
          P.Match (matchInfoOf deployableStandaloneCRDLoop res) = Except.ok false) →
        res ∈ DeployableStandaloneCRDs (buildDeployableStandaloneCRDs K p m).p)
    ∧ ((buildDeployableHookResources K p m).err = none → res ∈ matchingHookResources p →
        (∀ P ∈ p.deployableHookResourcePatchers,
          P.Match (matchInfoOf deployableHookLoop res) = Except.ok false) →
        res ∈ DeployableHookResources (buildDeployableHookResources K p m).p)
    ∧ ((buildDeployableGeneralResources K p m).err = none → res ∈ p.generalResources →
        (∀ P ∈ p.deployableGeneralResourcePatchers,
          P.Match (matchInfoOf deployableGeneralLoop res) = Except.ok false) →
        res ∈ DeployableGeneralResources (buildDeployableGeneralResources K p m).p) := by
  refine ⟨?_, ?_, ?_, ?_, ?_, ?_⟩
  · intro L stack m0 hno
    exact patchLoop_noMatch K L p.releaseNamespace res stack false m0 hno
  · intro h hres hno
    obtain ⟨m1, patched, hp, hq⟩ := buildReleasableHookResources_ok K p m h
    rw [hq]
    simp only [ReleasableHookResources, mem_SliceStable]
    exact patchResources_keeps _ _ _ _ _ _ _ _ hp res hres hno
  · intro h hres hno
    obtain ⟨m1, patched, hp, hq⟩ := buildReleasableGeneralResources_ok K p m h
    rw [hq]
    simp only [ReleasableGeneralResources, mem_SliceStable]
    exact patchResources_keeps _ _ _ _ _ _ _ _ hp res hres hno
  · intro h hres hno
    obtain ⟨m1, patched, hp, hq⟩ := buildDeployableStandaloneCRDs_ok K p m h
    rw [hq]
    simp only [DeployableStandaloneCRDs, mem_SliceStable]
    exact patchResources_keeps _ _ _ _ _ _ _ _ hp res hres hno
  · intro h hres hno
    obtain ⟨m1, patched, hp, hq⟩ := buildDeployableHookResources_ok K p m h
    rw [hq]
    simp only [DeployableHookResources, mem_SliceStable]
    exact patchResources_keeps _ _ _ _ _ _ _ _ hp res hres hno
  · intro h hres hno
    obtain ⟨m1, patched, hp, hq⟩ := buildDeployableGeneralResources_ok K p m h
    rw [hq]
    simp only [DeployableGeneralResources, mem_SliceStable]
    exact patchResources_keeps _ _ _ _ _ _ _ _ hp res hres hno

/-- C9, on a Deployment and a releasable stack whose only patcher matches nothing: the
releasable list holds the Deployment itself, at its address 1 with its object at 0. -/
theorem build_keeps_unmatched_resource_witness :
    webDeployment ∈ ReleasableGeneralResources (buildReleasableGeneralResources sampleExt
      (sampleProcessor DeployType.DeployTypeInitial [] [] [webDeployment]
        { bareOptions with ReleasableGeneralResourcePatchers := [idlePatcher "idle"] })
      { next := 2, log := [] }).p :=
  (build_keeps_unmatched_resource sampleExt
    (sampleProcessor DeployType.DeployTypeInitial [] [] [webDeployment]
      { bareOptions with ReleasableGeneralResourcePatchers := [idlePatcher "idle"] })
    { next := 2, log := [] } webDeployment).2.2.1 (by decide) (by decide)
    (by intro P hP; simp [sampleProcessor, NewDeployableResourcesProcessor] at hP; subst hP; rfl)

/-- C10: in one pass of a build loop over a resource whose object lies below the allocation
pointer, the object is deep-copied once, to a new address, if some patcher matches and not
at all otherwise; the first `Patch` call is given that copy; each later `Patch` call is given
the object of the resource rebuilt from what the previous one returned; no `Patch` call is
given the object of the input resource. -/
theorem patchResource_lazy_single_copy (K : Ext) (L : BuildLoop) (ns : String)
    (stack : List ResourcePatcher) (res : Resource) (m : Mem)
    (h : res.unstruct.addr < m.next) :
    ∃ ev, (patchResource K L ns stack res m).1.log = m.log ++ ev
      ∧ deepCopies ev
          = (if someMatched ev = true then [(res.unstruct.addr, m.next)] else [])
      ∧ (someMatched ev = true ↔ patchCalls ev ≠ [])
      ∧ (∀ pc ∈ (patchCalls ev).head?,
          pc.1.Obj = { addr := m.next, obj := res.unstruct.obj })
      ∧ List.Chain' rebuiltFrom (patchCalls ev)
      ∧ (∀ pc ∈ patchCalls ev, pc.1.Obj.addr ≠ res.unstruct.addr) := by
  obtain ⟨ev, h1, -, h3, h4, h5, h6, h7⟩ := patchLoop_log K L ns stack res false m
  refine ⟨ev, h1, ?_, h7, ?_, h4, ?_⟩
  · simpa using h3
  · simpa using h5
  · intro pc hpc
    rcases h6 pc hpc with hge | ⟨hf, -⟩
    · omega
    · cases hf

/-- C10, on the Deployment (object at address 0) and a stack of two matching patchers with
the allocation pointer at 2: one deep copy, from 0 to 2, and both `Patch` calls are given
the object at 2. -/
theorem patchResource_lazy_single_copy_witness :
    deepCopies (patchResource sampleExt deployableGeneralLoop "prod"
        [annotatePatcher "first" "a" "1", annotatePatcher "second" "b" "2"] webDeployment
        { next := 2, log := [] }).1.log = [(0, 2)]
    ∧ (patchCalls (patchResource sampleExt deployableGeneralLoop "prod"
        [annotatePatcher "first" "a" "1", annotatePatcher "second" "b" "2"] webDeployment
        { next := 2, log := [] }).1.log).map (fun pc => pc.1.Obj.addr) = [2, 2]
    ∧ ∃ ev, (patchResource sampleExt deployableGeneralLoop "prod"
        [annotatePatcher "first" "a" "1", annotatePatcher "second" "b" "2"] webDeployment
        { next := 2, log := [] }).1.log = [] ++ ev
      ∧ ∀ pc ∈ patchCalls ev, pc.1.Obj.addr ≠ webDeployment.unstruct.addr :=
  ⟨by decide, by decide,
    (patchResource_lazy_single_copy sampleExt deployableGeneralLoop "prod"
      [annotatePatcher "first" "a" "1", annotatePatcher "second" "b" "2"] webDeployment
      { next := 2, log := [] } (by decide)).imp (fun _ hev => ⟨hev.1, hev.2.2.2.2.2⟩)⟩


/-- Running a list of stages that starts with stages `A`: when `A` succeeds, the run goes on
with the remaining stages from the state `A` leaves. -/
theorem runStages_append (A B : List Stage) :
    ∀ (p : DeployableResourcesProcessor) (m : Mem), (runStages A p m).err = none →
      runStages (A ++ B) p m = runStages B (runStages A p m).p (runStages A p m).mem := by
  induction A with
  | nil => intro p m _; rfl
  | cons s rest ih =>
    intro p m h
    simp only [List.cons_append, runStages] at h ⊢
    split
    · rename_i err herr
      rw [herr] at h
      cases h
    · rename_i herr
      rw [herr] at h
      exact ih _ _ h

/-- A run that succeeds on `A ++ B` succeeds on `A`. -/
theorem runStages_append_ok (A B : List Stage) :
    ∀ (p : DeployableResourcesProcessor) (m : Mem), (runStages (A ++ B) p m).err = none →
      (runStages A p m).err = none := by
  induction A with
  | nil => intro p m _; rfl
  | cons s rest ih =>
    intro p m h
    simp only [List.cons_append, runStages] at h ⊢
    split
    · rename_i err herr
      rw [herr] at h
      cases h
    · rename_i herr
      rw [herr] at h
      exact ih _ _ h

/-- A successful run over `A ++ s :: B` runs `s` with success from the state `A` leaves, and
then `B` from the state `s` leaves. -/
theorem runStages_split (A : List Stage) (s : Stage) (B : List Stage)
    (p : DeployableResourcesProcessor) (m : Mem)
    (h : (runStages (A ++ s :: B) p m).err = none) :
    (runStages A p m).err = none
    ∧ (s.run (runStages A p m).p (runStages A p m).mem).err = none
    ∧ runStages (A ++ s :: B) p m
      = runStages B (s.run (runStages A p m).p (runStages A p m).mem).p
          (s.run (runStages A p m).p (runStages A p m).mem).mem := by
  have hA := runStages_append_ok A (s :: B) p m h
  have hrun := runStages_append A (s :: B) p m hA
  rw [hrun] at h ⊢
  simp only [runStages] at h ⊢
  split
  · rename_i err herr
    rw [herr] at h
    cases h
  · rename_i herr
    exact ⟨hA, herr, rfl⟩

/-- A value read from the processor that no stage of a list changes is the same after the
run. -/
theorem runStages_preserves {α : Type} (f : DeployableResourcesProcessor → α)
    (stages : List Stage)
    (hst : ∀ s ∈ stages, ∀ (p : DeployableResourcesProcessor) (m : Mem),
      f (s.run p m).p = f p) :
    ∀ (p : DeployableResourcesProcessor) (m : Mem), f (runStages stages p m).p = f p := by
  induction stages with
  | nil => intro p m; rfl
  | cons s rest ih =>
    intro p m
    simp only [runStages]
    split
    · exact hst s (List.mem_cons_self _ _) p m
    · rw [ih (fun t ht => hst t (List.mem_cons_of_mem _ ht))]
      exact hst s (List.mem_cons_self _ _) p m


/-- No stage of `Process` assigns the deploy type, the identity of the release or a patcher
stack. -/
theorem stage_keeps_setup (K : Ext) :
    ∀ s ∈ offlineStages K ++ clusterStages K, ∀ (p : DeployableResourcesProcessor) (m : Mem),
      setupOf (s.run p m).p = setupOf p := by
  intro s hs p m
  simp only [offlineStages, clusterStages, List.cons_append, List.nil_append, List.mem_cons,
    List.mem_singleton, List.mem_nil_iff, or_false] at hs
  rcases hs with rfl | rfl | rfl | rfl | rfl | rfl | rfl | rfl | rfl | rfl | rfl | rfl | rfl
  · rfl
  · rfl
  · rfl
  · rfl
  · simp only [buildReleasableHookResources]; split <;> rfl
  · simp only [buildReleasableGeneralResources]; split <;> rfl
  · rfl
  · simp only [buildDeployableStandaloneCRDs]; split <;> rfl
  · simp only [buildDeployableHookResources]; split <;> rfl
  · simp only [buildDeployableGeneralResources]; split <;> rfl
  · rfl
  · rfl
  · rfl

/-- The stages that need the cluster assign only the info fields. -/
theorem lastStages_keep (K : Ext) (q : DeployableResourcesProcessor) :
    ∀ s ∈ lastStages K q, ∀ (p : DeployableResourcesProcessor) (m : Mem),
      (s.run p m).p.hookResources = p.hookResources
      ∧ (s.run p m).p.generalResources = p.generalResources
      ∧ (s.run p m).p.releasableHookResources = p.releasableHookResources
      ∧ (s.run p m).p.releasableGeneralResources = p.releasableGeneralResources
      ∧ (s.run p m).p.deployableHookResources = p.deployableHookResources
      ∧ (s.run p m).p.deployableGeneralResources = p.deployableGeneralResources := by
  intro s hs p m
  unfold lastStages at hs
  split at hs
  · simp only [clusterStages, List.mem_cons, List.mem_singleton, List.mem_nil_iff,
      or_false] at hs
    rcases hs with rfl | rfl
    · exact ⟨rfl, rfl, rfl, rfl, rfl, rfl⟩
    · exact ⟨rfl, rfl, rfl, rfl, rfl, rfl⟩
  · cases hs


/-- The setup of the processor is the same after any initial part of the offline stages. -/
theorem runStages_take_setup (K : Ext) (n : Nat) (p : DeployableResourcesProcessor) (m : Mem) :
    setupOf (runStages ((offlineStages K).take n) p m).p = setupOf p :=
  runStages_preserves setupOf _
    (fun s hs => stage_keeps_setup K s (List.mem_append_left _ (List.mem_of_mem_take hs))) p m

/-- After a successful `Process` the deployable general resources are the sorted output of
the deployable general loop over the general resources the processor ends with. -/
theorem process_deployableGeneral (K : Ext) (p : DeployableResourcesProcessor) (m : Mem)
    (h : (Process K p m).err = none) :
    ∃ m0 m1 patched,
      patchResources K deployableGeneralLoop p.releaseNamespace
        p.deployableGeneralResourcePatchers (Process K p m).p.generalResources m0
        = (m1, Except.ok patched)
      ∧ DeployableGeneralResources (Process K p m).p = SliceStable (resourceLess K) patched := by
  have hsplit : offlineStages K ++ lastStages K p
      = (offlineStages K).take 9
        ++ { label := "error building deployable general resources",
             run := buildDeployableGeneralResources K }
          :: ((offlineStages K).drop 10 ++ lastStages K p) := rfl
  unfold Process at h ⊢
  rw [hsplit] at h ⊢
  obtain ⟨-, hs, hrun⟩ := runStages_split _ _ _ p m h
  have hsetup := runStages_take_setup K 9 p m
  generalize runStages ((offlineStages K).take 9) p m = rA at hs hrun hsetup
  simp only at hs hrun
  obtain ⟨m1, patched, hp, hq⟩ := buildDeployableGeneralResources_ok K rA.p rA.mem hs
  have hkeep : ∀ s ∈ (offlineStages K).drop 10 ++ lastStages K p,
      ∀ (q : DeployableResourcesProcessor) (m' : Mem),
        ((s.run q m').p.generalResources, (s.run q m').p.deployableGeneralResources)
        = (q.generalResources, q.deployableGeneralResources) := by
    intro s hs' q m'
    rcases List.mem_append.mp hs' with hs' | hs'
    · simp only [offlineStages, List.drop, List.mem_cons, List.mem_nil_iff, or_false] at hs'
      subst hs'
      rfl
    · obtain ⟨-, h2, -, -, -, h6⟩ := lastStages_keep K p s hs' q m'
      simp only [h2, h6]
  have hfin := runStages_preserves
    (fun q : DeployableResourcesProcessor => (q.generalResources, q.deployableGeneralResources))
    _ hkeep
    (buildDeployableGeneralResources K rA.p rA.mem).p
    (buildDeployableGeneralResources K rA.p rA.mem).mem
  rw [← hrun, hq] at hfin
  simp only [Prod.mk.injEq] at hfin
  simp only [setupOf, Prod.mk.injEq] at hsetup
  obtain ⟨-, -, hns, -, -, -, -, hstack⟩ := hsetup
  refine ⟨rA.mem, m1, patched, ?_, ?_⟩
  · rw [hfin.1, ← hns, ← hstack]
    exact hp
  · exact hfin.2


/-- After a successful `Process` the releasable general resources are the sorted output of
the releasable general loop over the general resources the processor ends with. -/
theorem process_releasableGeneral (K : Ext) (p : DeployableResourcesProcessor) (m : Mem)
    (h : (Process K p m).err = none) :
    ∃ m0 m1 patched,
      patchResources K releasableGeneralLoop p.releaseNamespace
        p.releasableGeneralResourcePatchers (Process K p m).p.generalResources m0
        = (m1, Except.ok patched)
      ∧ ReleasableGeneralResources (Process K p m).p = SliceStable (resourceLess K) patched := by
  have hsplit : offlineStages K ++ lastStages K p
      = (offlineStages K).take 5
        ++ { label := "error building releasable general resources",
             run := buildReleasableGeneralResources K }
          :: ((offlineStages K).drop 6 ++ lastStages K p) := rfl
  unfold Process at h ⊢
  rw [hsplit] at h ⊢
  obtain ⟨-, hs, hrun⟩ := runStages_split _ _ _ p m h
  have hsetup := runStages_take_setup K 5 p m
  generalize runStages ((offlineStages K).take 5) p m = rA at hs hrun hsetup
  simp only at hs hrun
  obtain ⟨m1, patched, hp, hq⟩ := buildReleasableGeneralResources_ok K rA.p rA.mem hs
  have hkeep : ∀ s ∈ (offlineStages K).drop 6 ++ lastStages K p,
      ∀ (q : DeployableResourcesProcessor) (m' : Mem),
        ((s.run q m').p.generalResources, (s.run q m').p.releasableGeneralResources)
        = (q.generalResources, q.releasableGeneralResources) := by
    intro s hs' q m'
    rcases List.mem_append.mp hs' with hs' | hs'
    · simp only [offlineStages, List.drop, List.mem_cons, List.mem_nil_iff, or_false] at hs'
      rcases hs' with rfl | rfl | rfl | rfl | rfl
      · rfl
      · simp only [buildDeployableStandaloneCRDs, buildDeployableHookResources,
          buildDeployableGeneralResources, buildReleasableGeneralResources]
        split <;> rfl
      · simp only [buildDeployableStandaloneCRDs, buildDeployableHookResources,
          buildDeployableGeneralResources, buildReleasableGeneralResources]
        split <;> rfl
      · simp only [buildDeployableStandaloneCRDs, buildDeployableHookResources,
          buildDeployableGeneralResources, buildReleasableGeneralResources]
        split <;> rfl
      · rfl
    · obtain ⟨h1, h2, h3, h4, h5, h6⟩ := lastStages_keep K p s hs' q m'
      simp only [h1, h2, h3, h4, h5, h6]
  have hfin := runStages_preserves
    (fun q : DeployableResourcesProcessor => (q.generalResources, q.releasableGeneralResources))
    _ hkeep
    (buildReleasableGeneralResources K rA.p rA.mem).p
    (buildReleasableGeneralResources K rA.p rA.mem).mem
  rw [← hrun, hq] at hfin
  simp only [Prod.mk.injEq] at hfin
  simp only [setupOf, Prod.mk.injEq] at hsetup
  obtain ⟨hdt, -, hns, hs1, hs2, -, hs4, hs5⟩ := hsetup
  refine ⟨rA.mem, m1, patched, ?_, ?_⟩
  · rw [hfin.1, ← hns, ← hs2]
    exact hp
  · exact hfin.2

/-- After a successful `Process` the releasable hook resources are the sorted output of the
releasable hook loop over the hook resources the processor ends with. -/
theorem process_releasableHook (K : Ext) (p : DeployableResourcesProcessor) (m : Mem)
    (h : (Process K p m).err = none) :
    ∃ m0 m1 patched,
      patchResources K releasableHookLoop p.releaseNamespace
        p.releasableHookResourcePatchers (Process K p m).p.hookResources m0
        = (m1, Except.ok patched)
      ∧ ReleasableHookResources (Process K p m).p = SliceStable (resourceLess K) patched := by
  have hsplit : offlineStages K ++ lastStages K p
      = (offlineStages K).take 4
        ++ { label := "error building releasable hook resources",
             run := buildReleasableHookResources K }
          :: ((offlineStages K).drop 5 ++ lastStages K p) := rfl
  unfold Process at h ⊢
  rw [hsplit] at h ⊢
  obtain ⟨-, hs, hrun⟩ := runStages_split _ _ _ p m h
  have hsetup := runStages_take_setup K 4 p m
  generalize runStages ((offlineStages K).take 4) p m = rA at hs hrun hsetup
  simp only at hs hrun
  obtain ⟨m1, patched, hp, hq⟩ := buildReleasableHookResources_ok K rA.p rA.mem hs
  have hkeep : ∀ s ∈ (offlineStages K).drop 5 ++ lastStages K p,
      ∀ (q : DeployableResourcesProcessor) (m' : Mem),
        ((s.run q m').p.hookResources, (s.run q m').p.releasableHookResources)
        = (q.hookResources, q.releasableHookResources) := by
    intro s hs' q m'
    rcases List.mem_append.mp hs' with hs' | hs'
    · simp only [offlineStages, List.drop, List.mem_cons, List.mem_nil_iff, or_false] at hs'
      rcases hs' with rfl | rfl | rfl | rfl | rfl | rfl
      · simp only [buildDeployableStandaloneCRDs, buildDeployableHookResources,
          buildDeployableGeneralResources, buildReleasableGeneralResources]
        split <;> rfl
      · rfl
      · simp only [buildDeployableStandaloneCRDs, buildDeployableHookResources,
          buildDeployableGeneralResources, buildReleasableGeneralResources]
        split <;> rfl
      · simp only [buildDeployableStandaloneCRDs, buildDeployableHookResources,
          buildDeployableGeneralResources, buildReleasableGeneralResources]
        split <;> rfl
      · simp only [buildDeployableStandaloneCRDs, buildDeployableHookResources,
          buildDeployableGeneralResources, buildReleasableGeneralResources]
        split <;> rfl
      · rfl
    · obtain ⟨h1, h2, h3, h4, h5, h6⟩ := lastStages_keep K p s hs' q m'
      simp only [h1, h2, h3, h4, h5, h6]
  have hfin := runStages_preserves
    (fun q : DeployableResourcesProcessor => (q.hookResources, q.releasableHookResources))
    _ hkeep
    (buildReleasableHookResources K rA.p rA.mem).p
    (buildReleasableHookResources K rA.p rA.mem).mem
  rw [← hrun, hq] at hfin
  simp only [Prod.mk.injEq] at hfin
  simp only [setupOf, Prod.mk.injEq] at hsetup
  obtain ⟨hdt, -, hns, hs1, hs2, -, hs4, hs5⟩ := hsetup
  refine ⟨rA.mem, m1, patched, ?_, ?_⟩
  · rw [hfin.1, ← hns, ← hs1]
    exact hp
  · exact hfin.2

/-- After a successful `Process` the deployable hook resources are the sorted output of the
deployable hook loop over the hook resources the processor ends with that match the deploy
type. -/
theorem process_deployableHook (K : Ext) (p : DeployableResourcesProcessor) (m : Mem)
    (h : (Process K p m).err = none) :
    ∃ m0 m1 patched,
      patchResources K deployableHookLoop p.releaseNamespace
        p.deployableHookResourcePatchers ((Process K p m).p.hookResources.filter (hookMatchesDeployType p.deployType)) m0
        = (m1, Except.ok patched)
      ∧ DeployableHookResources (Process K p m).p = SliceStable (resourceLess K) patched := by
  have hsplit : offlineStages K ++ lastStages K p
      = (offlineStages K).take 8
        ++ { label := "error building deployable hook resources",
             run := buildDeployableHookResources K }
          :: ((offlineStages K).drop 9 ++ lastStages K p) := rfl
  unfold Process at h ⊢
  rw [hsplit] at h ⊢
  obtain ⟨-, hs, hrun⟩ := runStages_split _ _ _ p m h
  have hsetup := runStages_take_setup K 8 p m
  generalize runStages ((offlineStages K).take 8) p m = rA at hs hrun hsetup
  simp only at hs hrun
  obtain ⟨m1, patched, hp, hq⟩ := buildDeployableHookResources_ok K rA.p rA.mem hs
  have hkeep : ∀ s ∈ (offlineStages K).drop 9 ++ lastStages K p,
      ∀ (q : DeployableResourcesProcessor) (m' : Mem),
        ((s.run q m').p.hookResources, (s.run q m').p.deployableHookResources)
        = (q.hookResources, q.deployableHookResources) := by
    intro s hs' q m'
    rcases List.mem_append.mp hs' with hs' | hs'
    · simp only [offlineStages, List.drop, List.mem_cons, List.mem_nil_iff, or_false] at hs'
      rcases hs' with rfl | rfl
      · simp only [buildDeployableStandaloneCRDs, buildDeployableHookResources,
          buildDeployableGeneralResources, buildReleasableGeneralResources]
        split <;> rfl
      · rfl
    · obtain ⟨h1, h2, h3, h4, h5, h6⟩ := lastStages_keep K p s hs' q m'
      simp only [h1, h2, h3, h4, h5, h6]
  have hfin := runStages_preserves
    (fun q : DeployableResourcesProcessor => (q.hookResources, q.deployableHookResources))
    _ hkeep
    (buildDeployableHookResources K rA.p rA.mem).p
    (buildDeployableHookResources K rA.p rA.mem).mem
  rw [← hrun, hq] at hfin
  simp only [Prod.mk.injEq] at hfin
  simp only [setupOf, Prod.mk.injEq] at hsetup
  obtain ⟨hdt, -, hns, hs1, hs2, -, hs4, hs5⟩ := hsetup
  refine ⟨rA.mem, m1, patched, ?_, ?_⟩
  · rw [hfin.1, ← hns, ← hs4, ← hdt]
    exact hp
  · exact hfin.2


/-- C8, as stated, fails: with a releasable general stack that adds the annotation
`team=core` and no caller patcher in the deployable general stack, `Process` succeeds, the
releasable form of the Deployment carries the annotation (which the chart did not give it)
and its deployable form does not. -/
theorem deployable_lacks_releasable_effect :
    (Process sampleExt
        (sampleProcessor DeployType.DeployTypeInitial [] [] [webDeployment]
          releasableOnlyOptions) { next := 2, log := [] }).err = none
    ∧ webDeployment.unstruct.obj.annotations = []
    ∧ (ReleasableGeneralResources (Process sampleExt
        (sampleProcessor DeployType.DeployTypeInitial [] [] [webDeployment]
          releasableOnlyOptions) { next := 2, log := [] }).p).map
        (fun res => res.unstruct.obj.annotations) = [[("team", "core")]]
    ∧ (DeployableGeneralResources (Process sampleExt
        (sampleProcessor DeployType.DeployTypeInitial [] [] [webDeployment]
          releasableOnlyOptions) { next := 2, log := [] }).p).map
        (fun res => res.unstruct.obj.annotations) = [[("release-name", "app")]] := by
  refine ⟨by decide, by decide, by decide, by decide⟩

/-- C8 (amended): after a successful `Process` the deployable generals (hooks) are the sorted
output of the deployable stack alone, run over the transformed generals (the transformed
hooks that match the deploy type), and the releasable generals (hooks) are the sorted output
of the releasable stack alone over the same transformed resources; in a processor built by
`NewDeployableResourcesProcessor` the deployable stack is the release-metadata patcher
followed by the deployable patchers of the caller, and the releasable stack is the releasable
patchers of the caller. The releasable patchers are not run in the deployable lineage. -/
theorem process_lineages_separate (K : Ext) (p : DeployableResourcesProcessor) (m : Mem)
    (h : (Process K p m).err = none) :
    (∃ m0 m1 patched,
      patchResources K releasableGeneralLoop p.releaseNamespace
        p.releasableGeneralResourcePatchers (Process K p m).p.generalResources m0
        = (m1, Except.ok patched)
      ∧ ReleasableGeneralResources (Process K p m).p = SliceStable (resourceLess K) patched)
    ∧ (∃ m0 m1 patched,
      patchResources K deployableGeneralLoop p.releaseNamespace
        p.deployableGeneralResourcePatchers (Process K p m).p.generalResources m0
        = (m1, Except.ok patched)
      ∧ DeployableGeneralResources (Process K p m).p = SliceStable (resourceLess K) patched)
    ∧ (∃ m0 m1 patched,
      patchResources K releasableHookLoop p.releaseNamespace
        p.releasableHookResourcePatchers (Process K p m).p.hookResources m0
        = (m1, Except.ok patched)
      ∧ ReleasableHookResources (Process K p m).p = SliceStable (resourceLess K) patched)
    ∧ (∃ m0 m1 patched,
      patchResources K deployableHookLoop p.releaseNamespace
        p.deployableHookResourcePatchers
        ((Process K p m).p.hookResources.filter (hookMatchesDeployType p.deployType)) m0
        = (m1, Except.ok patched)
      ∧ DeployableHookResources (Process K p m).p = SliceStable (resourceLess K) patched)
    ∧ ∀ (deployType : DeployType) (releaseName releaseNamespace : String)
        (standaloneCRDs hookResources generalResources prevRel : List Resource)
        (opts : DeployableResourcesProcessorOptions),
        (NewDeployableResourcesProcessor K deployType releaseName releaseNamespace
          standaloneCRDs hookResources generalResources prevRel
          opts).deployableGeneralResourcePatchers
          = K.NewReleaseMetadataPatcher releaseName releaseNamespace
            :: opts.DeployableGeneralResourcePatchers
        ∧ (NewDeployableResourcesProcessor K deployType releaseName releaseNamespace
          standaloneCRDs hookResources generalResources prevRel
          opts).deployableHookResourcePatchers
          = K.NewReleaseMetadataPatcher releaseName releaseNamespace
            :: opts.DeployableHookResourcePatchers
        ∧ (NewDeployableResourcesProcessor K deployType releaseName releaseNamespace
          standaloneCRDs hookResources generalResources prevRel
          opts).releasableGeneralResourcePatchers = opts.ReleasableGeneralResourcePatchers
        ∧ (NewDeployableResourcesProcessor K deployType releaseName releaseNamespace
          standaloneCRDs hookResources generalResources prevRel
          opts).releasableHookResourcePatchers = opts.ReleasableHookResourcePatchers :=
  ⟨process_releasableGeneral K p m h, process_deployableGeneral K p m h,
    process_releasableHook K p m h, process_deployableHook K p m h,
    fun _ _ _ _ _ _ _ _ => ⟨rfl, rfl, rfl, rfl⟩⟩

/-- C8 (amended), on the plan of the sample chart, where both stacks are built from the same
extra annotations: the deployable form carries the release-metadata stamp and the annotation
the releasable stack adds. -/
theorem process_lineages_separate_witness :
    (DeployableGeneralResources (Process sampleExt
        (sampleProcessor DeployType.DeployTypeInitial [] [] [webDeployment]
          (processorOptions sampleExt (sampleOptions false))) { next := 2, log := [] }).p).map
        (fun res => res.unstruct.obj.annotations) = [[("release-name", "app"), ("team", "core")]]
    ∧ ∃ m0 m1 patched,
      patchResources sampleExt deployableGeneralLoop "prod"
        (sampleExt.NewReleaseMetadataPatcher "app" "prod"
          :: (processorOptions sampleExt (sampleOptions false)).DeployableGeneralResourcePatchers)
        (Process sampleExt
          (sampleProcessor DeployType.DeployTypeInitial [] [] [webDeployment]
            (processorOptions sampleExt (sampleOptions false)))
          { next := 2, log := [] }).p.generalResources m0
        = (m1, Except.ok patched)
      ∧ DeployableGeneralResources (Process sampleExt
          (sampleProcessor DeployType.DeployTypeInitial [] [] [webDeployment]
            (processorOptions sampleExt (sampleOptions false)))
          { next := 2, log := [] }).p = SliceStable (resourceLess sampleExt) patched :=
  ⟨by decide,
    (process_lineages_separate sampleExt
      (sampleProcessor DeployType.DeployTypeInitial [] [] [webDeployment]
        (processorOptions sampleExt (sampleOptions false)))
      { next := 2, log := [] } (by decide)).2.1⟩

/-! ## Properties of the option defaults -/

/-- What a successful `applyPlanOptionsDefaults` returns for the release name, the storage
driver and the network parallelism. -/
theorem applyPlanOptionsDefaults_ok (W : PlanWorld) (opts o : PlanOptions)
    (currentDir home : String)
    (h : applyPlanOptionsDefaults W opts currentDir home = Except.ok o) :
    opts.ReleaseName ≠ ""
    ∧ o.ReleaseName = opts.ReleaseName
    ∧ opts.ReleaseStorageDriver ≠ ReleaseStorageDriver.ReleaseStorageDriverMemory
    ∧ o.ReleaseStorageDriver
      = (if opts.ReleaseStorageDriver = ReleaseStorageDriver.ReleaseStorageDriverDefault
          then ReleaseStorageDriver.ReleaseStorageDriverSecrets
          else opts.ReleaseStorageDriver)
    ∧ o.NetworkParallelism
      = (if opts.NetworkParallelism ≤ 0 then 30 else opts.NetworkParallelism) := by
  have h1 : ∀ (a : PlanOptions), (defaultChartDirPath a currentDir).ReleaseName = a.ReleaseName
      ∧ (defaultChartDirPath a currentDir).ReleaseStorageDriver = a.ReleaseStorageDriver
      ∧ (defaultChartDirPath a currentDir).NetworkParallelism = a.NetworkParallelism := by
    intro a; unfold defaultChartDirPath; split <;> exact ⟨rfl, rfl, rfl⟩
  have h2 : ∀ (a b : PlanOptions), defaultTempDirPath W a = Except.ok b →
      b.ReleaseName = a.ReleaseName ∧ b.ReleaseStorageDriver = a.ReleaseStorageDriver
      ∧ b.NetworkParallelism = a.NetworkParallelism := by
    intro a b hab; unfold defaultTempDirPath at hab
    split at hab
    · split at hab
      · cases hab
      · cases hab; exact ⟨rfl, rfl, rfl⟩
    · cases hab; exact ⟨rfl, rfl, rfl⟩
  have h3 : ∀ (a : PlanOptions), (defaultKubeConfigPaths a home).ReleaseName = a.ReleaseName
      ∧ (defaultKubeConfigPaths a home).ReleaseStorageDriver = a.ReleaseStorageDriver
      ∧ (defaultKubeConfigPaths a home).NetworkParallelism = a.NetworkParallelism := by
    intro a; unfold defaultKubeConfigPaths; split <;> exact ⟨rfl, rfl, rfl⟩
  have h4 : ∀ (a : PlanOptions), (defaultLogRegistryStreamOut a).ReleaseName = a.ReleaseName
      ∧ (defaultLogRegistryStreamOut a).ReleaseStorageDriver = a.ReleaseStorageDriver
      ∧ (defaultLogRegistryStreamOut a).NetworkParallelism = a.NetworkParallelism := by
    intro a; unfold defaultLogRegistryStreamOut; split <;> exact ⟨rfl, rfl, rfl⟩
  have h5 : ∀ (a : PlanOptions), (defaultNetworkParallelism a).ReleaseName = a.ReleaseName
      ∧ (defaultNetworkParallelism a).ReleaseStorageDriver = a.ReleaseStorageDriver
      ∧ (defaultNetworkParallelism a).NetworkParallelism
        = (if a.NetworkParallelism ≤ 0 then 30 else a.NetworkParallelism) := by
    intro a; unfold defaultNetworkParallelism
    split
    · rename_i hle
      exact ⟨rfl, rfl, rfl⟩
    · rename_i hle
      exact ⟨rfl, rfl, rfl⟩
  unfold applyPlanOptionsDefaults at h
  split at h
  · cases h
  · rename_i o1 ho1
    simp only at h
    split at h
    · cases h
    · rename_i hname
      obtain ⟨n1, d1, p1⟩ := h1 opts
      obtain ⟨n2, d2, p2⟩ := h2 _ _ ho1
      obtain ⟨n3, d3, p3⟩ := h3 o1
      obtain ⟨n4, d4, p4⟩ := h4 (defaultKubeConfigPaths o1 home)
      obtain ⟨n5, d5, p5⟩ := h5 (defaultLogRegistryStreamOut (defaultKubeConfigPaths o1 home))
      have hn : (defaultNetworkParallelism (defaultLogRegistryStreamOut
          (defaultKubeConfigPaths o1 home))).ReleaseName = opts.ReleaseName := by
        rw [n5, n4, n3, n2, n1]
      have hd : (defaultNetworkParallelism (defaultLogRegistryStreamOut
          (defaultKubeConfigPaths o1 home))).ReleaseStorageDriver
          = opts.ReleaseStorageDriver := by
        rw [d5, d4, d3, d2, d1]
      have hp : (defaultNetworkParallelism (defaultLogRegistryStreamOut
          (defaultKubeConfigPaths o1 home))).NetworkParallelism
          = (if opts.NetworkParallelism ≤ 0 then 30 else opts.NetworkParallelism) := by
        rw [p5, p4, p3, p2, p1]
      generalize defaultNetworkParallelism (defaultLogRegistryStreamOut
        (defaultKubeConfigPaths o1 home)) = o5 at h hname hn hd hp
      rw [hn] at hname
      unfold resolveReleaseStorageDriver at h
      rw [hd] at h
      split at h
      · rename_i hdef
        cases h
        refine ⟨hname, hn, ?_, ?_, hp⟩
        · rw [hdef]; decide
        · rw [if_pos hdef]
      · rename_i hdef
        split at h
        · cases h
        · rename_i hmem
          cases h
          refine ⟨hname, hn, hmem, ?_, hp⟩
          rw [if_neg hdef, hd]

/-- When the temp-dir step succeeds, the release name is given and the driver is not Memory,
`applyPlanOptionsDefaults` succeeds. -/
theorem applyPlanOptionsDefaults_succeeds (W : PlanWorld) (opts : PlanOptions)
    (currentDir home : String)
    (htemp : opts.TempDirPath ≠ "" ∨ ∃ dir, W.MkdirTemp = Except.ok dir)
    (hname : opts.ReleaseName ≠ "")
    (hdrv : opts.ReleaseStorageDriver ≠ ReleaseStorageDriver.ReleaseStorageDriverMemory) :
    ∃ o, applyPlanOptionsDefaults W opts currentDir home = Except.ok o := by
  have ht : ∃ o1, defaultTempDirPath W (defaultChartDirPath opts currentDir) = Except.ok o1
      ∧ o1.ReleaseName = opts.ReleaseName
      ∧ o1.ReleaseStorageDriver = opts.ReleaseStorageDriver := by
    have hc : (defaultChartDirPath opts currentDir).TempDirPath = opts.TempDirPath
        ∧ (defaultChartDirPath opts currentDir).ReleaseName = opts.ReleaseName
        ∧ (defaultChartDirPath opts currentDir).ReleaseStorageDriver
          = opts.ReleaseStorageDriver := by
      unfold defaultChartDirPath; split <;> exact ⟨rfl, rfl, rfl⟩
    obtain ⟨c1, c2, c3⟩ := hc
    unfold defaultTempDirPath
    rw [c1]
    by_cases hemp : opts.TempDirPath = ""
    · rcases htemp with h | ⟨dir, hdir⟩
      · exact absurd hemp h
      · rw [if_pos hemp, hdir]
        exact ⟨_, rfl, c2, c3⟩
    · rw [if_neg hemp]
      exact ⟨_, rfl, c2, c3⟩
  obtain ⟨o1, ho1, hn1, hd1⟩ := ht
  have hk : ∀ (a : PlanOptions),
      (defaultNetworkParallelism (defaultLogRegistryStreamOut
        (defaultKubeConfigPaths a home))).ReleaseName = a.ReleaseName
      ∧ (defaultNetworkParallelism (defaultLogRegistryStreamOut
        (defaultKubeConfigPaths a home))).ReleaseStorageDriver = a.ReleaseStorageDriver := by
    intro a
    unfold defaultNetworkParallelism defaultLogRegistryStreamOut defaultKubeConfigPaths
    split <;> split <;> split <;> exact ⟨rfl, rfl⟩
  obtain ⟨hn5, hd5⟩ := hk o1
  unfold applyPlanOptionsDefaults
  rw [ho1]
  simp only
  rw [hn5, hn1, if_neg hname]
  unfold resolveReleaseStorageDriver
  rw [hd5, hd1]
  split
  · exact ⟨_, rfl⟩
  · exact ⟨_, rfl⟩

/-- What a successful `applyUninstallOptionsDefaults` returns for the release name and the
storage driver. -/
theorem applyUninstallOptionsDefaults_ok (mkdirTemp : Except String String)
    (opts o : UninstallOptions) (currentDir home : String)
    (h : applyUninstallOptionsDefaults mkdirTemp opts currentDir home = Except.ok o) :
    opts.ReleaseName ≠ ""
    ∧ opts.ReleaseStorageDriver ≠ ReleaseStorageDriver.ReleaseStorageDriverMemory
    ∧ o.ReleaseStorageDriver
      = (if opts.ReleaseStorageDriver = ReleaseStorageDriver.ReleaseStorageDriverDefault
          then ReleaseStorageDriver.ReleaseStorageDriverSecrets
          else opts.ReleaseStorageDriver) := by
  have h2 : ∀ (a b : UninstallOptions), uninstallDefaultTempDirPath mkdirTemp a = Except.ok b →
      b.ReleaseName = a.ReleaseName ∧ b.ReleaseStorageDriver = a.ReleaseStorageDriver := by
    intro a b hab; unfold uninstallDefaultTempDirPath at hab
    split at hab
    · split at hab
      · cases hab
      · cases hab; exact ⟨rfl, rfl⟩
    · cases hab; exact ⟨rfl, rfl⟩
  have hk : ∀ (a : UninstallOptions),
      (uninstallDefaultHistoryLimit (uninstallDefaultPrintInterval
        (uninstallDefaultKubeConfigPaths a home))).ReleaseName = a.ReleaseName
      ∧ (uninstallDefaultHistoryLimit (uninstallDefaultPrintInterval
        (uninstallDefaultKubeConfigPaths a home))).ReleaseStorageDriver
        = a.ReleaseStorageDriver := by
    intro a
    unfold uninstallDefaultHistoryLimit uninstallDefaultPrintInterval
      uninstallDefaultKubeConfigPaths
    split <;> split <;> split <;> exact ⟨rfl, rfl⟩
  unfold applyUninstallOptionsDefaults at h
  split at h
  · cases h
  · rename_i o1 ho1
    simp only at h
    obtain ⟨n2, d2⟩ := h2 _ _ ho1
    obtain ⟨n5, d5⟩ := hk o1
    generalize uninstallDefaultHistoryLimit (uninstallDefaultPrintInterval
      (uninstallDefaultKubeConfigPaths o1 home)) = o5 at h n5 d5
    split at h
    · cases h
    · rename_i hname
      rw [n5, n2] at hname
      unfold uninstallResolveReleaseStorageDriver at h
      rw [d5, d2] at h
      split at h
      · rename_i hdef
        cases h
        refine ⟨hname, ?_, ?_⟩
        · rw [hdef]; decide
        · rw [if_pos hdef]
      · rename_i hdef
        split at h
        · cases h
        · rename_i hmem
          cases h
          refine ⟨hname, hmem, ?_⟩
          rw [if_neg hdef, d5, d2]

/-- When the temp-dir step succeeds, the release name is given and the driver is not Memory,
`applyUninstallOptionsDefaults` succeeds. -/
theorem applyUninstallOptionsDefaults_succeeds (mkdirTemp : Except String String)
    (opts : UninstallOptions) (currentDir home : String)
    (htemp : opts.TempDirPath ≠ "" ∨ ∃ dir, mkdirTemp = Except.ok dir)
    (hname : opts.ReleaseName ≠ "")
    (hdrv : opts.ReleaseStorageDriver ≠ ReleaseStorageDriver.ReleaseStorageDriverMemory) :
    ∃ o, applyUninstallOptionsDefaults mkdirTemp opts currentDir home = Except.ok o := by
  have ht : ∃ o1, uninstallDefaultTempDirPath mkdirTemp opts = Except.ok o1
      ∧ o1.ReleaseName = opts.ReleaseName
      ∧ o1.ReleaseStorageDriver = opts.ReleaseStorageDriver := by
    unfold uninstallDefaultTempDirPath
    by_cases hemp : opts.TempDirPath = ""
    · rcases htemp with h | ⟨dir, hdir⟩
      · exact absurd hemp h
      · rw [if_pos hemp, hdir]
        exact ⟨_, rfl, rfl, rfl⟩
    · rw [if_neg hemp]
      exact ⟨_, rfl, rfl, rfl⟩
  obtain ⟨o1, ho1, hn1, hd1⟩ := ht
  have hk : ∀ (a : UninstallOptions),
      (uninstallDefaultHistoryLimit (uninstallDefaultPrintInterval
        (uninstallDefaultKubeConfigPaths a home))).ReleaseName = a.ReleaseName
      ∧ (uninstallDefaultHistoryLimit (uninstallDefaultPrintInterval
        (uninstallDefaultKubeConfigPaths a home))).ReleaseStorageDriver
        = a.ReleaseStorageDriver := by
    intro a
    unfold uninstallDefaultHistoryLimit uninstallDefaultPrintInterval
      uninstallDefaultKubeConfigPaths
    split <;> split <;> split <;> exact ⟨rfl, rfl⟩
  obtain ⟨hn5, hd5⟩ := hk o1
  unfold applyUninstallOptionsDefaults
  rw [ho1]
  simp only
  rw [hn5, hn1, if_neg hname]
  unfold uninstallResolveReleaseStorageDriver
  rw [hd5, hd1]
  split
  · exact ⟨_, rfl⟩
  · exact ⟨_, rfl⟩

/-- C17: with a release name given, `applyPlanOptionsDefaults` and
`applyUninstallOptionsDefaults` return an error for the Memory driver and, once the temp-dir
step has succeeded, return Secrets for the Default driver and leave ConfigMaps and Secrets
as they are. -/
theorem storageDriver_defaults (W : PlanWorld) (opts : PlanOptions)
    (mkdirTemp : Except String String) (uopts : UninstallOptions) (currentDir home : String)
    (hname : opts.ReleaseName ≠ "") (huname : uopts.ReleaseName ≠ "")
    (htemp : opts.TempDirPath ≠ "" ∨ ∃ dir, W.MkdirTemp = Except.ok dir)
    (hutemp : uopts.TempDirPath ≠ "" ∨ ∃ dir, mkdirTemp = Except.ok dir) :
    (opts.ReleaseStorageDriver = ReleaseStorageDriver.ReleaseStorageDriverMemory →
      ∃ err, applyPlanOptionsDefaults W opts currentDir home = Except.error err)
    ∧ (opts.ReleaseStorageDriver = ReleaseStorageDriver.ReleaseStorageDriverDefault →
      ∃ o, applyPlanOptionsDefaults W opts currentDir home = Except.ok o
        ∧ o.ReleaseStorageDriver = ReleaseStorageDriver.ReleaseStorageDriverSecrets)
    ∧ (opts.ReleaseStorageDriver = ReleaseStorageDriver.ReleaseStorageDriverConfigMaps
        ∨ opts.ReleaseStorageDriver = ReleaseStorageDriver.ReleaseStorageDriverSecrets →
      ∃ o, applyPlanOptionsDefaults W opts currentDir home = Except.ok o
        ∧ o.ReleaseStorageDriver = opts.ReleaseStorageDriver)
    ∧ (uopts.ReleaseStorageDriver = ReleaseStorageDriver.ReleaseStorageDriverMemory →
      ∃ err, applyUninstallOptionsDefaults mkdirTemp uopts currentDir home = Except.error err)
    ∧ (uopts.ReleaseStorageDriver = ReleaseStorageDriver.ReleaseStorageDriverDefault →
      ∃ o, applyUninstallOptionsDefaults mkdirTemp uopts currentDir home = Except.ok o
        ∧ o.ReleaseStorageDriver = ReleaseStorageDriver.ReleaseStorageDriverSecrets)
    ∧ (uopts.ReleaseStorageDriver = ReleaseStorageDriver.ReleaseStorageDriverConfigMaps
        ∨ uopts.ReleaseStorageDriver = ReleaseStorageDriver.ReleaseStorageDriverSecrets →
      ∃ o, applyUninstallOptionsDefaults mkdirTemp uopts currentDir home = Except.ok o
        ∧ o.ReleaseStorageDriver = uopts.ReleaseStorageDriver) := by
  refine ⟨?_, ?_, ?_, ?_, ?_, ?_⟩
  · intro hmem
    cases hres : applyPlanOptionsDefaults W opts currentDir home with
    | error err => exact ⟨err, rfl⟩
    | ok o => exact absurd hmem (applyPlanOptionsDefaults_ok W opts o _ _ hres).2.2.1
  · intro hdef
    obtain ⟨o, ho⟩ := applyPlanOptionsDefaults_succeeds W opts currentDir home htemp hname
      (by rw [hdef]; decide)
    refine ⟨o, ho, ?_⟩
    rw [(applyPlanOptionsDefaults_ok W opts o _ _ ho).2.2.2.1, if_pos hdef]
  · intro hcs
    have hnd : opts.ReleaseStorageDriver ≠ ReleaseStorageDriver.ReleaseStorageDriverDefault := by
      rcases hcs with h | h <;> rw [h] <;> decide
    have hnm : opts.ReleaseStorageDriver ≠ ReleaseStorageDriver.ReleaseStorageDriverMemory := by
      rcases hcs with h | h <;> rw [h] <;> decide
    obtain ⟨o, ho⟩ := applyPlanOptionsDefaults_succeeds W opts currentDir home htemp hname hnm
    refine ⟨o, ho, ?_⟩
    rw [(applyPlanOptionsDefaults_ok W opts o _ _ ho).2.2.2.1, if_neg hnd]
  · intro hmem
    cases hres : applyUninstallOptionsDefaults mkdirTemp uopts currentDir home with
    | error err => exact ⟨err, rfl⟩
    | ok o => exact absurd hmem (applyUninstallOptionsDefaults_ok _ uopts o _ _ hres).2.1
  · intro hdef
    obtain ⟨o, ho⟩ := applyUninstallOptionsDefaults_succeeds mkdirTemp uopts currentDir home
      hutemp huname (by rw [hdef]; decide)
    refine ⟨o, ho, ?_⟩
    rw [(applyUninstallOptionsDefaults_ok _ uopts o _ _ ho).2.2, if_pos hdef]
  · intro hcs
    have hnd : uopts.ReleaseStorageDriver ≠ ReleaseStorageDriver.ReleaseStorageDriverDefault := by
      rcases hcs with h | h <;> rw [h] <;> decide
    have hnm : uopts.ReleaseStorageDriver ≠ ReleaseStorageDriver.ReleaseStorageDriverMemory := by
      rcases hcs with h | h <;> rw [h] <;> decide
    obtain ⟨o, ho⟩ := applyUninstallOptionsDefaults_succeeds mkdirTemp uopts currentDir home
      hutemp huname hnm
    refine ⟨o, ho, ?_⟩
    rw [(applyUninstallOptionsDefaults_ok _ uopts o _ _ ho).2.2, if_neg hnd]

/-- C17, on the sample plan options with the Default driver and the sample uninstall options
with the Memory driver: Secrets comes out of the first, an error out of the second. -/
theorem storageDriver_defaults_witness :
    (∃ o, applyPlanOptionsDefaults (sampleWorld none none false false) (sampleOptions false)
        "/work" "/home/user" = Except.ok o
      ∧ o.ReleaseStorageDriver = ReleaseStorageDriver.ReleaseStorageDriverSecrets)
    ∧ ∃ err, applyUninstallOptionsDefaults (Except.ok "/tmp/uninstall")
        (sampleUninstallOptions ReleaseStorageDriver.ReleaseStorageDriverMemory)
        "/work" "/home/user" = Except.error err :=
  ⟨(storageDriver_defaults (sampleWorld none none false false) (sampleOptions false)
      (Except.ok "/tmp/uninstall")
      (sampleUninstallOptions ReleaseStorageDriver.ReleaseStorageDriverMemory)
      "/work" "/home/user" (by decide) (by decide) (Or.inr ⟨_, rfl⟩)
      (Or.inr ⟨_, rfl⟩)).2.1 rfl,
   (storageDriver_defaults (sampleWorld none none false false) (sampleOptions false)
      (Except.ok "/tmp/uninstall")
      (sampleUninstallOptions ReleaseStorageDriver.ReleaseStorageDriverMemory)
      "/work" "/home/user" (by decide) (by decide) (Or.inr ⟨_, rfl⟩)
      (Or.inr ⟨_, rfl⟩)).2.2.2.1 rfl⟩

/-- C18, as stated, fails: the driver name `sql`, which is none of the four named constants,
passes `applyPlanOptionsDefaults` unchanged, and it is neither Secrets nor ConfigMaps. -/
theorem storageDriver_not_closed :
    (applyPlanOptionsDefaults (sampleWorld none none false false)
        { sampleOptions false with ReleaseStorageDriver := ReleaseStorageDriver.other "sql" }
        "/work" "/home/user").toOption.map (fun o => o.ReleaseStorageDriver)
      = some (ReleaseStorageDriver.other "sql")
    ∧ ReleaseStorageDriver.other "sql" ≠ ReleaseStorageDriver.ReleaseStorageDriverSecrets
    ∧ ReleaseStorageDriver.other "sql" ≠ ReleaseStorageDriver.ReleaseStorageDriverConfigMaps := by
  refine ⟨by decide, by decide, by decide⟩

/-- C18 (amended): whenever `applyPlanOptionsDefaults` succeeds, the resulting driver is
neither Default nor Memory; it is Secrets when the caller gave Default and the value the
caller gave otherwise - Secrets, ConfigMaps, or any other driver name. -/
theorem storageDriver_after_defaults (W : PlanWorld) (opts o : PlanOptions)
    (currentDir home : String)
    (h : applyPlanOptionsDefaults W opts currentDir home = Except.ok o) :
    o.ReleaseStorageDriver ≠ ReleaseStorageDriver.ReleaseStorageDriverDefault
    ∧ o.ReleaseStorageDriver ≠ ReleaseStorageDriver.ReleaseStorageDriverMemory
    ∧ (opts.ReleaseStorageDriver = ReleaseStorageDriver.ReleaseStorageDriverDefault →
        o.ReleaseStorageDriver = ReleaseStorageDriver.ReleaseStorageDriverSecrets)
    ∧ (opts.ReleaseStorageDriver ≠ ReleaseStorageDriver.ReleaseStorageDriverDefault →
        o.ReleaseStorageDriver = opts.ReleaseStorageDriver)
    ∧ (o.ReleaseStorageDriver = ReleaseStorageDriver.ReleaseStorageDriverSecrets
        ∨ o.ReleaseStorageDriver = ReleaseStorageDriver.ReleaseStorageDriverConfigMaps
        ∨ ∃ s, o.ReleaseStorageDriver = ReleaseStorageDriver.other s) := by
  obtain ⟨-, -, hmem, hdrv, -⟩ := applyPlanOptionsDefaults_ok W opts o _ _ h
  by_cases hdef : opts.ReleaseStorageDriver = ReleaseStorageDriver.ReleaseStorageDriverDefault
  · rw [if_pos hdef] at hdrv
    rw [hdrv]
    exact ⟨by decide, by decide, fun _ => rfl, fun hn => absurd hdef hn, Or.inl rfl⟩
  · rw [if_neg hdef] at hdrv
    rw [hdrv]
    refine ⟨hdef, hmem, fun hd => absurd hd hdef, fun _ => rfl, ?_⟩
    cases hcase : opts.ReleaseStorageDriver with
    | ReleaseStorageDriverDefault => exact absurd hcase hdef
    | ReleaseStorageDriverSecrets => exact Or.inl rfl
    | ReleaseStorageDriverConfigMaps => exact Or.inr (Or.inl rfl)
    | ReleaseStorageDriverMemory => exact absurd hcase hmem
    | other s => exact Or.inr (Or.inr ⟨s, rfl⟩)

/-- C18 (amended), on the sample options with the ConfigMaps driver. -/
theorem storageDriver_after_defaults_witness :
    ∃ o, applyPlanOptionsDefaults (sampleWorld none none false false)
        { sampleOptions false with
          ReleaseStorageDriver := ReleaseStorageDriver.ReleaseStorageDriverConfigMaps }
        "/work" "/home/user" = Except.ok o
      ∧ o.ReleaseStorageDriver = ReleaseStorageDriver.ReleaseStorageDriverConfigMaps :=
  ⟨_, rfl, (storageDriver_after_defaults (sampleWorld none none false false)
    { sampleOptions false with
      ReleaseStorageDriver := ReleaseStorageDriver.ReleaseStorageDriverConfigMaps }
    _ "/work" "/home/user" rfl).2.2.2.1 (by decide)⟩

/-- A successful setup of `Plan` returns the options after the defaults, with the release
namespace of the settings. -/
theorem planSetup_ok (W : PlanWorld) (opts o : PlanOptions)
    (h : planSetup W opts = Except.ok o) :
    ∃ currentDir home o1, applyPlanOptionsDefaults W opts currentDir home = Except.ok o1
      ∧ o = withSettingsNamespace W o1 := by
  unfold planSetup at h
  split at h
  · cases h
  rename_i currentDir _
  split at h
  · cases h
  rename_i home _
  split at h
  · cases h
  rename_i o1 ho1
  split at h
  · cases h
  split at h
  · cases h
  split at h
  · cases h
  split at h
  · cases h
  split at h
  · cases h
  split at h
  · cases h
  injection h with h
  exact ⟨currentDir, home, o1, ho1, h.symm⟩

/-- The processor `Plan` ends with is the one `Process` leaves, started from the processor
built from the chart tree and the options of lines 289-319. -/
theorem planLocals_processor (K : Ext) (W : PlanWorld) (opts : PlanOptions) (l : PlanLocals)
    (h : planLocals K W opts = Except.ok l) :
    ∃ chartTree, W.NewChartTree l.newRevision l.deployType = Except.ok chartTree
      ∧ (Process K (NewDeployableResourcesProcessor K l.deployType l.opts.ReleaseName
          l.opts.ReleaseNamespace chartTree.StandaloneCRDs chartTree.HookResources
          chartTree.GeneralResources (prevRelGeneralResourcesOf l.prevRelease)
          (processorOptions K l.opts)) W.mem).err = none
      ∧ l.resProcessor
        = (Process K (NewDeployableResourcesProcessor K l.deployType l.opts.ReleaseName
          l.opts.ReleaseNamespace chartTree.StandaloneCRDs chartTree.HookResources
          chartTree.GeneralResources (prevRelGeneralResourcesOf l.prevRelease)
          (processorOptions K l.opts)) W.mem).p := by
  unfold planLocals at h
  split at h
  · cases h
  split at h
  · cases h
  split at h
  · cases h
  simp only at h
  split at h
  · cases h
  rename_i chartTree hct
  split at h
  · cases h
  rename_i hproc
  split at h
  · cases h
  split at h
  · cases h
  cases h
  exact ⟨chartTree, hct, hproc, rfl⟩

/-- No stage of `Process` assigns the network parallelism. -/
theorem stage_keeps_networkParallelism (K : Ext) :
    ∀ s ∈ offlineStages K ++ clusterStages K, ∀ (p : DeployableResourcesProcessor) (m : Mem),
      (s.run p m).p.networkParallelism = p.networkParallelism := by
  intro s hs p m
  simp only [offlineStages, clusterStages, List.cons_append, List.nil_append, List.mem_cons,
    List.mem_singleton, List.mem_nil_iff, or_false] at hs
  rcases hs with rfl | rfl | rfl | rfl | rfl | rfl | rfl | rfl | rfl | rfl | rfl | rfl | rfl
  · rfl
  · rfl
  · rfl
  · rfl
  · simp only [buildReleasableHookResources]; split <;> rfl
  · simp only [buildReleasableGeneralResources]; split <;> rfl
  · rfl
  · simp only [buildDeployableStandaloneCRDs]; split <;> rfl
  · simp only [buildDeployableHookResources]; split <;> rfl
  · simp only [buildDeployableGeneralResources]; split <;> rfl
  · rfl
  · rfl
  · rfl

/-- The stages `Process` runs are among the offline and the cluster stages. -/
theorem mem_processStages (K : Ext) (p : DeployableResourcesProcessor) (s : Stage)
    (hs : s ∈ offlineStages K ++ lastStages K p) : s ∈ offlineStages K ++ clusterStages K := by
  rcases List.mem_append.mp hs with h | h
  · exact List.mem_append_left _ h
  · unfold lastStages at h
    split at h
    · exact List.mem_append_right _ h
    · cases h

/-- Whatever its outcome, `Process` leaves the network parallelism of the processor as it
was. -/
theorem process_keeps_networkParallelism (K : Ext) (p : DeployableResourcesProcessor)
    (m : Mem) : (Process K p m).p.networkParallelism = p.networkParallelism :=
  runStages_preserves (fun q => q.networkParallelism) _
    (fun s hs => stage_keeps_networkParallelism K s (mem_processStages K p s hs)) p m

/-- C19: `applyPlanOptionsDefaults` turns a network parallelism `n ≤ 0` into 30 and keeps
`n > 0`; `NewDeployableResourcesProcessor` stores `max n 1`, which no stage of `Process`
changes; so the parallelism of the processor of `Plan` is at least 1, and 30 when the caller
gave `n ≤ 0`. -/
theorem networkParallelism_default_and_minimum (K : Ext) (W : PlanWorld) (opts : PlanOptions) :
    (∀ (o : PlanOptions) (currentDir home : String),
        applyPlanOptionsDefaults W opts currentDir home = Except.ok o →
        o.NetworkParallelism
          = (if opts.NetworkParallelism ≤ 0 then 30 else opts.NetworkParallelism))
    ∧ (∀ (deployType : DeployType) (releaseName releaseNamespace : String)
        (standaloneCRDs hookResources generalResources prevRel : List Resource)
        (popts : DeployableResourcesProcessorOptions) (m : Mem),
        (NewDeployableResourcesProcessor K deployType releaseName releaseNamespace
          standaloneCRDs hookResources generalResources prevRel popts).networkParallelism
          = max popts.NetworkParallelism 1
        ∧ 1 ≤ (Process K (NewDeployableResourcesProcessor K deployType releaseName
            releaseNamespace standaloneCRDs hookResources generalResources prevRel popts)
            m).p.networkParallelism)
    ∧ (∀ l, planLocals K W opts = Except.ok l →
        l.resProcessor.networkParallelism
          = (if opts.NetworkParallelism ≤ 0 then 30 else opts.NetworkParallelism)
        ∧ 1 ≤ l.resProcessor.networkParallelism
        ∧ (opts.NetworkParallelism ≤ 0 → l.resProcessor.networkParallelism = 30)) := by
  refine ⟨?_, ?_, ?_⟩
  · intro o currentDir home h
    exact (applyPlanOptionsDefaults_ok W opts o _ _ h).2.2.2.2
  · intro deployType releaseName releaseNamespace crds hooks generals prevRel popts m
    refine ⟨rfl, ?_⟩
    rw [process_keeps_networkParallelism]
    exact le_max_right _ _
  · intro l h
    obtain ⟨hsetup, -⟩ := planLocals_ok K W opts l h
    obtain ⟨currentDir, home, o1, ho1, ho⟩ := planSetup_ok W opts l.opts hsetup
    obtain ⟨chartTree, -, -, hproc⟩ := planLocals_processor K W opts l h
    have hn : l.opts.NetworkParallelism
        = (if opts.NetworkParallelism ≤ 0 then 30 else opts.NetworkParallelism) := by
      rw [ho]
      exact (applyPlanOptionsDefaults_ok W opts o1 _ _ ho1).2.2.2.2
    have hval : l.resProcessor.networkParallelism = max l.opts.NetworkParallelism 1 := by
      rw [hproc, process_keeps_networkParallelism]
      rfl
    rw [hval, hn]
    by_cases hle : opts.NetworkParallelism ≤ 0
    · simp [hle]
    · simp only [if_neg hle]
      have : 1 ≤ opts.NetworkParallelism := by omega
      refine ⟨max_eq_left this, le_max_right _ _, fun h0 => absurd h0 hle⟩

/-- C19, on the sample plan, whose caller gave a network parallelism of 0: the processor
holds 30. -/
theorem networkParallelism_default_and_minimum_witness :
    (planLocals sampleExt (sampleWorld none none false false)
        (sampleOptions false)).toOption.map (fun l => l.resProcessor.networkParallelism)
      = some 30
    ∧ ∃ l, planLocals sampleExt (sampleWorld none none false false) (sampleOptions false)
        = Except.ok l ∧ l.resProcessor.networkParallelism = 30 :=
  ⟨by decide, _, rfl,
    ((networkParallelism_default_and_minimum sampleExt (sampleWorld none none false false)
      (sampleOptions false)).2.2 _ rfl).2.2 (by decide)⟩

/-! ## Properties of the live-state reconciler -/

/-- The value of the `routines` expression for a class of `n` resources out of `t`, with a
parallelism `p` of at least 1: `p` when the class holds all the resources, 1 otherwise. -/
theorem routines_eq (n t p : Int) (hn : 0 ≤ n) (hnt : n ≤ t) (ht : t < 2 ^ 63)
    (hp1 : 1 ≤ p) (hp2 : p < 2 ^ 63) :
    (n = t ∧ 0 < t → routines n t p = p) ∧ (¬ (n = t ∧ 0 < t) → routines n t p = 1) := by
  constructor
  · rintro ⟨rfl, hpos⟩
    unfold routines
    have hmax : max n 1 = n := max_eq_left (by omega)
    rw [hmax, Int.tdiv_self (by omega), Int.one_mul,
      wrapInt_of_range p (by omega) hp2]
    exact max_eq_left hp1
  · intro hnot
    unfold routines
    have hlt : n < max t 1 := by
      rcases lt_or_eq_of_le hnt with h | h
      · exact lt_of_lt_of_le h (le_max_left _ _)
      · have : t ≤ 0 := by
          by_contra hc
          exact hnot ⟨h, by omega⟩
        exact lt_of_le_of_lt (by omega) (lt_of_lt_of_le Int.zero_lt_one (le_max_right _ _))
    rw [Int.tdiv_eq_zero_of_lt hn hlt, Int.zero_mul]
    have h0 : wrapInt 0 = 0 := by decide
    rw [h0]
    exact max_eq_right (by omega)

/-- C12, as stated, fails: with a parallelism of 30 and one hook as the only resource, the
pool of the hooks gets the limit 30 and each of the three empty classes gets the limit 1: a
class with no items gets a worker, and the limits sum to 33, not to 30. -/
theorem pool_limits_not_a_partition :
    (infoPools sampleExt "prod" [] [preInstallJob] [] [] 30).limits = [1, 30, 1, 1]
    ∧ ((infoPools sampleExt "prod" [] [preInstallJob] [] [] 30).limits).sum ≠ 30
    ∧ (infoPools sampleExt "prod" [] [preInstallJob] [] []
        30).standaloneCRDsPool.maxGoroutines ≠ 0
    ∧ (infoPools sampleExt "prod" [] [preInstallJob] [] []
        30).generalResourcesPool.maxGoroutines ≠ 0
    ∧ (infoPools sampleExt "prod" [] [preInstallJob] [] []
        30).prevReleaseGeneralResourcesPool.maxGoroutines ≠ 0 := by
  refine ⟨by decide, by decide, by decide, by decide, by decide⟩

/-- C12 (amended): for a parallelism `p` of at least 1, each of the four pool limits of
`BuildDeployableResourceInfos` is at least 1 and at most `p`; a class with no items gets the
limit 1 and a class that holds all the resources gets `p`; so the four limits sum to at
least 4. -/
theorem pool_limits_bounds (K : Ext) (releaseNamespace : String)
    (standaloneCRDs hookResources generalResources prevRel : List Resource) (parallelism : Int)
    (hp1 : 1 ≤ parallelism) (hp2 : parallelism < 2 ^ 63)
    (hlen : ((standaloneCRDs.length + hookResources.length + generalResources.length
      + prevRel.length : Nat) : Int) < 2 ^ 63) :
    (∀ x ∈ (infoPools K releaseNamespace standaloneCRDs hookResources generalResources prevRel
        parallelism).limits, 1 ≤ x ∧ x ≤ parallelism)
    ∧ (standaloneCRDs = [] → (infoPools K releaseNamespace standaloneCRDs hookResources
        generalResources prevRel parallelism).standaloneCRDsPool.maxGoroutines = 1)
    ∧ (hookResources = [] → (infoPools K releaseNamespace standaloneCRDs hookResources
        generalResources prevRel parallelism).hookResourcesPool.maxGoroutines = 1)
    ∧ (generalResources = [] → (infoPools K releaseNamespace standaloneCRDs hookResources
        generalResources prevRel parallelism).generalResourcesPool.maxGoroutines = 1)
    ∧ (prevRel = [] → (infoPools K releaseNamespace standaloneCRDs hookResources
        generalResources prevRel parallelism).prevReleaseGeneralResourcesPool.maxGoroutines = 1)
    ∧ (standaloneCRDs ≠ [] → hookResources = [] → generalResources = [] → prevRel = [] →
        (infoPools K releaseNamespace standaloneCRDs hookResources generalResources prevRel
          parallelism).standaloneCRDsPool.maxGoroutines = parallelism)
    ∧ (hookResources ≠ [] → standaloneCRDs = [] → generalResources = [] → prevRel = [] →
        (infoPools K releaseNamespace standaloneCRDs hookResources generalResources prevRel
          parallelism).hookResourcesPool.maxGoroutines = parallelism)
    ∧ (generalResources ≠ [] → standaloneCRDs = [] → hookResources = [] → prevRel = [] →
        (infoPools K releaseNamespace standaloneCRDs hookResources generalResources prevRel
          parallelism).generalResourcesPool.maxGoroutines = parallelism)
    ∧ (prevRel ≠ [] → standaloneCRDs = [] → hookResources = [] → generalResources = [] →
        (infoPools K releaseNamespace standaloneCRDs hookResources generalResources prevRel
          parallelism).prevReleaseGeneralResourcesPool.maxGoroutines = parallelism)
    ∧ 4 ≤ ((infoPools K releaseNamespace standaloneCRDs hookResources generalResources prevRel
        parallelism).limits).sum := by
  have hcast : ((standaloneCRDs.length : Int) + hookResources.length + generalResources.length
      + prevRel.length) = ((standaloneCRDs.length + hookResources.length
        + generalResources.length + prevRel.length : Nat) : Int) := by push_cast; rfl
  have htot : wrapInt ((standaloneCRDs.length : Int) + hookResources.length
      + generalResources.length + prevRel.length)
      = ((standaloneCRDs.length + hookResources.length + generalResources.length
        + prevRel.length : Nat) : Int) := by
    rw [hcast]
    exact wrapInt_of_range _ (by omega) hlen
  have key : ∀ n : Nat, n ≤ standaloneCRDs.length + hookResources.length
      + generalResources.length + prevRel.length →
      (1 ≤ routines n ((standaloneCRDs.length + hookResources.length + generalResources.length
          + prevRel.length : Nat) : Int) parallelism
        ∧ routines n ((standaloneCRDs.length + hookResources.length + generalResources.length
          + prevRel.length : Nat) : Int) parallelism ≤ parallelism)
      ∧ (n = 0 → routines n ((standaloneCRDs.length + hookResources.length
          + generalResources.length + prevRel.length : Nat) : Int) parallelism = 1)
      ∧ (n = standaloneCRDs.length + hookResources.length + generalResources.length
          + prevRel.length → 0 < n →
          routines n ((standaloneCRDs.length + hookResources.length + generalResources.length
            + prevRel.length : Nat) : Int) parallelism = parallelism) := by
    intro n hn
    obtain ⟨hall, hpart⟩ := routines_eq (n : Int)
      ((standaloneCRDs.length + hookResources.length + generalResources.length
        + prevRel.length : Nat) : Int) parallelism (by omega) (by omega) hlen hp1 hp2
    refine ⟨?_, ?_, ?_⟩
    · by_cases hc : ((n : Int) = ((standaloneCRDs.length + hookResources.length
          + generalResources.length + prevRel.length : Nat) : Int)
          ∧ (0 : Int) < ((standaloneCRDs.length + hookResources.length
          + generalResources.length + prevRel.length : Nat) : Int))
      · rw [hall hc]; exact ⟨hp1, le_refl _⟩
      · rw [hpart hc]; exact ⟨le_refl _, hp1⟩
    · intro h0
      apply hpart
      rintro ⟨h1, h2⟩
      omega
    · intro heq hpos
      apply hall
      constructor
      · exact_mod_cast heq
      · omega
  simp only [infoPools, newPool, InfoPools.limits, htot]
  obtain ⟨⟨a1, a2⟩, a3, a4⟩ := key standaloneCRDs.length (by omega)
  obtain ⟨⟨b1, b2⟩, b3, b4⟩ := key hookResources.length (by omega)
  obtain ⟨⟨c1, c2⟩, c3, c4⟩ := key generalResources.length (by omega)
  obtain ⟨⟨d1, d2⟩, d3, d4⟩ := key prevRel.length (by omega)
  refine ⟨?_, ?_, ?_, ?_, ?_, ?_, ?_, ?_, ?_, ?_⟩
  · intro x hx
    simp only [List.mem_cons, List.mem_singleton, List.mem_nil_iff, or_false] at hx
    rcases hx with rfl | rfl | rfl | rfl
    · exact ⟨a1, a2⟩
    · exact ⟨b1, b2⟩
    · exact ⟨c1, c2⟩
    · exact ⟨d1, d2⟩
  · intro h; exact a3 (by rw [h]; rfl)
  · intro h; exact b3 (by rw [h]; rfl)
  · intro h; exact c3 (by rw [h]; rfl)
  · intro h; exact d3 (by rw [h]; rfl)
  · intro hne h1 h2 h3
    exact a4 (by rw [h1, h2, h3]; simp) (List.length_pos.mpr hne)
  · intro hne h1 h2 h3
    exact b4 (by rw [h1, h2, h3]; simp) (List.length_pos.mpr hne)
  · intro hne h1 h2 h3
    exact c4 (by rw [h1, h2, h3]; simp) (List.length_pos.mpr hne)
  · intro hne h1 h2 h3
    exact d4 (by rw [h1, h2, h3]; simp) (List.length_pos.mpr hne)
  · simp only [List.sum_cons, List.sum_nil]
    omega

/-- C12 (amended), on a chart with one general resource only and a parallelism of 30: the
pool of the generals gets 30, the three empty classes get 1 each. -/
theorem pool_limits_bounds_witness :
    (infoPools sampleExt "prod" [] [] [webDeployment] [] 30).limits = [1, 1, 30, 1]
    ∧ (infoPools sampleExt "prod" [] [] [webDeployment] []
        30).generalResourcesPool.maxGoroutines = 30 :=
  ⟨by decide,
    (pool_limits_bounds sampleExt "prod" [] [] [webDeployment] [] 30 (by decide) (by decide)
      (by decide)).2.2.2.2.2.2.2.1 (by decide) rfl rfl rfl⟩

/-! ## Properties of the validation of adoption -/

/-- The error appended for an info is the message of line 742 when the check fails for it,
and nothing otherwise. -/
theorem adoptionError_eq (K : Ext) (releaseName releaseNamespace : String)
    (info : DeployableInfo) :
    adoptionError K releaseName releaseNamespace info
      = if isNotAdoptable K releaseName releaseNamespace info = true then
          some (notAdoptableMessage K info
            (nonAdoptableReason K releaseName releaseNamespace info))
        else none := by
  unfold adoptionError isNotAdoptable nonAdoptableReason notAdoptableMessage
  cases hl : info.LiveResource with
  | none => simp
  | some live =>
    simp only
    cases (K.AdoptableBy live releaseName releaseNamespace).1 <;> simp

/-- Filtering with an optional result that is present exactly on a decidable condition is
filtering on the condition and mapping. -/
theorem filterMap_ite {α β : Type} (c : α → Bool) (f : α → β) (xs : List α) :
    xs.filterMap (fun x => if c x = true then some (f x) else none)
      = (xs.filter c).map f := by
  induction xs with
  | nil => rfl
  | cons x rest ih =>
    cases hc : c x <;> simp [List.filterMap_cons, List.filter_cons, hc, ih]

/-- C15: `validateAdoptableResources` returns an error iff some deployable general info has
a live resource that `AdoptableBy` rejects; the collected errors are one per such info, in
order, each reading `resource "<HumanID>" is not adoptable: <reason>`; an info with no live
resource yields none; the infos of hooks, standalone CRDs and previous-release generals are
not read. -/
theorem validateAdoptableResources_iff (K : Ext) (p : DeployableResourcesProcessor) :
    (validateAdoptableResources K p ≠ none
      ↔ ∃ info ∈ p.deployableGeneralResourcesInfos, ∃ live, info.LiveResource = some live
          ∧ (K.AdoptableBy live p.releaseName p.releaseNamespace).1 = false)
    ∧ adoptionErrors K p
      = ((p.deployableGeneralResourcesInfos.filter
          (isNotAdoptable K p.releaseName p.releaseNamespace)).map
          (fun info => notAdoptableMessage K info
            (nonAdoptableReason K p.releaseName p.releaseNamespace info)))
    ∧ (adoptionErrors K p).length
      = (p.deployableGeneralResourcesInfos.filter
          (isNotAdoptable K p.releaseName p.releaseNamespace)).length
    ∧ (∀ info reason, ∃ pre post,
        notAdoptableMessage K info reason = pre ++ "not adoptable" ++ post)
    ∧ (∀ info reason, ∃ pre post,
        notAdoptableMessage K info reason = pre ++ info.resource.HumanID K ++ post)
    ∧ (∀ info, info.LiveResource = none →
        adoptionError K p.releaseName p.releaseNamespace info = none)
    ∧ (adoptionErrors K p ≠ [] → validateAdoptableResources K p
        = some ("adoption validation failed: " ++ ", ".intercalate (adoptionErrors K p)))
    ∧ (∀ nsInfo crdInfos hookInfos prevInfos,
        validateAdoptableResources K
          { p with deployableReleaseNamespaceInfo := nsInfo
                   deployableStandaloneCRDsInfos := crdInfos
                   deployableHookResourcesInfos := hookInfos
                   deployablePrevRelGeneralResourcesInfos := prevInfos }
          = validateAdoptableResources K p) := by
  have herrs : adoptionErrors K p
      = ((p.deployableGeneralResourcesInfos.filter
          (isNotAdoptable K p.releaseName p.releaseNamespace)).map
          (fun info => notAdoptableMessage K info
            (nonAdoptableReason K p.releaseName p.releaseNamespace info))) := by
    unfold adoptionErrors
    have hfun : adoptionError K p.releaseName p.releaseNamespace
        = fun info => if isNotAdoptable K p.releaseName p.releaseNamespace info = true then
            some (notAdoptableMessage K info
              (nonAdoptableReason K p.releaseName p.releaseNamespace info))
          else none := by
      funext info
      exact adoptionError_eq K _ _ info
    rw [hfun]
    exact filterMap_ite _ _ _
  refine ⟨?_, herrs, ?_, ?_, ?_, ?_, ?_, ?_⟩
  · unfold validateAdoptableResources Multierrorf
    rw [herrs]
    constructor
    · intro h
      split at h
      · exact absurd rfl h
      · rename_i hne
        simp only [List.isEmpty_eq_true, List.map_eq_nil_iff] at hne
        obtain ⟨info, hinfo⟩ := List.exists_mem_of_ne_nil _ hne
        obtain ⟨hmem, hbad⟩ := List.mem_filter.mp hinfo
        unfold isNotAdoptable at hbad
        cases hl : info.LiveResource with
        | none => rw [hl] at hbad; cases hbad
        | some live =>
          rw [hl] at hbad
          refine ⟨info, hmem, live, hl, ?_⟩
          simpa using hbad
    · rintro ⟨info, hmem, live, hl, hbad⟩
      have hin : info ∈ p.deployableGeneralResourcesInfos.filter
          (isNotAdoptable K p.releaseName p.releaseNamespace) := by
        apply List.mem_filter.mpr
        refine ⟨hmem, ?_⟩
        unfold isNotAdoptable
        rw [hl]
        simp [hbad]
      have hne : (p.deployableGeneralResourcesInfos.filter
          (isNotAdoptable K p.releaseName p.releaseNamespace)) ≠ [] :=
        List.ne_nil_of_mem hin
      split
      · rename_i hemp
        simp only [List.isEmpty_eq_true, List.map_eq_nil_iff] at hemp
        exact absurd hemp hne
      · simp
  · rw [herrs, List.length_map]
  · intro info reason
    refine ⟨"resource " ++ quote (info.resource.HumanID K) ++ " is ", ": " ++ reason, ?_⟩
    unfold notAdoptableMessage
    simp only [String.append_assoc]
    rfl
  · intro info reason
    refine ⟨"resource " ++ "\"", "\"" ++ " is not adoptable: " ++ reason, ?_⟩
    unfold notAdoptableMessage quote
    simp only [String.append_assoc]
  · intro info hl
    unfold adoptionError
    rw [hl]
  · intro hne
    unfold validateAdoptableResources Multierrorf
    split
    · rename_i hemp
      simp only [List.isEmpty_eq_true] at hemp
      exact absurd hemp hne
    · rfl
  · intro nsInfo crdInfos hookInfos prevInfos
    rfl

/-- C15, on the Service `api` whose live object is owned by another release: one error is
collected, naming the Service. -/
theorem validateAdoptableResources_iff_witness :
    adoptionErrors conflictExt (Process conflictExt conflictProcessor { next := 80, log := [] }).p
      = ["resource \"Service/api\" is not adoptable: owned by release \"other\""]
    ∧ validateAdoptableResources conflictExt
        (Process conflictExt conflictProcessor { next := 80, log := [] }).p ≠ none :=
  ⟨by decide,
    (validateAdoptableResources_iff conflictExt
      (Process conflictExt conflictProcessor { next := 80, log := [] }).p).1.mpr
      ⟨_, List.mem_singleton.mpr rfl, _, rfl, rfl⟩⟩

/-! ## Properties of a failing Process -/

/-- A run that fails on an initial part `A` of the stages stops there. -/
theorem runStages_append_fail (A B : List Stage) :
    ∀ (p : DeployableResourcesProcessor) (m : Mem), (runStages A p m).err ≠ none →
      runStages (A ++ B) p m = runStages A p m := by
  induction A with
  | nil => intro p m h; exact absurd rfl h
  | cons s rest ih =>
    intro p m h
    simp only [List.cons_append, runStages] at h ⊢
    split
    · rfl
    · rename_i herr
      rw [herr] at h
      exact ih _ _ h

/-- A value read from the processor that no stage of `B` changes is, after a run over
`A ++ B`, what the run over `A` left, whether or not a stage failed. -/
theorem runStages_prefix_determines {α : Type} (f : DeployableResourcesProcessor → α)
    (A B : List Stage)
    (hB : ∀ s ∈ B, ∀ (p : DeployableResourcesProcessor) (m : Mem), f (s.run p m).p = f p)
    (p : DeployableResourcesProcessor) (m : Mem) :
    f (runStages (A ++ B) p m).p = f (runStages A p m).p := by
  cases herr : (runStages A p m).err with
  | none =>
    rw [runStages_append A B p m herr]
    exact runStages_preserves f B hB _ _
  | some err =>
    rw [runStages_append_fail A B p m (by rw [herr]; simp)]

/-- The stages after the first `n + 5` offline stages leave alone the lists the build stages
before them assigned; stated for the five lists, each with the number of stages that
precede the rest. -/
theorem later_stages_keep (K : Ext) (q : DeployableResourcesProcessor) :
    (∀ s ∈ (offlineStages K).drop 5 ++ lastStages K q, ∀ (p : DeployableResourcesProcessor)
        (m : Mem), (s.run p m).p.releasableHookResources = p.releasableHookResources)
    ∧ (∀ s ∈ (offlineStages K).drop 6 ++ lastStages K q, ∀ (p : DeployableResourcesProcessor)
        (m : Mem), (s.run p m).p.releasableGeneralResources = p.releasableGeneralResources)
    ∧ (∀ s ∈ (offlineStages K).drop 8 ++ lastStages K q, ∀ (p : DeployableResourcesProcessor)
        (m : Mem), (s.run p m).p.deployableStandaloneCRDs = p.deployableStandaloneCRDs)
    ∧ (∀ s ∈ (offlineStages K).drop 9 ++ lastStages K q, ∀ (p : DeployableResourcesProcessor)
        (m : Mem), (s.run p m).p.deployableHookResources = p.deployableHookResources)
    ∧ (∀ s ∈ (offlineStages K).drop 10 ++ lastStages K q, ∀ (p : DeployableResourcesProcessor)
        (m : Mem), (s.run p m).p.deployableGeneralResources = p.deployableGeneralResources) := by
  have hlast : ∀ s ∈ lastStages K q, ∀ (p : DeployableResourcesProcessor) (m : Mem),
      (s.run p m).p.releasableHookResources = p.releasableHookResources
      ∧ (s.run p m).p.releasableGeneralResources = p.releasableGeneralResources
      ∧ (s.run p m).p.deployableStandaloneCRDs = p.deployableStandaloneCRDs
      ∧ (s.run p m).p.deployableHookResources = p.deployableHookResources
      ∧ (s.run p m).p.deployableGeneralResources = p.deployableGeneralResources := by
    intro s hs p m
    unfold lastStages at hs
    split at hs
    · simp only [clusterStages, List.mem_cons, List.mem_singleton, List.mem_nil_iff,
        or_false] at hs
      rcases hs with rfl | rfl
      · exact ⟨rfl, rfl, rfl, rfl, rfl⟩
      · exact ⟨rfl, rfl, rfl, rfl, rfl⟩
    · cases hs
  refine ⟨?_, ?_, ?_, ?_, ?_⟩
  · intro s hs p m
    rcases List.mem_append.mp hs with hs | hs
    · simp only [offlineStages, List.drop, List.mem_cons, List.mem_nil_iff, or_false] at hs
      rcases hs with rfl | rfl | rfl | rfl | rfl | rfl
      · simp only [buildReleasableGeneralResources]; split <;> rfl
      · rfl
      · simp only [buildDeployableStandaloneCRDs]; split <;> rfl
      · simp only [buildDeployableHookResources]; split <;> rfl
      · simp only [buildDeployableGeneralResources]; split <;> rfl
      · rfl
    · exact (hlast s hs p m).1
  · intro s hs p m
    rcases List.mem_append.mp hs with hs | hs
    · simp only [offlineStages, List.drop, List.mem_cons, List.mem_nil_iff, or_false] at hs
      rcases hs with rfl | rfl | rfl | rfl | rfl
      · rfl
      · simp only [buildDeployableStandaloneCRDs]; split <;> rfl
      · simp only [buildDeployableHookResources]; split <;> rfl
      · simp only [buildDeployableGeneralResources]; split <;> rfl
      · rfl
    · exact (hlast s hs p m).2.1
  · intro s hs p m
    rcases List.mem_append.mp hs with hs | hs
    · simp only [offlineStages, List.drop, List.mem_cons, List.mem_nil_iff, or_false] at hs
      rcases hs with rfl | rfl | rfl
      · simp only [buildDeployableHookResources]; split <;> rfl
      · simp only [buildDeployableGeneralResources]; split <;> rfl
      · rfl
    · exact (hlast s hs p m).2.2.1
  · intro s hs p m
    rcases List.mem_append.mp hs with hs | hs
    · simp only [offlineStages, List.drop, List.mem_cons, List.mem_nil_iff, or_false] at hs
      rcases hs with rfl | rfl
      · simp only [buildDeployableGeneralResources]; split <;> rfl
      · rfl
    · exact (hlast s hs p m).2.2.2.1
  · intro s hs p m
    rcases List.mem_append.mp hs with hs | hs
    · simp only [offlineStages, List.drop, List.mem_cons, List.mem_nil_iff, or_false] at hs
      subst hs
      rfl
    · exact (hlast s hs p m).2.2.2.2

/-- The first four stages of `Process` (transformations, validation, duplicate check) assign
none of the result fields. -/
theorem first_stages_keep_results (K : Ext) :
    ∀ s ∈ (offlineStages K).take 4, ∀ (p : DeployableResourcesProcessor) (m : Mem),
      resultsOf (s.run p m).p = resultsOf p := by
  intro s hs p m
  simp only [offlineStages, List.take, List.mem_cons, List.mem_nil_iff, or_false] at hs
  rcases hs with rfl | rfl | rfl | rfl <;> rfl

/-- C16, as stated, fails: on the Service `api` whose live object is owned by another
release, `Process` of a new processor returns an error (at the validation of adoption) and
the accessors still return the releasable and deployable Service and its info. -/
theorem failed_process_exposes_results :
    (Process conflictExt conflictProcessor { next := 80, log := [] }).err ≠ none
    ∧ (ReleasableGeneralResources
        (Process conflictExt conflictProcessor { next := 80, log := [] }).p).map
        (fun res => res.ResourceID.name) = ["api"]
    ∧ (DeployableGeneralResources
        (Process conflictExt conflictProcessor { next := 80, log := [] }).p).map
        (fun res => res.ResourceID.name) = ["api"]
    ∧ (DeployableGeneralResourcesInfos
        (Process conflictExt conflictProcessor { next := 80, log := [] }).p).map
        (fun info => info.resource.ResourceID.name) = ["api"]
    ∧ ReleasableGeneralResources conflictProcessor = [] := by
  refine ⟨by decide, by decide, by decide, by decide, by decide⟩

/-- C16 (amended): `Process` clears nothing when it fails. Whatever its outcome, each of the
five resource accessors returns what the run up to and including its build stage left, and
each info accessor what the run up to and including `buildDeployableResourceInfos` left; so
after an error the results of the stages completed before the failure stay observable.
Only when the failure is in one of the first four stages (transformations, validation,
duplicate check) do all accessors return what they returned before the call - empty lists
for a new processor. -/
theorem process_keeps_partial_results (K : Ext) (p : DeployableResourcesProcessor) (m : Mem) :
    ReleasableHookResources (Process K p m).p
        = ReleasableHookResources (runStages ((offlineStages K).take 5) p m).p
    ∧ ReleasableGeneralResources (Process K p m).p
        = ReleasableGeneralResources (runStages ((offlineStages K).take 6) p m).p
    ∧ DeployableStandaloneCRDs (Process K p m).p
        = DeployableStandaloneCRDs (runStages ((offlineStages K).take 8) p m).p
    ∧ DeployableHookResources (Process K p m).p
        = DeployableHookResources (runStages ((offlineStages K).take 9) p m).p
    ∧ DeployableGeneralResources (Process K p m).p
        = DeployableGeneralResources (runStages ((offlineStages K).take 10) p m).p
    ∧ DeployableStandaloneCRDsInfos (Process K p m).p
        = DeployableStandaloneCRDsInfos
          (runStages (offlineStages K ++ (lastStages K p).take 1) p m).p
    ∧ DeployableHookResourcesInfos (Process K p m).p
        = DeployableHookResourcesInfos
          (runStages (offlineStages K ++ (lastStages K p).take 1) p m).p
    ∧ DeployableGeneralResourcesInfos (Process K p m).p
        = DeployableGeneralResourcesInfos
          (runStages (offlineStages K ++ (lastStages K p).take 1) p m).p
    ∧ DeployablePrevReleaseGeneralResourcesInfos (Process K p m).p
        = DeployablePrevReleaseGeneralResourcesInfos
          (runStages (offlineStages K ++ (lastStages K p).take 1) p m).p
    ∧ ((runStages ((offlineStages K).take 4) p m).err ≠ none →
        (Process K p m).err ≠ none
        ∧ ReleasableHookResources (Process K p m).p = ReleasableHookResources p
        ∧ ReleasableGeneralResources (Process K p m).p = ReleasableGeneralResources p
        ∧ DeployableStandaloneCRDs (Process K p m).p = DeployableStandaloneCRDs p
        ∧ DeployableHookResources (Process K p m).p = DeployableHookResources p
        ∧ DeployableGeneralResources (Process K p m).p = DeployableGeneralResources p
        ∧ DeployableStandaloneCRDsInfos (Process K p m).p = DeployableStandaloneCRDsInfos p
        ∧ DeployableHookResourcesInfos (Process K p m).p = DeployableHookResourcesInfos p
        ∧ DeployableGeneralResourcesInfos (Process K p m).p = DeployableGeneralResourcesInfos p
        ∧ DeployablePrevReleaseGeneralResourcesInfos (Process K p m).p = DeployablePrevReleaseGeneralResourcesInfos p) := by
  obtain ⟨k1, k2, k3, k4, k5⟩ := later_stages_keep K p
  have hP : ∀ n, Process K p m
      = runStages ((offlineStages K).take n ++ ((offlineStages K).drop n ++ lastStages K p))
          p m := by
    intro n
    unfold Process
    rw [← List.append_assoc, List.take_append_drop]
  have hQ : Process K p m
      = runStages ((offlineStages K ++ (lastStages K p).take 1) ++ (lastStages K p).drop 1)
          p m := by
    unfold Process
    rw [List.append_assoc, List.take_append_drop]
  have hdrop : ∀ s ∈ (lastStages K p).drop 1, ∀ (q : DeployableResourcesProcessor) (m' : Mem),
      (s.run q m').p = q := by
    intro s hs q m'
    unfold lastStages at hs
    split at hs
    · simp only [clusterStages, List.drop, List.mem_cons, List.mem_nil_iff, or_false] at hs
      subst hs
      rfl
    · cases hs
  refine ⟨?_, ?_, ?_, ?_, ?_, ?_, ?_, ?_, ?_, ?_⟩
  · rw [hP 5]
    exact runStages_prefix_determines (fun q => q.releasableHookResources) _ _ k1 p m
  · rw [hP 6]
    exact runStages_prefix_determines (fun q => q.releasableGeneralResources) _ _ k2 p m
  · rw [hP 8]
    exact runStages_prefix_determines (fun q => q.deployableStandaloneCRDs) _ _ k3 p m
  · rw [hP 9]
    exact runStages_prefix_determines (fun q => q.deployableHookResources) _ _ k4 p m
  · rw [hP 10]
    exact runStages_prefix_determines (fun q => q.deployableGeneralResources) _ _ k5 p m
  · rw [hQ]
    exact runStages_prefix_determines (fun q => q.deployableStandaloneCRDsInfos) _ _
      (fun s hs q m' => by rw [hdrop s hs q m']) p m
  · rw [hQ]
    exact runStages_prefix_determines (fun q => q.deployableHookResourcesInfos) _ _
      (fun s hs q m' => by rw [hdrop s hs q m']) p m
  · rw [hQ]
    exact runStages_prefix_determines (fun q => q.deployableGeneralResourcesInfos) _ _
      (fun s hs q m' => by rw [hdrop s hs q m']) p m
  · rw [hQ]
    exact runStages_prefix_determines (fun q => q.deployablePrevRelGeneralResourcesInfos) _ _
      (fun s hs q m' => by rw [hdrop s hs q m']) p m
  · intro hfail
    have hstop := runStages_append_fail ((offlineStages K).take 4)
      ((offlineStages K).drop 4 ++ lastStages K p) p m hfail
    have hkeep := runStages_preserves resultsOf _ (first_stages_keep_results K) p m
    rw [hP 4, hstop]
    simp only [resultsOf, Prod.mk.injEq] at hkeep
    obtain ⟨h1, h2, h3, h4, h5, h6, h7, h8, h9⟩ := hkeep
    exact ⟨hfail, h1, h2, h3, h4, h5, h6, h7, h8, h9⟩

/-- C16 (amended), on a chart that gives the release namespace as a resource: `Process` of
a new processor fails at the duplicate check and the releasable and deployable accessors
return empty lists. -/
theorem process_keeps_partial_results_witness :
    (Process sampleExt (sampleProcessor DeployType.DeployTypeInitial [] [] [prodNamespace]
        bareOptions) { next := 40, log := [] }).err ≠ none
    ∧ ReleasableGeneralResources (Process sampleExt
        (sampleProcessor DeployType.DeployTypeInitial [] [] [prodNamespace] bareOptions)
        { next := 40, log := [] }).p = []
    ∧ DeployableGeneralResources (Process sampleExt
        (sampleProcessor DeployType.DeployTypeInitial [] [] [prodNamespace] bareOptions)
        { next := 40, log := [] }).p = [] :=
  ⟨((process_keeps_partial_results sampleExt
      (sampleProcessor DeployType.DeployTypeInitial [] [] [prodNamespace] bareOptions)
      { next := 40, log := [] }).2.2.2.2.2.2.2.2.2 (by decide)).1,
   ((process_keeps_partial_results sampleExt
      (sampleProcessor DeployType.DeployTypeInitial [] [] [prodNamespace] bareOptions)
      { next := 40, log := [] }).2.2.2.2.2.2.2.2.2 (by decide)).2.2.1,
   ((process_keeps_partial_results sampleExt
      (sampleProcessor DeployType.DeployTypeInitial [] [] [prodNamespace] bareOptions)
      { next := 40, log := [] }).2.2.2.2.2.2.2.2.2 (by decide)).2.2.2.2.2.1⟩

/-! ## Properties of the transformer pipeline -/

/-- The resources built from the objects a `Transform` call returns carry those objects, in
the returned order, and the file path of the options. -/
theorem newResources_objects (K : Ext) (ty : ResourceType) (opts : ResourceOptions) :
    ∀ (objs : List Object) (m : Mem),
      (newResources K ty opts objs m).1.map (fun res => res.unstruct.obj) = objs
      ∧ ∀ res ∈ (newResources K ty opts objs m).1, res.filePath = opts.FilePath := by
  intro objs
  induction objs with
  | nil => intro m; simp [newResources]
  | cons obj rest ih =>
    intro m
    obtain ⟨h1, h2⟩ := ih { m with next := m.next + 2 }
    simp only [newResources, List.map_cons, List.mem_cons]
    refine ⟨by rw [h1]; rfl, ?_⟩
    rintro res (rfl | hres)
    · rfl
    · exact h2 res hres

/-- A successful pass of one transformer over the resources is the flat-map of
`replaceOrKeep`. -/
theorem transformWith_ok (K : Ext) (ty : ResourceType) (noun ns : String)
    (T : ResourceTransformer) :
    ∀ (rs : List Resource) (m m' : Mem) (out : List Resource),
      transformWith K ty noun ns T rs m = (m', Except.ok out) →
      flatMapResources (replaceOrKeep K ty ns T) rs m = (out, m') := by
  intro rs
  induction rs with
  | nil =>
    intro m m' out h
    simp only [transformWith] at h
    cases h
    rfl
  | cons res rest ih =>
    intro m m' out h
    simp only [transformWith] at h
    simp only [flatMapResources, replaceOrKeep, transformInfoOf]
    cases hM : T.Match { Obj := res.Unstructured, Typ := ty, ManageableBy := res.ManageableBy } with
    | error e =>
      rw [hM] at h
      cases h
    | ok b =>
      rw [hM] at h
      cases b with
      | false =>
        simp only at h ⊢
        split at h
        · cases h
        · rename_i m1 transformed hrest
          cases h
          rw [ih _ _ _ hrest]
          rfl
      | true =>
        simp only at h ⊢
        cases hT : T.Transform
            { Obj := res.Unstructured, Typ := ty, ManageableBy := res.ManageableBy } with
        | error e =>
          rw [hT] at h
          cases h
        | ok newObjs =>
          rw [hT] at h
          simp only at h ⊢
          split at h
          · cases h
          · rename_i m1 transformed hrest
            cases h
            rw [ih _ _ _ hrest]

/-- A successful run of the transformers is the fold of the flat-maps. -/
theorem transformAll_ok (K : Ext) (ty : ResourceType) (noun ns : String) :
    ∀ (Ts : List ResourceTransformer) (rs : List Resource) (m m' : Mem) (out : List Resource),
      transformAll K ty noun ns Ts rs m = (m', out, none) →
      pipelineSpec K ty ns Ts rs m = (out, m') := by
  intro Ts
  induction Ts with
  | nil =>
    intro rs m m' out h
    simp only [transformAll] at h
    cases h
    rfl
  | cons T rest ih =>
    intro rs m m' out h
    simp only [transformAll] at h
    split at h
    · cases h
    · rename_i m1 transformed hT
      have hstage := transformWith_ok K ty noun ns T rs m m1 transformed hT
      have := ih _ _ _ _ h
      unfold pipelineSpec at this ⊢
      simp only [List.foldl_cons, hstage]
      exact this

/-- A transformer that matches no resource of a list leaves the list and the memory as they
are. -/
theorem transformWith_noMatch (K : Ext) (ty : ResourceType) (noun ns : String)
    (T : ResourceTransformer) :
    ∀ (rs : List Resource) (m : Mem),
      (∀ res ∈ rs, T.Match (transformInfoOf ty res) = Except.ok false) →
      transformWith K ty noun ns T rs m = (m, Except.ok rs) := by
  intro rs
  induction rs with
  | nil => intro m _; rfl
  | cons res rest ih =>
    intro m h
    have hres := h res (List.mem_cons_self _ _)
    unfold transformInfoOf at hres
    simp only [transformWith, hres]
    rw [ih m (fun r hr => h r (List.mem_cons_of_mem _ hr))]

/-- Transformers that match no resource of a list leave the list and the memory as they
are. -/
theorem transformAll_noMatch (K : Ext) (ty : ResourceType) (noun ns : String) :
    ∀ (Ts : List ResourceTransformer) (rs : List Resource) (m : Mem),
      (∀ T ∈ Ts, ∀ res ∈ rs, T.Match (transformInfoOf ty res) = Except.ok false) →
      transformAll K ty noun ns Ts rs m = (m, rs, none) := by
  intro Ts
  induction Ts with
  | nil => intro rs m _; rfl
  | cons T rest ih =>
    intro rs m h
    simp only [transformAll]
    rw [transformWith_noMatch K ty noun ns T rs m (h T (List.mem_cons_self _ _))]
    exact ih rs m (fun T' hT' => h T' (List.mem_cons_of_mem _ hT'))

/-- A transformer whose `Match` and `Transform` never fail completes its pass over any
resource list. -/
theorem transformWith_total (K : Ext) (ty : ResourceType) (noun ns : String)
    (T : ResourceTransformer)
    (hM : ∀ info, ∃ b, T.Match info = Except.ok b)
    (hT : ∀ info, ∃ objs, T.Transform info = Except.ok objs) :
    ∀ (rs : List Resource) (m : Mem),
      ∃ out, (transformWith K ty noun ns T rs m).2 = Except.ok out := by
  intro rs
  induction rs with
  | nil => intro m; exact ⟨[], rfl⟩
  | cons res rest ih =>
    intro m
    obtain ⟨b, hb⟩ := hM { Obj := res.Unstructured, Typ := ty, ManageableBy := res.ManageableBy }
    obtain ⟨objs, hobjs⟩ :=
      hT { Obj := res.Unstructured, Typ := ty, ManageableBy := res.ManageableBy }
    simp only [transformWith, hb]
    cases b with
    | false =>
      simp only
      obtain ⟨out, hout⟩ := ih m
      split
      · rename_i m1 err heq
        rw [heq] at hout
        cases hout
      · exact ⟨_, rfl⟩
    | true =>
      simp only [hobjs]
      obtain ⟨out, hout⟩ := ih (newResources K ty
        { FilePath := res.FilePath, DefaultNamespace := ns } objs m).2
      split
      · rename_i m1 err heq
        rw [heq] at hout
        cases hout
      · exact ⟨_, rfl⟩

/-- Transformers whose `Match` and `Transform` never fail complete the pipeline. -/
theorem transformAll_total (K : Ext) (ty : ResourceType) (noun ns : String) :
    ∀ (Ts : List ResourceTransformer),
      (∀ T ∈ Ts, (∀ info, ∃ b, T.Match info = Except.ok b)
        ∧ ∀ info, ∃ objs, T.Transform info = Except.ok objs) →
      ∀ (rs : List Resource) (m : Mem), (transformAll K ty noun ns Ts rs m).2.2 = none := by
  intro Ts
  induction Ts with
  | nil => intro _ rs m; rfl
  | cons T rest ih =>
    intro h rs m
    obtain ⟨hM, hT⟩ := h T (List.mem_cons_self _ _)
    obtain ⟨out, hout⟩ := transformWith_total K ty noun ns T hM hT rs m
    simp only [transformAll]
    split
    · rename_i m1 err heq
      rw [heq] at hout
      cases hout
    · exact ih (fun T' hT' => h T' (List.mem_cons_of_mem _ hT')) _ _

/-- A flat-map puts the replacement of a resource at the position of the resource: between
what the resources before it gave and what the resources after it give. -/
theorem flatMapResources_append (f : Resource → Mem → List Resource × Mem) :
    ∀ (xs ys : List Resource) (m : Mem),
      flatMapResources f (xs ++ ys) m
        = ((flatMapResources f xs m).1
            ++ (flatMapResources f ys (flatMapResources f xs m).2).1,
           (flatMapResources f ys (flatMapResources f xs m).2).2) := by
  intro xs
  induction xs with
  | nil => intro ys m; rfl
  | cons x rest ih =>
    intro ys m
    have h := ih ys (f x m).2
    rw [List.cons_append, flatMapResources, h]
    simp only [flatMapResources, List.append_assoc]

/-- The pipeline spec, written with the result of the transformers before the last one. -/
theorem transformAll_eq_pipelineSpec (K : Ext) (ty : ResourceType) (noun ns : String)
    (Ts : List ResourceTransformer) (rs : List Resource) (m : Mem)
    (h : (transformAll K ty noun ns Ts rs m).2.2 = none) :
    (transformAll K ty noun ns Ts rs m).2.1 = (pipelineSpec K ty ns Ts rs m).1
    ∧ (transformAll K ty noun ns Ts rs m).1 = (pipelineSpec K ty ns Ts rs m).2 := by
  have := transformAll_ok K ty noun ns Ts rs m (transformAll K ty noun ns Ts rs m).1
    (transformAll K ty noun ns Ts rs m).2.1 (by rw [← h])
  rw [this]
  exact ⟨rfl, rfl⟩

/-- C11: the transformer pipeline is a fold of flat-maps. A successful run of
`transformHookResources` or `transformGeneralResources` leaves the list obtained by applying
the transformers in order, each to the output of the one before (`pipelineSpec`); a stage
replaces each resource its transformer matches by the resources built from the objects
`Transform` returns, in the returned order and with the file path of the replaced resource,
at the position of the replaced resource, and keeps every other resource as it is. The run
succeeds when no `Match` and no `Transform` fails, and when no transformer matches any
resource the processor and the memory are unchanged. -/
theorem transform_is_fold_of_flatMaps (K : Ext) (p : DeployableResourcesProcessor) (m : Mem) :
    ((transformHookResources K p m).err = none →
      (transformHookResources K p m).p.hookResources
          = (pipelineSpec K ResourceType.TypeHookResource p.releaseNamespace
              p.hookResourceTransformers p.hookResources m).1
        ∧ (transformHookResources K p m).mem
          = (pipelineSpec K ResourceType.TypeHookResource p.releaseNamespace
              p.hookResourceTransformers p.hookResources m).2)
    ∧ ((transformGeneralResources K p m).err = none →
      (transformGeneralResources K p m).p.generalResources
          = (pipelineSpec K ResourceType.TypeGeneralResource p.releaseNamespace
              p.generalResourceTransformers p.generalResources m).1
        ∧ (transformGeneralResources K p m).mem
          = (pipelineSpec K ResourceType.TypeGeneralResource p.releaseNamespace
              p.generalResourceTransformers p.generalResources m).2)
    ∧ ((∀ T ∈ p.hookResourceTransformers, (∀ info, ∃ b, T.Match info = Except.ok b)
          ∧ ∀ info, ∃ objs, T.Transform info = Except.ok objs) →
        (transformHookResources K p m).err = none)
    ∧ ((∀ T ∈ p.generalResourceTransformers, (∀ info, ∃ b, T.Match info = Except.ok b)
          ∧ ∀ info, ∃ objs, T.Transform info = Except.ok objs) →
        (transformGeneralResources K p m).err = none)
    ∧ (∀ (ty : ResourceType) (ns : String) (Ts : List ResourceTransformer)
        (T : ResourceTransformer) (rs : List Resource) (m0 : Mem),
        pipelineSpec K ty ns (Ts ++ [T]) rs m0
          = flatMapResources (replaceOrKeep K ty ns T) (pipelineSpec K ty ns Ts rs m0).1
              (pipelineSpec K ty ns Ts rs m0).2)
    ∧ (∀ (f : Resource → Mem → List Resource × Mem) (before after : List Resource)
        (res : Resource) (m0 : Mem),
        (flatMapResources f (before ++ res :: after) m0).1
          = (flatMapResources f before m0).1
            ++ (f res (flatMapResources f before m0).2).1
            ++ (flatMapResources f after (f res (flatMapResources f before m0).2).2).1)
    ∧ (∀ (ty : ResourceType) (ns : String) (T : ResourceTransformer) (res : Resource)
        (m0 : Mem) (newObjs : List Object),
        T.Match (transformInfoOf ty res) = Except.ok true →
        T.Transform (transformInfoOf ty res) = Except.ok newObjs →
        (replaceOrKeep K ty ns T res m0).1.map (fun r => r.unstruct.obj) = newObjs
        ∧ ∀ r ∈ (replaceOrKeep K ty ns T res m0).1, r.filePath = res.filePath)
    ∧ (∀ (ty : ResourceType) (ns : String) (T : ResourceTransformer) (res : Resource)
        (m0 : Mem),
        T.Match (transformInfoOf ty res) = Except.ok false →
        replaceOrKeep K ty ns T res m0 = ([res], m0))
    ∧ ((∀ T ∈ p.hookResourceTransformers, ∀ res ∈ p.hookResources,
          T.Match (transformInfoOf ResourceType.TypeHookResource res) = Except.ok false) →
        transformHookResources K p m = { mem := m, p := p, err := none })
    ∧ ((∀ T ∈ p.generalResourceTransformers, ∀ res ∈ p.generalResources,
          T.Match (transformInfoOf ResourceType.TypeGeneralResource res) = Except.ok false) →
        transformGeneralResources K p m = { mem := m, p := p, err := none }) := by
  refine ⟨?_, ?_, ?_, ?_, ?_, ?_, ?_, ?_, ?_, ?_⟩
  · intro h
    exact transformAll_eq_pipelineSpec K _ _ _ _ _ m h
  · intro h
    exact transformAll_eq_pipelineSpec K _ _ _ _ _ m h
  · intro h
    exact transformAll_total K _ _ _ _ h _ m
  · intro h
    exact transformAll_total K _ _ _ _ h _ m
  · intro ty ns Ts T rs m0
    simp only [pipelineSpec, List.foldl_append, List.foldl_cons, List.foldl_nil]
  · intro f before after res m0
    rw [flatMapResources_append]
    simp only [flatMapResources, List.append_assoc]
  · intro ty ns T res m0 newObjs hM hT
    simp only [replaceOrKeep, hM, hT]
    exact newResources_objects K ty { FilePath := res.FilePath, DefaultNamespace := ns }
      newObjs m0
  · intro ty ns T res m0 hM
    simp only [replaceOrKeep, hM]
  · intro h
    simp only [transformHookResources]
    rw [transformAll_noMatch K _ _ _ _ _ m h]
  · intro h
    simp only [transformGeneralResources]
    rw [transformAll_noMatch K _ _ _ _ _ m h]

/-- C11, on a chart with one List envelope and a caller pipeline that first expands a List
into the ConfigMaps `a` and `b` and then drops `b`: the run succeeds and leaves the one
ConfigMap `a`, which is what the fold of the flat-maps gives. -/
theorem transform_is_fold_of_flatMaps_witness :
    (transformGeneralResources sampleExt expandingProcessor { next := 100, log := [] }).err
        = none
    ∧ ((pipelineSpec sampleExt ResourceType.TypeGeneralResource "prod"
          expandingProcessor.generalResourceTransformers [configMapList]
          { next := 100, log := [] }).1.map (fun r => r.unstruct.obj.name) = ["a"])
    ∧ (transformGeneralResources sampleExt expandingProcessor
          { next := 100, log := [] }).p.generalResources
        = (pipelineSpec sampleExt ResourceType.TypeGeneralResource
            expandingProcessor.releaseNamespace expandingProcessor.generalResourceTransformers
            expandingProcessor.generalResources { next := 100, log := [] }).1 :=
  ⟨by decide, by decide,
   ((transform_is_fold_of_flatMaps sampleExt expandingProcessor
      { next := 100, log := [] }).2.1 (by decide)).1⟩

/-! ## Properties of the sorted outputs -/

/-- No stage of `Process` assigns the standalone CRDs the processor was built with. -/
theorem stage_keeps_standaloneCRDs (K : Ext) :
    ∀ s ∈ offlineStages K ++ clusterStages K, ∀ (p : DeployableResourcesProcessor) (m : Mem),
      (s.run p m).p.standaloneCRDs = p.standaloneCRDs := by
  intro s hs p m
  simp only [offlineStages, clusterStages, List.cons_append, List.nil_append, List.mem_cons,
    List.mem_singleton, List.mem_nil_iff, or_false] at hs
  rcases hs with rfl | rfl | rfl | rfl | rfl | rfl | rfl | rfl | rfl | rfl | rfl | rfl | rfl
  · rfl
  · rfl
  · rfl
  · rfl
  · simp only [buildReleasableHookResources]; split <;> rfl
  · simp only [buildReleasableGeneralResources]; split <;> rfl
  · rfl
  · simp only [buildDeployableStandaloneCRDs]; split <;> rfl
  · simp only [buildDeployableHookResources]; split <;> rfl
  · simp only [buildDeployableGeneralResources]; split <;> rfl
  · rfl
  · rfl
  · rfl

/-- After a successful `Process` the deployable standalone CRDs are the sorted output of the
standalone-CRD loop over the standalone CRDs the processor was built with. -/
theorem process_deployableStandaloneCRDs (K : Ext) (p : DeployableResourcesProcessor)
    (m : Mem) (h : (Process K p m).err = none) :
    ∃ m0 m1 patched,
      patchResources K deployableStandaloneCRDLoop p.releaseNamespace
        p.deployableStandaloneCRDsPatchers p.standaloneCRDs m0 = (m1, Except.ok patched)
      ∧ DeployableStandaloneCRDs (Process K p m).p = SliceStable (resourceLess K) patched := by
  have hsplit : offlineStages K ++ lastStages K p
      = (offlineStages K).take 7
        ++ { label := "error building deployable standalone crds",
             run := buildDeployableStandaloneCRDs K }
          :: ((offlineStages K).drop 8 ++ lastStages K p) := rfl
  unfold Process at h ⊢
  rw [hsplit] at h ⊢
  obtain ⟨-, hs, hrun⟩ := runStages_split _ _ _ p m h
  have hsetup := runStages_take_setup K 7 p m
  have hcrds := runStages_preserves (fun q : DeployableResourcesProcessor => q.standaloneCRDs)
    ((offlineStages K).take 7)
    (fun s hs' => stage_keeps_standaloneCRDs K s
      (List.mem_append_left _ (List.mem_of_mem_take hs'))) p m
  generalize runStages ((offlineStages K).take 7) p m = rA at hs hrun hsetup hcrds
  simp only at hs hrun hcrds
  obtain ⟨m1, patched, hp, hq⟩ := buildDeployableStandaloneCRDs_ok K rA.p rA.mem hs
  have hfin := runStages_preserves
    (fun q : DeployableResourcesProcessor => q.deployableStandaloneCRDs)
    _ (later_stages_keep K p).2.2.1
    (buildDeployableStandaloneCRDs K rA.p rA.mem).p
    (buildDeployableStandaloneCRDs K rA.p rA.mem).mem
  rw [← hrun, hq] at hfin
  simp only [setupOf, Prod.mk.injEq] at hsetup
  obtain ⟨-, -, hns, -, -, hs3, -, -⟩ := hsetup
  refine ⟨rA.mem, m1, patched, ?_, ?_⟩
  · rw [← hns, ← hs3, ← hcrds]
    exact hp
  · exact hfin

/-- Go `sort.SliceStable` with a strict weak order returns the stable sorted rearrangement
of its input. -/
theorem SliceStable_stableSort {α : Type} (less : α → α → Bool) (h : StrictWeak less)
    (xs : List α) : StableSortOf less xs (SliceStable less xs) := by
  unfold StableSortOf Ascending SliceStable
  refine ⟨List.perm_insertionSort _ xs, ?_, ?_⟩
  · haveI : IsTotal α (fun a b => less b a = false) :=
      ⟨fun a b => by
        cases hba : less b a with
        | false => exact Or.inl rfl
        | true => exact Or.inr (h.1 b a hba)⟩
    haveI : IsTrans α (fun a b => less b a = false) :=
      ⟨fun a b c hab hbc => h.2 c b a hbc hab⟩
    exact List.sorted_insertionSort (fun a b => less b a = false) xs
  · intro a b hsub hab
    exact List.pair_sublist_insertionSort hab hsub

/-- The comparator of the build functions is a strict weak order on resources when the
handler is one on resource IDs. -/
theorem resourceLess_strictWeak (K : Ext) (h : StrictWeak K.ResourceIDsSortHandler) :
    StrictWeak (resourceLess K) :=
  ⟨fun a b hab => h.1 a.ResourceID b.ResourceID hab,
   fun a b c hab hbc => h.2 a.ResourceID b.ResourceID c.ResourceID hab hbc⟩

/-- The handler of the sample collaborators, which compares the lengths of the names, is a
strict weak order. -/
theorem sampleExt_handler_strictWeak : StrictWeak sampleExt.ResourceIDsSortHandler := by
  refine ⟨?_, ?_⟩
  · intro a b hab
    simp only [sampleExt, decide_eq_true_eq, decide_eq_false_iff_not] at hab ⊢
    omega
  · intro a b c hab hbc
    simp only [sampleExt, decide_eq_false_iff_not] at hab hbc ⊢
    omega

/-- C14: when `ResourceIDsSortHandler` is a strict weak order, after `Process` succeeds each
of the releasable hook, releasable general, deployable standalone-CRD, deployable hook and
deployable general lists is the stable sorted rearrangement of the patched resources of its
class: a permutation of them in which no resource is less than one before it, and in which
two resources of which the later is not less than the earlier (so any two that compare
equal) keep the relative order they had before sorting. -/
theorem process_outputs_sorted (K : Ext) (p : DeployableResourcesProcessor) (m : Mem)
    (hK : StrictWeak K.ResourceIDsSortHandler) (h : (Process K p m).err = none) :
    (∃ m0 m1 patched,
      patchResources K releasableHookLoop p.releaseNamespace
        p.releasableHookResourcePatchers (Process K p m).p.hookResources m0
        = (m1, Except.ok patched)
      ∧ StableSortOf (resourceLess K) patched (ReleasableHookResources (Process K p m).p))
    ∧ (∃ m0 m1 patched,
      patchResources K releasableGeneralLoop p.releaseNamespace
        p.releasableGeneralResourcePatchers (Process K p m).p.generalResources m0
        = (m1, Except.ok patched)
      ∧ StableSortOf (resourceLess K) patched (ReleasableGeneralResources (Process K p m).p))
    ∧ (∃ m0 m1 patched,
      patchResources K deployableStandaloneCRDLoop p.releaseNamespace
        p.deployableStandaloneCRDsPatchers p.standaloneCRDs m0 = (m1, Except.ok patched)
      ∧ StableSortOf (resourceLess K) patched (DeployableStandaloneCRDs (Process K p m).p))
    ∧ (∃ m0 m1 patched,
      patchResources K deployableHookLoop p.releaseNamespace
        p.deployableHookResourcePatchers
        ((Process K p m).p.hookResources.filter (hookMatchesDeployType p.deployType)) m0
        = (m1, Except.ok patched)
      ∧ StableSortOf (resourceLess K) patched (DeployableHookResources (Process K p m).p))
    ∧ (∃ m0 m1 patched,
      patchResources K deployableGeneralLoop p.releaseNamespace
        p.deployableGeneralResourcePatchers (Process K p m).p.generalResources m0
        = (m1, Except.ok patched)
      ∧ StableSortOf (resourceLess K) patched
          (DeployableGeneralResources (Process K p m).p)) := by
  have hless := resourceLess_strictWeak K hK
  refine ⟨?_, ?_, ?_, ?_, ?_⟩
  · obtain ⟨m0, m1, patched, hp, hq⟩ := process_releasableHook K p m h
    exact ⟨m0, m1, patched, hp, by rw [hq]; exact SliceStable_stableSort _ hless patched⟩
  · obtain ⟨m0, m1, patched, hp, hq⟩ := process_releasableGeneral K p m h
    exact ⟨m0, m1, patched, hp, by rw [hq]; exact SliceStable_stableSort _ hless patched⟩
  · obtain ⟨m0, m1, patched, hp, hq⟩ := process_deployableStandaloneCRDs K p m h
    exact ⟨m0, m1, patched, hp, by rw [hq]; exact SliceStable_stableSort _ hless patched⟩
  · obtain ⟨m0, m1, patched, hp, hq⟩ := process_deployableHook K p m h
    exact ⟨m0, m1, patched, hp, by rw [hq]; exact SliceStable_stableSort _ hless patched⟩
  · obtain ⟨m0, m1, patched, hp, hq⟩ := process_deployableGeneral K p m h
    exact ⟨m0, m1, patched, hp, by rw [hq]; exact SliceStable_stableSort _ hless patched⟩

/-- C14, on a chart with the Deployment `web`, the Service `api` and the Secret `db`, under
a handler that compares the lengths of the names: `Process` succeeds, the deployable general
resources come out as `db`, `web`, `api` - the shorter name first, `web` still before `api` -
and the list is ascending. -/
theorem process_outputs_sorted_witness :
    StrictWeak sampleExt.ResourceIDsSortHandler
    ∧ (Process sampleExt (sampleProcessor DeployType.DeployTypeInitial [] []
        [webDeployment, apiService, dbSecret] bareOptions) { next := 100, log := [] }).err
      = none
    ∧ (DeployableGeneralResources (Process sampleExt
        (sampleProcessor DeployType.DeployTypeInitial [] []
          [webDeployment, apiService, dbSecret] bareOptions)
        { next := 100, log := [] }).p).map (fun res => res.ResourceID.name)
      = ["db", "web", "api"]
    ∧ Ascending (resourceLess sampleExt) (DeployableGeneralResources (Process sampleExt
        (sampleProcessor DeployType.DeployTypeInitial [] []
          [webDeployment, apiService, dbSecret] bareOptions)
        { next := 100, log := [] }).p) :=
  ⟨sampleExt_handler_strictWeak, by decide, by decide,
   (process_outputs_sorted sampleExt
      (sampleProcessor DeployType.DeployTypeInitial [] []
        [webDeployment, apiService, dbSecret] bareOptions)
      { next := 100, log := [] } sampleExt_handler_strictWeak
      (by decide)).2.2.2.2.elim
     (fun _ h0 => h0.elim (fun _ h1 => h1.elim (fun _ h2 => h2.2.2.1)))⟩

/-! ## Properties of the order of the infos -/

/-- A pool whose tasks all succeed hands over, in the order of delivery, the infos of its
tasks. -/
theorem wait_of_ok (K : Ext) (pool : Pool) (infos : List DeployableInfo)
    (hperm : (K.deliver pool.tasks).Perm pool.tasks)
    (htasks : pool.tasks = infos.map Except.ok) :
    ∃ out, pool.Wait K = Except.ok out ∧ out.Perm infos := by
  unfold Pool.Wait
  have hnone : (K.deliver pool.tasks).findSome? (fun r => match r with
      | Except.error err => some err
      | Except.ok _ => none) = none := by
    rw [List.findSome?_eq_none_iff]
    intro x hx
    have hx' := hperm.subset hx
    rw [htasks] at hx'
    obtain ⟨i, -, rfl⟩ := List.mem_map.mp hx'
    rfl
  simp only [hnone]
  refine ⟨_, rfl, ?_⟩
  have h := hperm.filterMap (fun r : Except String DeployableInfo => match r with
      | Except.ok info => some info
      | Except.error _ => none)
  have hid : ((fun r : Except String DeployableInfo => match r with
      | Except.ok info => some info
      | Except.error _ => none) ∘ Except.ok) = some := rfl
  have h2 : pool.tasks.filterMap (fun r : Except String DeployableInfo => match r with
      | Except.ok info => some info
      | Except.error _ => none) = infos := by
    rw [htasks, List.filterMap_map, hid, List.filterMap_some]
  rw [h2] at h
  exact h

/-- A pool with a failed task returns an error. -/
theorem wait_of_error (K : Ext) (pool : Pool)
    (hperm : (K.deliver pool.tasks).Perm pool.tasks) (e : String)
    (h : Except.error e ∈ pool.tasks) :
    ∃ err, pool.Wait K = Except.error err := by
  unfold Pool.Wait
  cases hfs : (K.deliver pool.tasks).findSome? (fun r => match r with
      | Except.error err => some err
      | Except.ok _ => none) with
  | none =>
    rw [List.findSome?_eq_none_iff] at hfs
    have := hfs _ (hperm.symm.subset h)
    cases this
  | some err =>
    simp only [hfs]
    exact ⟨err, rfl⟩

/-- When no GET of a class fails, the tasks of its pool are the expected infos, one per
resource. -/
theorem tasks_of_allLive (K : Ext) (cls : InfoClass) (noun ns : String) :
    ∀ (rs : List Resource), allLive K cls ns rs →
      rs.map (infoTask K cls noun ns) = (expectedInfos K cls ns rs).map Except.ok
      ∧ (expectedInfos K cls ns rs).map (fun info => info.resource) = rs
      ∧ ∀ info ∈ expectedInfos K cls ns rs,
          K.getLive cls info.resource ns = Except.ok info.live := by
  intro rs
  induction rs with
  | nil => intro _; exact ⟨rfl, rfl, fun _ h => by cases h⟩
  | cons res rest ih =>
    intro h
    obtain ⟨live, hlive⟩ := h res (List.mem_cons_self _ _)
    obtain ⟨h1, h2, h3⟩ := ih (fun r hr => h r (List.mem_cons_of_mem _ hr))
    have hexp : expectedInfos K cls ns (res :: rest)
        = { resource := res, live := live } :: expectedInfos K cls ns rest := by
      simp only [expectedInfos, List.filterMap_cons, hlive]
    rw [hexp]
    refine ⟨?_, ?_, ?_⟩
    · simp only [List.map_cons, h1, infoTask, hlive]
    · simp only [List.map_cons, h2]
    · intro info hinfo
      rcases List.mem_cons.mp hinfo with rfl | hinfo
      · exact hlive
      · exact h3 info hinfo

/-- When a GET of a class fails, a task of its pool fails. -/
theorem task_error_of_not_allLive (K : Ext) (cls : InfoClass) (noun ns : String)
    (rs : List Resource) (h : ¬ allLive K cls ns rs) :
    ∃ e, Except.error e ∈ rs.map (infoTask K cls noun ns) := by
  unfold allLive at h
  push_neg at h
  obtain ⟨res, hres, hno⟩ := h
  cases hlive : K.getLive cls res ns with
  | ok live => exact absurd hlive (hno live)
  | error err =>
    refine ⟨wrapErr ("error constructing " ++ noun ++ " info") err, ?_⟩
    refine List.mem_map.mpr ⟨res, hres, ?_⟩
    simp only [infoTask, hlive]

/-- The pool of a class, under any order of delivery: it hands over a permutation of the
expected infos when no GET fails, and an error otherwise. -/
theorem pool_outcome (K : Ext)
    (d : List (Except String DeployableInfo) → List (Except String DeployableInfo))
    (hd : IsDelivery d) (cls : InfoClass) (noun ns : String) (rs : List Resource)
    (total par : Int) :
    (allLive K cls ns rs →
      ∃ out, (newPool (withDelivery K d) cls noun ns rs total par).Wait (withDelivery K d)
          = Except.ok out
        ∧ out.Perm (expectedInfos K cls ns rs))
    ∧ (¬ allLive K cls ns rs →
      ∃ err, (newPool (withDelivery K d) cls noun ns rs total par).Wait (withDelivery K d)
          = Except.error err) := by
  constructor
  · intro h
    exact wait_of_ok (withDelivery K d) _ _ (hd _) (tasks_of_allLive K cls noun ns rs h).1
  · intro h
    obtain ⟨e, he⟩ := task_error_of_not_allLive K cls noun ns rs h
    exact wait_of_error (withDelivery K d) _ (hd _) e he

/-- The comparator of the info lists is a strict weak order when the handler is one. -/
theorem infoLess_strictWeak (K : Ext) (h : StrictWeak K.ResourceIDsSortHandler) :
    StrictWeak (infoLess K) :=
  ⟨fun a b hab => h.1 a.resource.ResourceID b.resource.ResourceID hab,
   fun a b c hab hbc =>
     h.2 a.resource.ResourceID b.resource.ResourceID c.resource.ResourceID hab hbc⟩

/-- Two arrangements of the same infos sort to the same list when the infos have pairwise
distinct resource IDs between which the handler decides. -/
theorem SliceStable_perm_unique (K : Ext) (hK : StrictWeak K.ResourceIDsSortHandler)
    (E : List DeployableInfo)
    (hnodup : (E.map (fun info => info.resource.ResourceID)).Nodup)
    (htot : TotalOn K.ResourceIDsSortHandler (E.map (fun info => info.resource.ResourceID)))
    (o1 o2 : List DeployableInfo) (h1 : o1.Perm E) (h2 : o2.Perm E) :
    SliceStable (infoLess K) o1 = SliceStable (infoLess K) o2 := by
  have s1 := SliceStable_stableSort (infoLess K) (infoLess_strictWeak K hK) o1
  have s2 := SliceStable_stableSort (infoLess K) (infoLess_strictWeak K hK) o2
  unfold StableSortOf Ascending at s1 s2
  refine List.Perm.eq_of_sorted ?_ s1.2.1 s2.2.1
    (s1.1.trans (h1.trans (h2.symm.trans s2.1.symm)))
  intro a b ha hb hab hba
  have haE : a ∈ E := h1.subset ((mem_SliceStable _ _ _).mp ha)
  have hbE : b ∈ E := h2.subset ((mem_SliceStable _ _ _).mp hb)
  have hid : a.resource.ResourceID = b.resource.ResourceID := by
    by_contra hne
    rcases htot _ (List.mem_map.mpr ⟨a, haE, rfl⟩) _ (List.mem_map.mpr ⟨b, hbE, rfl⟩) hne
      with h | h
    · unfold infoLess at hba
      rw [h] at hba
      cases hba
    · unfold infoLess at hab
      rw [h] at hab
      cases hab
  exact List.inj_on_of_nodup_map hnodup haE hbE hid

/-- What the sorted list of a class holds when its pool handed over a permutation of the
expected infos: one info per resource, ascending, each pairing its resource with the live
object of the cluster. -/
theorem sorted_class_facts (K : Ext) (hK : StrictWeak K.ResourceIDsSortHandler)
    (cls : InfoClass) (ns : String) (rs : List Resource) (o : List DeployableInfo)
    (hall : allLive K cls ns rs) (hp : o.Perm (expectedInfos K cls ns rs)) :
    ((SliceStable (infoLess K) o).map (fun info => info.resource)).Perm rs
    ∧ Ascending (infoLess K) (SliceStable (infoLess K) o)
    ∧ ∀ info ∈ SliceStable (infoLess K) o,
        K.getLive cls info.resource ns = Except.ok info.live := by
  obtain ⟨-, h2, h3⟩ := tasks_of_allLive K cls "" ns rs hall
  have s := SliceStable_stableSort (infoLess K) (infoLess_strictWeak K hK) o
  refine ⟨?_, s.2.1, ?_⟩
  · have := (s.1.trans hp).map (fun info => info.resource)
    rw [h2] at this
    exact this
  · intro info hinfo
    exact h3 info (hp.subset ((mem_SliceStable _ _ _).mp hinfo))

/-- The outcome of `BuildDeployableResourceInfos` under an order of delivery: when no GET
fails, the four sorted lists of what the pools handed over; an error otherwise. -/
theorem build_infos_outcome (K : Ext)
    (d : List (Except String DeployableInfo) → List (Except String DeployableInfo))
    (hd : IsDelivery d) (ns : String) (crds hooks gens prev : List Resource) (par : Int) :
    (allLive K InfoClass.standaloneCRD ns crds ∧ allLive K InfoClass.hookResource ns hooks
        ∧ allLive K InfoClass.generalResource ns gens
        ∧ allLive K InfoClass.prevReleaseGeneralResource ns prev →
      ∃ o1 o2 o3 o4,
        o1.Perm (expectedInfos K InfoClass.standaloneCRD ns crds)
        ∧ o2.Perm (expectedInfos K InfoClass.hookResource ns hooks)
        ∧ o3.Perm (expectedInfos K InfoClass.generalResource ns gens)
        ∧ o4.Perm (expectedInfos K InfoClass.prevReleaseGeneralResource ns prev)
        ∧ BuildDeployableResourceInfos (withDelivery K d) ns crds hooks gens prev par
          = { releaseNamespaceInfo := none
              standaloneCRDsInfos := SliceStable (infoLess K) o1
              hookResourcesInfos := SliceStable (infoLess K) o2
              generalResourcesInfos := SliceStable (infoLess K) o3
              prevReleaseGeneralResourceInfos := SliceStable (infoLess K) o4
              err := none })
    ∧ (¬ (allLive K InfoClass.standaloneCRD ns crds ∧ allLive K InfoClass.hookResource ns hooks
        ∧ allLive K InfoClass.generalResource ns gens
        ∧ allLive K InfoClass.prevReleaseGeneralResource ns prev) →
      (BuildDeployableResourceInfos (withDelivery K d) ns crds hooks gens prev par).err
        ≠ none) := by
  have P1 := pool_outcome K d hd InfoClass.standaloneCRD "standalone crd" ns crds
    (wrapInt (crds.length + hooks.length + gens.length + prev.length)) par
  have P2 := pool_outcome K d hd InfoClass.hookResource "hook resource" ns hooks
    (wrapInt (crds.length + hooks.length + gens.length + prev.length)) par
  have P3 := pool_outcome K d hd InfoClass.generalResource "general resource" ns gens
    (wrapInt (crds.length + hooks.length + gens.length + prev.length)) par
  have P4 := pool_outcome K d hd InfoClass.prevReleaseGeneralResource "general resource" ns
    prev (wrapInt (crds.length + hooks.length + gens.length + prev.length)) par
  unfold BuildDeployableResourceInfos waitAndSort infoPools
  constructor
  · rintro ⟨h1, h2, h3, h4⟩
    obtain ⟨o1, w1, p1⟩ := P1.1 h1
    obtain ⟨o2, w2, p2⟩ := P2.1 h2
    obtain ⟨o3, w3, p3⟩ := P3.1 h3
    obtain ⟨o4, w4, p4⟩ := P4.1 h4
    refine ⟨o1, o2, o3, o4, p1, p2, p3, p4, ?_⟩
    simp only [w1, w2, w3, w4]
    rfl
  · intro hnot
    by_cases h1 : allLive K InfoClass.standaloneCRD ns crds
    · obtain ⟨o1, w1, -⟩ := P1.1 h1
      by_cases h2 : allLive K InfoClass.hookResource ns hooks
      · obtain ⟨o2, w2, -⟩ := P2.1 h2
        by_cases h3 : allLive K InfoClass.generalResource ns gens
        · obtain ⟨o3, w3, -⟩ := P3.1 h3
          have h4 : ¬ allLive K InfoClass.prevReleaseGeneralResource ns prev :=
            fun h4 => hnot ⟨h1, h2, h3, h4⟩
          obtain ⟨e, we⟩ := P4.2 h4
          simp only [w1, w2, w3, we, infosFailure]
          exact fun h => by cases h
        · obtain ⟨e, we⟩ := P3.2 h3
          simp only [w1, w2, we, infosFailure]
          exact fun h => by cases h
      · obtain ⟨e, we⟩ := P2.2 h2
        simp only [w1, we, infosFailure]
        exact fun h => by cases h
    · obtain ⟨e, we⟩ := P1.2 h1
      simp only [we, infosFailure]
      exact fun h => by cases h

/-- C13: the reconciler output does not depend on the order of delivery and is sorted. Let
the handler be a strict weak order, and let the resources of each class have pairwise
distinct resource IDs between which the handler decides. For any two orders `d1`, `d2` in
which the pools hand over their results: `BuildDeployableResourceInfos` succeeds exactly
when no GET fails (whatever the order); and when it succeeds under `d1`, it returns the same
value under `d2`, and each of the four lists holds one info per resource of its class, is
ascending under the handler, and pairs each resource with the live object of the cluster. -/
theorem infos_deterministic_and_sorted (K : Ext)
    (d1 d2 : List (Except String DeployableInfo) → List (Except String DeployableInfo))
    (ns : String) (crds hooks gens prev : List Resource) (par : Int)
    (hK : StrictWeak K.ResourceIDsSortHandler)
    (hd1 : IsDelivery d1) (hd2 : IsDelivery d2)
    (hids : ∀ rs ∈ [crds, hooks, gens, prev],
      (rs.map (fun res => res.ResourceID)).Nodup
      ∧ TotalOn K.ResourceIDsSortHandler (rs.map (fun res => res.ResourceID))) :
    ((BuildDeployableResourceInfos (withDelivery K d1) ns crds hooks gens prev par).err = none
      ↔ (allLive K InfoClass.standaloneCRD ns crds ∧ allLive K InfoClass.hookResource ns hooks
          ∧ allLive K InfoClass.generalResource ns gens
          ∧ allLive K InfoClass.prevReleaseGeneralResource ns prev))
    ∧ ((BuildDeployableResourceInfos (withDelivery K d1) ns crds hooks gens prev par).err = none
      → BuildDeployableResourceInfos (withDelivery K d2) ns crds hooks gens prev par
          = BuildDeployableResourceInfos (withDelivery K d1) ns crds hooks gens prev par
        ∧ (((BuildDeployableResourceInfos (withDelivery K d1) ns crds hooks gens prev
              par).standaloneCRDsInfos.map (fun info => info.resource)).Perm crds
          ∧ Ascending (infoLess K) (BuildDeployableResourceInfos (withDelivery K d1) ns crds
              hooks gens prev par).standaloneCRDsInfos
          ∧ ∀ info ∈ (BuildDeployableResourceInfos (withDelivery K d1) ns crds hooks gens prev
              par).standaloneCRDsInfos,
              K.getLive InfoClass.standaloneCRD info.resource ns = Except.ok info.live)
        ∧ (((BuildDeployableResourceInfos (withDelivery K d1) ns crds hooks gens prev
              par).hookResourcesInfos.map (fun info => info.resource)).Perm hooks
          ∧ Ascending (infoLess K) (BuildDeployableResourceInfos (withDelivery K d1) ns crds
              hooks gens prev par).hookResourcesInfos
          ∧ ∀ info ∈ (BuildDeployableResourceInfos (withDelivery K d1) ns crds hooks gens prev
              par).hookResourcesInfos,
              K.getLive InfoClass.hookResource info.resource ns = Except.ok info.live)
        ∧ (((BuildDeployableResourceInfos (withDelivery K d1) ns crds hooks gens prev
              par).generalResourcesInfos.map (fun info => info.resource)).Perm gens
          ∧ Ascending (infoLess K) (BuildDeployableResourceInfos (withDelivery K d1) ns crds
              hooks gens prev par).generalResourcesInfos
          ∧ ∀ info ∈ (BuildDeployableResourceInfos (withDelivery K d1) ns crds hooks gens prev
              par).generalResourcesInfos,
              K.getLive InfoClass.generalResource info.resource ns = Except.ok info.live)
        ∧ (((BuildDeployableResourceInfos (withDelivery K d1) ns crds hooks gens prev
              par).prevReleaseGeneralResourceInfos.map (fun info => info.resource)).Perm prev
          ∧ Ascending (infoLess K) (BuildDeployableResourceInfos (withDelivery K d1) ns crds
              hooks gens prev par).prevReleaseGeneralResourceInfos
          ∧ ∀ info ∈ (BuildDeployableResourceInfos (withDelivery K d1) ns crds hooks gens prev
              par).prevReleaseGeneralResourceInfos,
              K.getLive InfoClass.prevReleaseGeneralResource info.resource ns
                = Except.ok info.live)) := by
  have B1 := build_infos_outcome K d1 hd1 ns crds hooks gens prev par
  have B2 := build_infos_outcome K d2 hd2 ns crds hooks gens prev par
  have hiff : (BuildDeployableResourceInfos (withDelivery K d1) ns crds hooks gens prev
        par).err = none
      ↔ (allLive K InfoClass.standaloneCRD ns crds ∧ allLive K InfoClass.hookResource ns hooks
          ∧ allLive K InfoClass.generalResource ns gens
          ∧ allLive K InfoClass.prevReleaseGeneralResource ns prev) := by
    constructor
    · intro h
      by_contra hnot
      exact B1.2 hnot h
    · intro hall
      obtain ⟨o1, o2, o3, o4, -, -, -, -, heq⟩ := B1.1 hall
      rw [heq]
  refine ⟨hiff, ?_⟩
  intro hok
  have hall := hiff.mp hok
  obtain ⟨a1, a2, a3, a4⟩ := hall
  obtain ⟨o1, o2, o3, o4, p1, p2, p3, p4, heq1⟩ := B1.1 ⟨a1, a2, a3, a4⟩
  obtain ⟨q1, q2, q3, q4, r1, r2, r3, r4, heq2⟩ := B2.1 ⟨a1, a2, a3, a4⟩
  have hexp : ∀ (cls : InfoClass) (rs : List Resource), allLive K cls ns rs →
      (rs.map (fun res => res.ResourceID)).Nodup
        ∧ TotalOn K.ResourceIDsSortHandler (rs.map (fun res => res.ResourceID)) →
      ((expectedInfos K cls ns rs).map (fun info => info.resource.ResourceID)).Nodup
        ∧ TotalOn K.ResourceIDsSortHandler
            ((expectedInfos K cls ns rs).map (fun info => info.resource.ResourceID)) := by
    intro cls rs ha hrs
    have h2 := (tasks_of_allLive K cls "" ns rs ha).2.1
    have hmap : (expectedInfos K cls ns rs).map (fun info => info.resource.ResourceID)
        = rs.map (fun res => res.ResourceID) := by
      conv_rhs => rw [← h2]
      rw [List.map_map]
      rfl
    rw [hmap]
    exact hrs
  have e1 := hexp _ crds a1 (hids crds (by simp))
  have e2 := hexp _ hooks a2 (hids hooks (by simp))
  have e3 := hexp _ gens a3 (hids gens (by simp))
  have e4 := hexp _ prev a4 (hids prev (by simp))
  have u1 := SliceStable_perm_unique K hK _ e1.1 e1.2 q1 o1 r1 p1
  have u2 := SliceStable_perm_unique K hK _ e2.1 e2.2 q2 o2 r2 p2
  have u3 := SliceStable_perm_unique K hK _ e3.1 e3.2 q3 o3 r3 p3
  have u4 := SliceStable_perm_unique K hK _ e4.1 e4.2 q4 o4 r4 p4
  rw [heq2, heq1, u1, u2, u3, u4]
  exact ⟨rfl, sorted_class_facts K hK _ ns crds o1 a1 p1,
    sorted_class_facts K hK _ ns hooks o2 a2 p2,
    sorted_class_facts K hK _ ns gens o3 a3 p3,
    sorted_class_facts K hK _ ns prev o4 a4 p4⟩

/-- C13, on the Deployment `web` and the Secret `db` as general resources, with the pools
handing over their results in submission order and in reverse: both runs return the same
value, whose general infos are `db`, `web`. -/
theorem infos_deterministic_and_sorted_witness :
    (BuildDeployableResourceInfos (withDelivery sampleExt (fun results => results)) "prod"
        [] [] [webDeployment, dbSecret] [] 30).err = none
    ∧ (BuildDeployableResourceInfos (withDelivery sampleExt List.reverse) "prod"
        [] [] [webDeployment, dbSecret] [] 30).generalResourcesInfos.map
          (fun info => info.resource.ResourceID.name) = ["db", "web"]
    ∧ BuildDeployableResourceInfos (withDelivery sampleExt List.reverse) "prod"
        [] [] [webDeployment, dbSecret] [] 30
      = BuildDeployableResourceInfos (withDelivery sampleExt (fun results => results)) "prod"
        [] [] [webDeployment, dbSecret] [] 30 :=
  ⟨by decide, by decide,
   ((infos_deterministic_and_sorted sampleExt (fun results => results) List.reverse "prod"
      [] [] [webDeployment, dbSecret] [] 30 sampleExt_handler_strictWeak
      (fun _ => List.Perm.refl _) (fun results => List.reverse_perm results)
      (by simp only [TotalOn]; decide)).2 (by decide)).1⟩

/-! ## Properties of the stages splitter -/

/-- Putting a resource into a stage list, stage by stage. -/
theorem placeResource_cons (stage : stages.Stage) (rest : stages.SortedStageList)
    (weight : Int) (resInfo : resource.Info) :
    placeResource (stage :: rest) weight resInfo
      = if stage.Weight = weight then
          { stage with DesiredResources := stage.DesiredResources ++ [resInfo] } :: rest
        else stage :: placeResource rest weight resInfo := by
  unfold placeResource
  by_cases h : stage.Weight = weight
  · simp only [stages.StageByWeight, if_pos h, stages.appendAt]
  · simp only [stages.StageByWeight, if_neg h]
    cases hs : stages.StageByWeight rest weight with
    | none => simp only [Option.map_none', List.cons_append]
    | some i => simp only [Option.map_some', stages.appendAt]

/-- The bucket of a weight, stage by stage. -/
theorem bucket_cons (stage : stages.Stage) (rest : stages.SortedStageList) (weight : Int) :
    bucket (stage :: rest) weight
      = if stage.Weight = weight then stage.DesiredResources else bucket rest weight := by
  unfold bucket
  by_cases h : stage.Weight = weight
  · simp only [List.find?_cons, h, decide_True, if_pos]
  · simp only [List.find?_cons, h, decide_False, if_neg, not_false_eq_true]

/-- The weights of the stages after a resource is put into the list: the same when a stage
of its weight exists, one more at the end otherwise. -/
theorem placeResource_weights :
    ∀ (stageList : stages.SortedStageList) (weight : Int) (resInfo : resource.Info),
      (placeResource stageList weight resInfo).map (fun stage => stage.Weight)
        = if weight ∈ stageList.map (fun stage => stage.Weight) then
            stageList.map (fun stage => stage.Weight)
          else stageList.map (fun stage => stage.Weight) ++ [weight] := by
  intro stageList
  induction stageList with
  | nil => intro weight resInfo; simp [placeResource, stages.StageByWeight]
  | cons stage rest ih =>
    intro weight resInfo
    rw [placeResource_cons]
    by_cases h : stage.Weight = weight
    · simp [h]
    · have hne : ¬ weight = stage.Weight := fun e => h e.symm
      simp only [if_neg h, List.map_cons, ih, List.mem_cons, hne, false_or]
      by_cases hm : weight ∈ rest.map (fun stage => stage.Weight)
      · simp only [if_pos hm]
      · simp only [if_neg hm, List.cons_append]

/-- The buckets after a resource is put into the list: the resource is at the end of the
bucket of its weight, the other buckets are as before. -/
theorem bucket_placeResource :
    ∀ (stageList : stages.SortedStageList) (weight : Int) (resInfo : resource.Info)
      (other : Int),
      bucket (placeResource stageList weight resInfo) other
        = if other = weight then bucket stageList weight ++ [resInfo]
          else bucket stageList other := by
  intro stageList
  induction stageList with
  | nil =>
    intro weight resInfo other
    by_cases h : other = weight
    · subst h
      simp [placeResource, stages.StageByWeight, bucket]
    · have hne : ¬ weight = other := fun e => h e.symm
      simp [placeResource, stages.StageByWeight, bucket, h, hne]
  | cons stage rest ih =>
    intro weight resInfo other
    rw [placeResource_cons]
    by_cases h : stage.Weight = weight
    · rw [if_pos h, bucket_cons, bucket_cons, bucket_cons]
      by_cases ho : other = weight
      · subst ho
        simp only [h, if_true]
      · have hne : ¬ weight = other := fun e => ho e.symm
        simp only [h, hne, ho, if_false]
    · rw [if_neg h, bucket_cons, ih, bucket_cons, bucket_cons]
      by_cases ho : other = weight
      · subst ho
        simp only [h, if_true, if_false]
      · by_cases hs : stage.Weight = other
        · simp only [hs, ho, if_true, if_false]
        · simp only [hs, ho, if_false]

/-- Putting a resource into the list adds one to the sum of the stage sizes. -/
theorem placeResource_sizes :
    ∀ (stageList : stages.SortedStageList) (weight : Int) (resInfo : resource.Info),
      ((placeResource stageList weight resInfo).map
          (fun stage => stage.DesiredResources.length)).sum
        = (stageList.map (fun stage => stage.DesiredResources.length)).sum + 1 := by
  intro stageList
  induction stageList with
  | nil => intro weight resInfo; simp [placeResource, stages.StageByWeight]
  | cons stage rest ih =>
    intro weight resInfo
    rw [placeResource_cons]
    by_cases h : stage.Weight = weight
    · simp only [if_pos h, List.map_cons, List.sum_cons, List.length_append,
        List.length_singleton]
      omega
    · simp only [if_neg h, List.map_cons, List.sum_cons, ih]
      omega

/-- In a list of stages with pairwise distinct weights, the bucket of the weight of a stage
is the resources of that stage. -/
theorem bucket_of_mem :
    ∀ (stageList : stages.SortedStageList),
      (stageList.map (fun stage => stage.Weight)).Nodup →
      ∀ stage ∈ stageList, bucket stageList stage.Weight = stage.DesiredResources := by
  intro stageList
  induction stageList with
  | nil => intro _ stage hs; cases hs
  | cons first rest ih =>
    intro hnodup stage hs
    simp only [List.map_cons, List.nodup_cons] at hnodup
    rw [bucket_cons]
    rcases List.mem_cons.mp hs with rfl | hs
    · simp only [if_true]
    · have hne : ¬ first.Weight = stage.Weight := by
        intro e
        exact hnodup.1 (e ▸ List.mem_map.mpr ⟨stage, hs, rfl⟩)
      rw [if_neg hne]
      exact ih hnodup.2 stage hs

/-- A weight with a non-empty bucket is the weight of a stage of the list. -/
theorem weight_mem_of_bucket :
    ∀ (stageList : stages.SortedStageList) (weight : Int),
      bucket stageList weight ≠ [] → weight ∈ stageList.map (fun stage => stage.Weight) := by
  intro stageList
  induction stageList with
  | nil => intro weight h; exact absurd rfl h
  | cons first rest ih =>
    intro weight h
    rw [bucket_cons] at h
    by_cases hw : first.Weight = weight
    · simp only [List.map_cons, List.mem_cons]
      exact Or.inl hw.symm
    · rw [if_neg hw] at h
      simp only [List.map_cons, List.mem_cons]
      exact Or.inr (ih weight h)

/-- The function of `Split` on a valid resource: the resource is put into the stage of its
weight. -/
theorem visitFn_valid (D : DeployExt) (stageList : stages.SortedStageList)
    (resInfo : resource.Info) (h : validWeight D resInfo) :
    visitFn D stageList resInfo (D.visitErr resInfo)
      = Except.ok (placeResource stageList (weightOf D resInfo) resInfo) := by
  obtain ⟨hv, annotations, ha, hw⟩ := h
  unfold visitFn weightOf stageWeight
  rw [hv]
  simp only [ha]
  cases hl : annotations.lookup D.StageWeightAnnoName with
  | none => rfl
  | some w =>
    obtain ⟨weight, hweight⟩ := hw w hl
    simp only [hweight]

/-- The invariant of `Split` is kept when a resource is put into the stage of its weight. -/
theorem splitInvariant_step (D : DeployExt) (done : List resource.Info)
    (stageList : stages.SortedStageList) (resInfo : resource.Info)
    (h : splitInvariant D done stageList) :
    splitInvariant D (done ++ [resInfo])
      (placeResource stageList (weightOf D resInfo) resInfo) := by
  obtain ⟨h1, h2, h3, h4⟩ := h
  refine ⟨?_, ?_, ?_, ?_⟩
  · rw [placeResource_weights]
    by_cases hm : weightOf D resInfo ∈ stageList.map (fun stage => stage.Weight)
    · rw [if_pos hm]
      exact h1
    · rw [if_neg hm]
      rw [List.nodup_append]
      refine ⟨h1, List.nodup_singleton _, ?_⟩
      intro a ha hb
      rw [List.mem_singleton] at hb
      subst hb
      exact hm ha
  · intro weight
    rw [bucket_placeResource, List.filter_append]
    by_cases hw : weight = weightOf D resInfo
    · subst hw
      rw [if_pos rfl, h2]
      simp only [List.filter_cons, decide_True, if_true, List.filter_nil]
    · have hne : ¬ weightOf D resInfo = weight := fun e => hw e.symm
      rw [if_neg hw, h2]
      simp [List.filter_cons, hne]
  · intro weight hweight
    rw [bucket_placeResource]
    by_cases hw : weight = weightOf D resInfo
    · rw [if_pos hw]
      exact fun e => by simp at e
    · rw [if_neg hw]
      rw [placeResource_weights] at hweight
      by_cases hm : weightOf D resInfo ∈ stageList.map (fun stage => stage.Weight)
      · rw [if_pos hm] at hweight
        exact h3 weight hweight
      · rw [if_neg hm, List.mem_append, List.mem_singleton] at hweight
        rcases hweight with hweight | hweight
        · exact h3 weight hweight
        · exact absurd hweight hw
  · rw [placeResource_sizes, h4, List.length_append, List.length_singleton]

/-- On valid resources `Visit` runs to the end and keeps the invariant of `Split`. -/
theorem visit_invariant (D : DeployExt) :
    ∀ (rs done : List resource.Info) (stageList : stages.SortedStageList),
      (∀ resInfo ∈ rs, validWeight D resInfo) →
      splitInvariant D done stageList →
      ∃ final, Visit D (visitFn D) rs stageList = Except.ok final
        ∧ splitInvariant D (done ++ rs) final := by
  intro rs
  induction rs with
  | nil =>
    intro done stageList _ hinv
    exact ⟨stageList, rfl, by rw [List.append_nil]; exact hinv⟩
  | cons resInfo rest ih =>
    intro done stageList hvalid hinv
    have hstep := splitInvariant_step D done stageList resInfo hinv
    obtain ⟨final, hfinal, hinv'⟩ := ih (done ++ [resInfo]) _
      (fun r hr => hvalid r (List.mem_cons_of_mem _ hr)) hstep
    refine ⟨final, ?_, ?_⟩
    · simp only [Visit, visitFn_valid D stageList resInfo
        (hvalid resInfo (List.mem_cons_self _ _))]
      exact hfinal
    · rw [List.append_assoc] at hinv'
      exact hinv'

/-- The invariant of `Split` holds before the first resource. -/
theorem splitInvariant_nil (D : DeployExt) : splitInvariant D [] [] :=
  ⟨List.nodup_nil, fun _ => rfl, fun _ h => (by cases h), rfl⟩

/-- C20: on a resource list in which every resource can be visited and has a weight
annotation that is absent or a valid integer, `Split` returns stages with pairwise distinct
weights such that every stage holds exactly the input resources of its weight (zero for an
absent annotation), in input order, and is not empty; every input resource is in the stage
of its weight and in no other stage; the stage sizes sum to the input length; and the empty
list gives no stages. -/
theorem split_partition (D : DeployExt) (resources : List resource.Info)
    (h : ∀ resInfo ∈ resources, validWeight D resInfo) :
    ∃ stageList, StagesSplitter.Split D resources = Except.ok stageList
      ∧ (stageList.map (fun stage => stage.Weight)).Nodup
      ∧ (∀ stage ∈ stageList,
          stage.DesiredResources
            = resources.filter (fun resInfo => decide (weightOf D resInfo = stage.Weight))
          ∧ stage.DesiredResources ≠ [])
      ∧ (∀ resInfo ∈ resources, ∃ stage ∈ stageList,
          stage.Weight = weightOf D resInfo
          ∧ resInfo ∈ stage.DesiredResources
          ∧ ∀ other ∈ stageList, resInfo ∈ other.DesiredResources → other = stage)
      ∧ (stageList.map (fun stage => stage.DesiredResources.length)).sum = resources.length
      ∧ (resources = [] → stageList = []) := by
  obtain ⟨final, hfinal, h1, h2, h3, h4⟩ :=
    visit_invariant D resources [] [] h (splitInvariant_nil D)
  rw [List.nil_append] at h2 h4
  have hperm : (stages.Sort final).Perm final := List.perm_insertionSort _ _
  have hmem : ∀ stage, stage ∈ stages.Sort final ↔ stage ∈ final := fun _ => hperm.mem_iff
  have hres : ∀ stage ∈ final, stage.DesiredResources
      = resources.filter (fun resInfo => decide (weightOf D resInfo = stage.Weight)) := by
    intro stage hs
    rw [← bucket_of_mem final h1 stage hs, h2]
  refine ⟨stages.Sort final, by simp only [StagesSplitter.Split, hfinal], ?_, ?_, ?_, ?_, ?_⟩
  · exact (hperm.map _).nodup_iff.mpr h1
  · intro stage hs
    have hs' := (hmem stage).mp hs
    refine ⟨hres stage hs', ?_⟩
    rw [← bucket_of_mem final h1 stage hs']
    exact h3 _ (List.mem_map.mpr ⟨stage, hs', rfl⟩)
  · intro resInfo hr
    have hin : resInfo ∈ bucket final (weightOf D resInfo) := by
      rw [h2]
      exact List.mem_filter.mpr ⟨hr, by simp⟩
    have hne : bucket final (weightOf D resInfo) ≠ [] := by
      intro e
      rw [e] at hin
      cases hin
    obtain ⟨stage, hs, hw⟩ := List.mem_map.mp (weight_mem_of_bucket final _ hne)
    refine ⟨stage, (hmem stage).mpr hs, hw, ?_, ?_⟩
    · rw [← bucket_of_mem final h1 stage hs, hw]
      exact hin
    · intro other ho hro
      have ho' := (hmem other).mp ho
      rw [hres other ho'] at hro
      have hwo := (List.mem_filter.mp hro).2
      simp only [decide_eq_true_eq] at hwo
      exact List.inj_on_of_nodup_map h1 ho' hs (by rw [← hwo, hw])
  · rw [(hperm.map (fun stage => stage.DesiredResources.length)).sum_eq]
    exact h4
  · intro hnil
    subst hnil
    simp only [Visit] at hfinal
    injection hfinal with hfinal
    subst hfinal
    rfl

/-- C20, on the ConfigMaps `a` (weight 5), `b` (no weight annotation), `c` (weight -3) and
`d` (weight 5): `Split` returns the stages of the weights -3, 0 and 5, holding `c`, `b`, and
`a` then `d`; the sizes sum to 4. -/
theorem split_partition_witness :
    (StagesSplitter.Split sampleDeployExt
      [weighted "a" (some "5"), weighted "b" none, weighted "c" (some "-3"),
       weighted "d" (some "5")]).toOption.map
        (fun l => l.map (fun stage =>
          (stage.Weight, stage.DesiredResources.map (fun resInfo => resInfo.Object.name))))
      = some [(-3, ["c"]), (0, ["b"]), (5, ["a", "d"])]
    ∧ ∃ stageList, StagesSplitter.Split sampleDeployExt
        [weighted "a" (some "5"), weighted "b" none, weighted "c" (some "-3"),
         weighted "d" (some "5")] = Except.ok stageList
      ∧ (stageList.map (fun stage => stage.DesiredResources.length)).sum = 4 :=
  ⟨by decide,
   (split_partition sampleDeployExt
      [weighted "a" (some "5"), weighted "b" none, weighted "c" (some "-3"),
       weighted "d" (some "5")]
      (by
        intro resInfo hr
        simp only [List.mem_cons, List.mem_singleton, List.mem_nil_iff, or_false] at hr
        rcases hr with rfl | rfl | rfl | rfl
        · exact ⟨rfl, _, rfl, fun w hw => by
            injection hw with hw
            subst hw
            exact ⟨5, by decide⟩⟩
        · exact ⟨rfl, _, rfl, fun w hw => by cases hw⟩
        · exact ⟨rfl, _, rfl, fun w hw => by
            injection hw with hw
            subst hw
            exact ⟨-3, by decide⟩⟩
        · exact ⟨rfl, _, rfl, fun w hw => by
            injection hw with hw
            subst hw
            exact ⟨5, by decide⟩⟩)).elim
     (fun stageList hs => ⟨stageList, hs.1, hs.2.2.2.2.1⟩)⟩

/-! ## Properties of the order of the stages and of a failing Split -/

/-- The function of `Split` fails on a resource that is not valid. -/
theorem visitFn_invalid (D : DeployExt) (stageList : stages.SortedStageList)
    (resInfo : resource.Info) (h : ¬ validWeight D resInfo) :
    ∃ e, visitFn D stageList resInfo (D.visitErr resInfo) = Except.error e := by
  unfold visitFn
  cases hv : D.visitErr resInfo with
  | some e => exact ⟨e, rfl⟩
  | none =>
    cases ha : D.Annotations resInfo.Object with
    | error e => exact ⟨_, rfl⟩
    | ok annotations =>
      simp only [stageWeight]
      cases hl : annotations.lookup D.StageWeightAnnoName with
      | none =>
        exact absurd ⟨hv, annotations, ha, fun w hw => by rw [hl] at hw; cases hw⟩ h
      | some w =>
        cases hw : D.Atoi w with
        | error e =>
          simp only [hw]
          exact ⟨_, rfl⟩
        | ok weight =>
          refine absurd ⟨hv, annotations, ha, fun w' hw' => ?_⟩ h
          rw [hl] at hw'
          injection hw' with hw'
          subst hw'
          exact ⟨weight, hw⟩

/-- `Visit` with the function of `Split` runs to the end exactly on valid resources. -/
theorem visit_ok_iff (D : DeployExt) :
    ∀ (rs : List resource.Info) (stageList : stages.SortedStageList),
      (∃ final, Visit D (visitFn D) rs stageList = Except.ok final)
        ↔ ∀ resInfo ∈ rs, validWeight D resInfo := by
  intro rs
  induction rs with
  | nil => intro stageList; exact ⟨fun _ _ h => (by cases h), fun _ => ⟨stageList, rfl⟩⟩
  | cons resInfo rest ih =>
    intro stageList
    by_cases hvalid : validWeight D resInfo
    · simp only [Visit, visitFn_valid D stageList resInfo hvalid, List.mem_cons,
        forall_eq_or_imp, hvalid, true_and]
      exact ih _
    · obtain ⟨e, he⟩ := visitFn_invalid D stageList resInfo hvalid
      simp only [Visit, he, List.mem_cons, forall_eq_or_imp, hvalid, false_and, iff_false,
        not_exists]
      intro final hfinal
      cases hfinal

/-- After valid resources `Visit` fails with the error of the function on the first
resource that is not valid. -/
theorem visit_first_error (D : DeployExt) :
    ∀ (pre : List resource.Info) (resInfo : resource.Info) (post : List resource.Info)
      (stageList : stages.SortedStageList) (e : String),
      (∀ x ∈ pre, validWeight D x) →
      (∀ current, visitFn D current resInfo (D.visitErr resInfo) = Except.error e) →
      Visit D (visitFn D) (pre ++ resInfo :: post) stageList = Except.error e := by
  intro pre
  induction pre with
  | nil =>
    intro resInfo post stageList e _ he
    simp only [List.nil_append, Visit, he stageList]
  | cons x rest ih =>
    intro resInfo post stageList e hpre he
    simp only [List.cons_append, Visit,
      visitFn_valid D stageList x (hpre x (List.mem_cons_self _ _))]
    exact ih resInfo post _ e (fun y hy => hpre y (List.mem_cons_of_mem _ hy)) he

/-- What a successful `Split` returns: the sorted stage list of a run of `Visit` over valid
resources that kept the invariant. -/
theorem split_ok_invariant (D : DeployExt) (resources : List resource.Info)
    (stageList : stages.SortedStageList)
    (h : StagesSplitter.Split D resources = Except.ok stageList) :
    ∃ final, stageList = stages.Sort final ∧ splitInvariant D resources final
      ∧ ∀ resInfo ∈ resources, validWeight D resInfo := by
  unfold StagesSplitter.Split at h
  cases hv : Visit D (visitFn D) resources [] with
  | error e =>
    rw [hv] at h
    cases h
  | ok final =>
    rw [hv] at h
    injection h with h
    have hvalid := (visit_ok_iff D resources []).mp ⟨final, hv⟩
    obtain ⟨final', hfinal', hinv⟩ :=
      visit_invariant D resources [] [] hvalid (splitInvariant_nil D)
    rw [hv] at hfinal'
    injection hfinal' with hfinal'
    subst hfinal'
    rw [List.nil_append] at hinv
    exact ⟨final, h.symm, hinv, hvalid⟩

/-- Sorting puts stages with pairwise distinct weights in strictly ascending weight. -/
theorem sort_strictly_ascending (stageList : stages.SortedStageList)
    (h : (stageList.map (fun stage => stage.Weight)).Nodup) :
    (stages.Sort stageList).Pairwise (fun a b => a.Weight < b.Weight) := by
  haveI : IsTotal stages.Stage (fun a b => a.Weight ≤ b.Weight) :=
    ⟨fun a b => le_total a.Weight b.Weight⟩
  haveI : IsTrans stages.Stage (fun a b => a.Weight ≤ b.Weight) :=
    ⟨fun a b c hab hbc => le_trans hab hbc⟩
  have hsorted : (stages.Sort stageList).Pairwise (fun a b => a.Weight ≤ b.Weight) :=
    List.sorted_insertionSort (fun a b : stages.Stage => a.Weight ≤ b.Weight) stageList
  have hperm : (stages.Sort stageList).Perm stageList := List.perm_insertionSort _ _
  have hnodup : ((stages.Sort stageList).map (fun stage => stage.Weight)).Nodup :=
    (hperm.map _).nodup_iff.mpr h
  have hne : (stages.Sort stageList).Pairwise (fun a b => a.Weight ≠ b.Weight) :=
    List.pairwise_map.mp hnodup
  exact (hsorted.and hne).imp (fun hab => lt_of_le_of_ne hab.1 hab.2)

/-- C21: whenever `Split` succeeds, the stages it returns have pairwise distinct weights and
stand in strictly ascending weight; every resource of a stage has the weight of the stage;
so of two input resources with different weights (negative ones included) the one with the
smaller weight is in an earlier stage. -/
theorem split_stage_order (D : DeployExt) (resources : List resource.Info)
    (stageList : stages.SortedStageList)
    (h : StagesSplitter.Split D resources = Except.ok stageList) :
    (stageList.map (fun stage => stage.Weight)).Nodup
    ∧ stageList.Pairwise (fun a b => a.Weight < b.Weight)
    ∧ (∀ stage ∈ stageList, ∀ resInfo ∈ stage.DesiredResources,
        weightOf D resInfo = stage.Weight)
    ∧ ∀ (i j : Nat) (hi : i < stageList.length) (hj : j < stageList.length)
        (r1 r2 : resource.Info),
        r1 ∈ (stageList.get ⟨i, hi⟩).DesiredResources →
        r2 ∈ (stageList.get ⟨j, hj⟩).DesiredResources →
        weightOf D r1 < weightOf D r2 → i < j := by
  obtain ⟨final, rfl, ⟨h1, h2, -, -⟩, -⟩ := split_ok_invariant D resources stageList h
  have hperm : (stages.Sort final).Perm final := List.perm_insertionSort _ _
  have hasc := sort_strictly_ascending final h1
  have hweight : ∀ stage ∈ stages.Sort final, ∀ resInfo ∈ stage.DesiredResources,
      weightOf D resInfo = stage.Weight := by
    intro stage hs resInfo hr
    have hs' := hperm.subset hs
    rw [← bucket_of_mem final h1 stage hs', h2] at hr
    have := (List.mem_filter.mp hr).2
    simpa using this
  refine ⟨(hperm.map _).nodup_iff.mpr h1, hasc, hweight, ?_⟩
  intro i j hi hj r1 r2 hr1 hr2 hlt
  have w1 := hweight _ (List.get_mem _ i hi) r1 hr1
  have w2 := hweight _ (List.get_mem _ j hj) r2 hr2
  rw [w1, w2] at hlt
  by_contra hij
  rcases Nat.lt_or_ge j i with hji | hji
  · have := List.pairwise_iff_get.mp hasc ⟨j, hj⟩ ⟨i, hi⟩ hji
    exact absurd hlt (not_lt.mpr (le_of_lt this))
  · have heq : i = j := Nat.le_antisymm hji (Nat.le_of_not_lt hij)
    subst heq
    exact absurd hlt (lt_irrefl _)

/-- C21, on the ConfigMaps `a` (weight 5), `b` (no weight annotation), `c` (weight -3) and
`d` (weight 5): `Split` succeeds and the weights of its stages are -3, 0, 5, strictly
ascending. -/
theorem split_stage_order_witness :
    StagesSplitter.Split sampleDeployExt
        [weighted "a" (some "5"), weighted "b" none, weighted "c" (some "-3"),
         weighted "d" (some "5")]
      = Except.ok [{ Weight := -3, DesiredResources := [weighted "c" (some "-3")] },
          { Weight := 0, DesiredResources := [weighted "b" none] },
          { Weight := 5, DesiredResources := [weighted "a" (some "5"), weighted "d" (some "5")] }]
    ∧ List.Pairwise (fun a b : stages.Stage => a.Weight < b.Weight)
        [{ Weight := -3, DesiredResources := [weighted "c" (some "-3")] },
          { Weight := 0, DesiredResources := [weighted "b" none] },
          { Weight := 5, DesiredResources := [weighted "a" (some "5"), weighted "d" (some "5")] }] :=
  ⟨by decide,
   (split_stage_order sampleDeployExt
      [weighted "a" (some "5"), weighted "b" none, weighted "c" (some "-3"),
       weighted "d" (some "5")] _ (by decide)).2.1⟩

/-- C22: `Split` succeeds exactly when every resource can be visited and has a weight
annotation that is absent or a valid integer. A resource whose weight annotation does not
parse makes `Split` return an error (and no stage list) wherever it stands and whatever the
other resources are; when the resources before it are valid, the error is the parse error
of that resource, wrapped. -/
theorem split_fails_iff_invalid (D : DeployExt) (resources : List resource.Info) :
    ((∃ stageList, StagesSplitter.Split D resources = Except.ok stageList)
      ↔ ∀ resInfo ∈ resources, validWeight D resInfo)
    ∧ (∀ resInfo ∈ resources, ∀ (annotations : StrMap) (w e : String),
        D.Annotations resInfo.Object = Except.ok annotations →
        annotations.lookup D.StageWeightAnnoName = some w →
        D.Atoi w = Except.error e →
        ∃ err, StagesSplitter.Split D resources = Except.error err)
    ∧ (∀ (pre post : List resource.Info) (resInfo : resource.Info) (annotations : StrMap)
        (w e : String),
        resources = pre ++ resInfo :: post →
        (∀ x ∈ pre, validWeight D x) →
        D.visitErr resInfo = none →
        D.Annotations resInfo.Object = Except.ok annotations →
        annotations.lookup D.StageWeightAnnoName = some w →
        D.Atoi w = Except.error e →
        StagesSplitter.Split D resources
          = Except.error (wrapErr "error visiting resources list"
              (wrapErr ("error parsing annotation \"" ++ D.StageWeightAnnoName ++ ": " ++ w
                ++ "\" — value should be an integer") e))) := by
  have hiff : (∃ stageList, StagesSplitter.Split D resources = Except.ok stageList)
      ↔ ∀ resInfo ∈ resources, validWeight D resInfo := by
    rw [← visit_ok_iff D resources []]
    unfold StagesSplitter.Split
    cases hv : Visit D (visitFn D) resources [] with
    | error e =>
      constructor
      · rintro ⟨stageList, hs⟩
        cases hs
      · rintro ⟨final, hf⟩
        cases hf
    | ok final => exact ⟨fun _ => ⟨final, rfl⟩, fun _ => ⟨_, rfl⟩⟩
  refine ⟨hiff, ?_, ?_⟩
  · intro resInfo hr annotations w e ha hl hw
    cases hs : StagesSplitter.Split D resources with
    | error err => exact ⟨err, rfl⟩
    | ok stageList =>
      obtain ⟨-, annotations', ha', hw'⟩ := hiff.mp ⟨stageList, hs⟩ resInfo hr
      rw [ha] at ha'
      injection ha' with ha'
      subst ha'
      obtain ⟨weight, hweight⟩ := hw' w hl
      rw [hw] at hweight
      cases hweight
  · intro pre post resInfo annotations w e hres hpre hv ha hl hw
    subst hres
    have hfn : ∀ current, visitFn D current resInfo (D.visitErr resInfo)
        = Except.error (wrapErr ("error parsing annotation \"" ++ D.StageWeightAnnoName
            ++ ": " ++ w ++ "\" — value should be an integer") e) := by
      intro current
      simp only [visitFn, hv, ha, stageWeight, hl, hw]
    simp only [StagesSplitter.Split, visit_first_error D pre resInfo post [] _ hpre hfn]

/-- C22, on the ConfigMap `a` with weight 5 followed by the ConfigMap `b` with the weight
annotation `x1`: `Split` returns the wrapped parse error of `b`. -/
theorem split_fails_iff_invalid_witness :
    StagesSplitter.Split sampleDeployExt [weighted "a" (some "5"), weighted "b" (some "x1")]
      = Except.error ("error visiting resources list: error parsing annotation "
          ++ "\"werf.io/weight: x1\" — value should be an integer: "
          ++ "strconv.Atoi: parsing \"x1\": invalid syntax") :=
  (split_fails_iff_invalid sampleDeployExt
      [weighted "a" (some "5"), weighted "b" (some "x1")]).2.2
    [weighted "a" (some "5")] [] (weighted "b" (some "x1")) [("werf.io/weight", "x1")]
    "x1" "strconv.Atoi: parsing \"x1\": invalid syntax" rfl
    (by
      intro x hx
      rw [List.mem_singleton] at hx
      subst hx
      exact ⟨rfl, _, rfl, fun w hw => by
        injection hw with hw
        subst hw
        exact ⟨5, by decide⟩⟩)
    rfl rfl rfl (by decide)

/-! ## Properties of the patcher stacks -/

/-- The log of the inner loop of a build function only grows. -/
theorem patchLoop_log_extends (K : Ext) (L : BuildLoop) (ns : String)
    (stack : List ResourcePatcher) (cur : Resource) (dc : Bool) (m : Mem) :
    ∃ ev, (patchLoop K L ns stack cur dc m).1.log = m.log ++ ev := by
  obtain ⟨ev, hev, -⟩ := patchLoop_log K L ns stack cur dc m
  exact ⟨ev, hev⟩

/-- The first call of a pass through a stack is the `Match` of the first patcher, given the
resource as it came; when it matches and no copy was made before, the next events are the
deep copy of the object and the `Patch` of the first patcher on the copy. -/
theorem patchLoop_head (K : Ext) (L : BuildLoop) (ns : String) (first : ResourcePatcher)
    (rest : List ResourcePatcher) (cur : Resource) (m : Mem) :
    ∃ ev, (patchLoop K L ns (first :: rest) cur false m).1.log
        = m.log ++ Event.matchCall first.Typ (matchInfoOf L cur)
            (first.Match (matchInfoOf L cur)) :: ev
      ∧ (first.Match (matchInfoOf L cur) = Except.ok true →
          ∃ ev', ev = Event.deepCopy cur.unstruct.addr m.next
            :: Event.patchCall first.Typ
                (patchInfoOf L cur { addr := m.next, obj := cur.unstruct.obj })
                (first.Patch (patchInfoOf L cur { addr := m.next, obj := cur.unstruct.obj }))
            :: ev') := by
  simp only [patchLoop]
  cases hM : first.Match (matchInfoOf L cur) with
  | error e =>
    refine ⟨[], ?_, fun h => by cases h⟩
    simp [Mem.record]
  | ok b =>
    cases b with
    | false =>
      simp only
      obtain ⟨ev, hev⟩ := patchLoop_log_extends K L ns rest cur false
        (m.record (Event.matchCall first.Typ (matchInfoOf L cur) (Except.ok false)))
      refine ⟨ev, ?_, fun h => by cases h⟩
      rw [hev]
      simp [Mem.record]
    | true =>
      simp only [copyForPatch, Unstructured.DeepCopy, Mem.record, Resource.Unstructured,
        Bool.false_eq_true, if_false]
      cases hP : first.Patch (patchInfoOf L cur { addr := m.next, obj := cur.unstruct.obj })
        with
      | error e =>
        simp only [hP]
        refine ⟨_, ?_, fun _ => ⟨[], rfl⟩⟩
        simp
      | ok out =>
        simp only [hP]
        obtain ⟨ev, hev⟩ := patchLoop_log_extends K L ns rest
          (rebuild K L ns cur { addr := m.next, obj := cur.unstruct.obj } out
            { next := m.next + 1
              log := m.log ++ [Event.matchCall first.Typ (matchInfoOf L cur) (Except.ok true)]
                ++ [Event.deepCopy cur.unstruct.addr m.next]
                ++ [Event.patchCall first.Typ
                    (patchInfoOf L cur { addr := m.next, obj := cur.unstruct.obj })
                    (Except.ok out)] }).1 true
          (rebuild K L ns cur { addr := m.next, obj := cur.unstruct.obj } out
            { next := m.next + 1
              log := m.log ++ [Event.matchCall first.Typ (matchInfoOf L cur) (Except.ok true)]
                ++ [Event.deepCopy cur.unstruct.addr m.next]
                ++ [Event.patchCall first.Typ
                    (patchInfoOf L cur { addr := m.next, obj := cur.unstruct.obj })
                    (Except.ok out)] }).2
        refine ⟨_, ?_, fun _ => ⟨ev, rfl⟩⟩
        rw [hev]
        simp [rebuild, patchedPointer]
        split <;> simp

/-- C23: in the processor `NewDeployableResourcesProcessor` builds, each of the three
deployable stacks is the release-metadata patcher followed by the patchers of the caller in
their order, and each of the two releasable stacks is the list of the caller as it is: the
constructor puts no release-metadata patcher into them (from `Plan` they hold the
extra-metadata patcher alone). So every pass of a deployable build loop over a resource
starts with the `Match` of the release-metadata patcher on the resource as it came, and,
when it matches, goes on with the deep copy and the `Patch` of the release-metadata patcher,
before any other patcher is called; every deployable resource a build function returns is
the outcome of such a pass. -/
theorem releaseMetadataPatcher_first (K : Ext) (deployType : DeployType)
    (releaseName releaseNamespace : String) (crds hooks gens prev : List Resource)
    (opts : DeployableResourcesProcessorOptions) (p : DeployableResourcesProcessor)
    (hp : p = NewDeployableResourcesProcessor K deployType releaseName releaseNamespace crds
      hooks gens prev opts) (m : Mem) :
    p.deployableStandaloneCRDsPatchers
        = K.NewReleaseMetadataPatcher releaseName releaseNamespace
          :: opts.DeployableStandaloneCRDsPatchers
    ∧ p.deployableHookResourcePatchers
        = K.NewReleaseMetadataPatcher releaseName releaseNamespace
          :: opts.DeployableHookResourcePatchers
    ∧ p.deployableGeneralResourcePatchers
        = K.NewReleaseMetadataPatcher releaseName releaseNamespace
          :: opts.DeployableGeneralResourcePatchers
    ∧ p.releasableHookResourcePatchers = opts.ReleasableHookResourcePatchers
    ∧ p.releasableGeneralResourcePatchers = opts.ReleasableGeneralResourcePatchers
    ∧ (∀ popts : PlanOptions, opts = processorOptions K popts →
        p.releasableHookResourcePatchers
          = [K.NewExtraMetadataPatcher popts.ExtraAnnotations popts.ExtraLabels]
        ∧ p.releasableGeneralResourcePatchers
          = [K.NewExtraMetadataPatcher popts.ExtraAnnotations popts.ExtraLabels])
    ∧ (∀ (L : BuildLoop) (callers : List ResourcePatcher) (res : Resource) (m0 : Mem),
        ∃ ev, (patchResource K L releaseNamespace
              (K.NewReleaseMetadataPatcher releaseName releaseNamespace :: callers) res
              m0).1.log
            = m0.log ++ Event.matchCall
                (K.NewReleaseMetadataPatcher releaseName releaseNamespace).Typ
                (matchInfoOf L res)
                ((K.NewReleaseMetadataPatcher releaseName releaseNamespace).Match
                  (matchInfoOf L res)) :: ev
          ∧ ((K.NewReleaseMetadataPatcher releaseName releaseNamespace).Match
                (matchInfoOf L res) = Except.ok true →
              ∃ ev', ev = Event.deepCopy res.unstruct.addr m0.next
                :: Event.patchCall (K.NewReleaseMetadataPatcher releaseName releaseNamespace).Typ
                    (patchInfoOf L res { addr := m0.next, obj := res.unstruct.obj })
                    ((K.NewReleaseMetadataPatcher releaseName releaseNamespace).Patch
                      (patchInfoOf L res { addr := m0.next, obj := res.unstruct.obj }))
                :: ev'))
    ∧ ((buildDeployableStandaloneCRDs K p m).err = none →
        ∃ patched, DeployableStandaloneCRDs (buildDeployableStandaloneCRDs K p m).p
            = SliceStable (resourceLess K) patched
          ∧ List.Forall₂ (fun res out => ∃ m0,
              (patchResource K deployableStandaloneCRDLoop releaseNamespace
                (K.NewReleaseMetadataPatcher releaseName releaseNamespace
                  :: opts.DeployableStandaloneCRDsPatchers) res m0).2 = Except.ok out)
              crds patched)
    ∧ ((buildDeployableHookResources K p m).err = none →
        ∃ patched, DeployableHookResources (buildDeployableHookResources K p m).p
            = SliceStable (resourceLess K) patched
          ∧ List.Forall₂ (fun res out => ∃ m0,
              (patchResource K deployableHookLoop releaseNamespace
                (K.NewReleaseMetadataPatcher releaseName releaseNamespace
                  :: opts.DeployableHookResourcePatchers) res m0).2 = Except.ok out)
              (hooks.filter (hookMatchesDeployType deployType)) patched)
    ∧ ((buildDeployableGeneralResources K p m).err = none →
        ∃ patched, DeployableGeneralResources (buildDeployableGeneralResources K p m).p
            = SliceStable (resourceLess K) patched
          ∧ List.Forall₂ (fun res out => ∃ m0,
              (patchResource K deployableGeneralLoop releaseNamespace
                (K.NewReleaseMetadataPatcher releaseName releaseNamespace
                  :: opts.DeployableGeneralResourcePatchers) res m0).2 = Except.ok out)
              gens patched) := by
  subst hp
  refine ⟨rfl, rfl, rfl, rfl, rfl, ?_, ?_, ?_, ?_, ?_⟩
  · intro popts hopts
    subst hopts
    exact ⟨rfl, rfl⟩
  · intro L callers res m0
    exact patchLoop_head K L releaseNamespace _ callers res m0
  · intro h
    obtain ⟨m1, patched, hpatched, hq⟩ := buildDeployableStandaloneCRDs_ok K _ m h
    refine ⟨patched, by rw [hq]; rfl, ?_⟩
    exact patchResources_ok K _ _ _ _ _ _ _ hpatched
  · intro h
    obtain ⟨m1, patched, hpatched, hq⟩ := buildDeployableHookResources_ok K _ m h
    refine ⟨patched, by rw [hq]; rfl, ?_⟩
    exact patchResources_ok K _ _ _ _ _ _ _ hpatched
  · intro h
    obtain ⟨m1, patched, hpatched, hq⟩ := buildDeployableGeneralResources_ok K _ m h
    refine ⟨patched, by rw [hq]; rfl, ?_⟩
    exact patchResources_ok K _ _ _ _ _ _ _ hpatched

/-- C23, on a caller that gives the extra-metadata patcher for the releasable and for the
deployable general stack: the deployable stack is release-metadata, extra-metadata; the
releasable stack is extra-metadata alone. -/
theorem releaseMetadataPatcher_first_witness :
    (sampleProcessor DeployType.DeployTypeInitial [] [] [webDeployment]
        stackedOptions).deployableGeneralResourcePatchers.map (fun P => P.Typ)
      = ["release-metadata", "extra-metadata"]
    ∧ (sampleProcessor DeployType.DeployTypeInitial [] [] [webDeployment]
        stackedOptions).releasableGeneralResourcePatchers.map (fun P => P.Typ)
      = ["extra-metadata"]
    ∧ (sampleProcessor DeployType.DeployTypeInitial [] [] [webDeployment]
        stackedOptions).deployableGeneralResourcePatchers
      = sampleExt.NewReleaseMetadataPatcher "app" "prod"
        :: stackedOptions.DeployableGeneralResourcePatchers :=
  ⟨by decide, by decide,
   (releaseMetadataPatcher_first sampleExt DeployType.DeployTypeInitial "app" "prod" [] []
      [webDeployment] [] stackedOptions _ rfl { next := 40, log := [] }).2.2.1⟩

/-! ## Properties of the annotation helpers -/

/-- Setting a key that the map does not have adds the entry at the end. -/
theorem mapSet_new (m : StrMap) (key value : String)
    (h : ∀ kv ∈ m, kv.1 ≠ key) : mapSet m key value = m ++ [(key, value)] := by
  unfold mapSet
  have hany : m.any (fun kv => kv.1 == key) = false := by
    rw [List.any_eq_false]
    intro kv hkv
    simpa using h kv hkv
  rw [hany]
  rfl

/-- The loop of `FindAnnotationsOrLabelsByKeyPattern` over entries with pairwise distinct
keys that the result does not have yet: the matching entries, trimmed, are added in the
order they are visited. -/
theorem collect_matching (U : UtilExt) (pattern : Regexp) :
    ∀ (entries acc : StrMap),
      (entries.map (fun kv => kv.1)).Nodup →
      (∀ kv ∈ entries, ∀ kv' ∈ acc, kv'.1 ≠ kv.1) →
      entries.foldl
          (fun result kv =>
            if pattern.MatchString kv.1 then mapSet result kv.1 (U.TrimSpace kv.2)
            else result) acc
        = acc ++ matchingEntries U pattern entries := by
  intro entries
  induction entries with
  | nil => intro acc _ _; simp [matchingEntries]
  | cons kv rest ih =>
    intro acc hnodup hacc
    simp only [List.map_cons, List.nodup_cons] at hnodup
    simp only [List.foldl_cons]
    by_cases hm : pattern.MatchString kv.1 = true
    · rw [if_pos hm, mapSet_new acc kv.1 _ (fun kv' hkv' => hacc kv (List.mem_cons_self _ _) kv' hkv')]
      rw [ih _ hnodup.2]
      · simp only [matchingEntries, List.filterMap_cons, hm, if_true, List.append_assoc,
          List.singleton_append]
      · intro kv2 hkv2 kv' hkv'
        rcases List.mem_append.mp hkv' with hkv' | hkv'
        · exact hacc kv2 (List.mem_cons_of_mem _ hkv2) kv' hkv'
        · rw [List.mem_singleton] at hkv'
          subst hkv'
          intro e
          exact hnodup.1 (List.mem_map.mpr ⟨kv2, hkv2, e.symm⟩)
    · rw [if_neg hm, ih _ hnodup.2
        (fun kv2 hkv2 kv' hkv' => hacc kv2 (List.mem_cons_of_mem _ hkv2) kv' hkv')]
      simp only [matchingEntries, List.filterMap_cons, hm, if_false]
      rfl

/-- An entry of the matching entries comes from an entry of the map with a matching key. -/
theorem mem_matchingEntries (U : UtilExt) (pattern : Regexp) (entries : StrMap)
    (key value : String) :
    (key, value) ∈ matchingEntries U pattern entries
      ↔ ∃ kv ∈ entries, pattern.MatchString kv.1 = true ∧ key = kv.1
          ∧ value = U.TrimSpace kv.2 := by
  unfold matchingEntries
  rw [List.mem_filterMap]
  constructor
  · rintro ⟨kv, hkv, h⟩
    by_cases hm : pattern.MatchString kv.1 = true
    · rw [if_pos hm] at h
      injection h with h
      injection h with h1 h2
      exact ⟨kv, hkv, hm, h1.symm, h2.symm⟩
    · rw [if_neg hm] at h
      cases h
  · rintro ⟨kv, hkv, hm, rfl, rfl⟩
    exact ⟨kv, hkv, by rw [if_pos hm]⟩

/-- In a map, the value at the key of an entry is the value of the entry. -/
theorem mapIndex_of_mem :
    ∀ (m : StrMap), IsGoMap m → ∀ kv ∈ m, mapIndex m kv.1 = kv.2 := by
  intro m
  induction m with
  | nil => intro _ kv h; cases h
  | cons first rest ih =>
    intro hmap kv hkv
    unfold IsGoMap at hmap
    simp only [List.map_cons, List.nodup_cons] at hmap
    rcases List.mem_cons.mp hkv with rfl | hkv
    · simp [mapIndex, List.lookup]
    · have hne : kv.1 ≠ first.1 := by
        intro e
        exact hmap.1 (e ▸ List.mem_map.mpr ⟨kv, hkv, rfl⟩)
      have hbeq : (kv.1 == first.1) = false := by simpa using hne
      have := ih hmap.2 kv hkv
      unfold mapIndex at this ⊢
      obtain ⟨k, v⟩ := first
      simp only [List.lookup, hbeq]
      exact this

/-- What `FindAnnotationsOrLabelsByKeyPattern` returns on a map: the matching entries,
trimmed, in the order of the range, and whether there is one. -/
theorem plural_eq (U : UtilExt) (a : StrMap) (pattern : Regexp)
    (hmap : IsGoMap a) (horder : (U.rangeOrder a).Perm a) :
    FindAnnotationsOrLabelsByKeyPattern U a pattern
      = (matchingEntries U pattern (U.rangeOrder a),
         decide ((matchingEntries U pattern (U.rangeOrder a)).length > 0)) := by
  unfold FindAnnotationsOrLabelsByKeyPattern
  have hnodup : ((U.rangeOrder a).map (fun kv => kv.1)).Nodup :=
    (horder.map _).nodup_iff.mpr hmap
  have := collect_matching U pattern (U.rangeOrder a) [] hnodup (fun _ _ _ h => by cases h)
  rw [List.nil_append] at this
  simp only [this]

/-- What `FindAnnotationOrLabelByKeyPattern` returns on a map: an entry of the map with a
matching key, its value trimmed, when there is one; the zero values otherwise. -/
theorem singular_cases (U : UtilExt) (a : StrMap) (pattern : Regexp)
    (hmap : IsGoMap a) (horder : (U.rangeOrder a).Perm a) :
    (∃ kv ∈ a, pattern.MatchString kv.1 = true
        ∧ FindAnnotationOrLabelByKeyPattern U a pattern = (kv.1, U.TrimSpace kv.2, true))
    ∨ ((∀ kv ∈ a, pattern.MatchString kv.1 = false)
        ∧ FindAnnotationOrLabelByKeyPattern U a pattern = ("", "", false)) := by
  unfold FindAnnotationOrLabelByKeyPattern FindKeyBy
  cases hf : (U.rangeOrder a).find? (fun kv => pattern.MatchString kv.1) with
  | some kv =>
    left
    have hkv : kv ∈ a := horder.subset (List.mem_of_find?_eq_some hf)
    have hm : pattern.MatchString kv.1 = true := by
      have hall := List.find?_eq_some.mp hf
      exact hall.1
    refine ⟨kv, hkv, hm, ?_⟩
    simp only [if_true, mapIndex_of_mem a hmap kv hkv]
  | none =>
    right
    rw [List.find?_eq_none] at hf
    refine ⟨fun kv hkv => ?_, by simp⟩
    have := hf kv (horder.symm.subset hkv)
    simpa using this

/-- The two helpers on a map, each with its own order of ranging: the entries of the plural
result are the matching entries of the map, trimmed; the found flags agree; the singular
result is an entry of the plural result when found, and zero values otherwise. -/
theorem singular_plural (U : UtilExt) (order2 : StrMap → StrMap) (a : StrMap)
    (pattern : Regexp) (hmap : IsGoMap a) (h1 : IsRangeOrder U.rangeOrder)
    (h2 : IsRangeOrder order2) :
    (∀ key value,
        (key, value) ∈ (FindAnnotationsOrLabelsByKeyPattern (withRangeOrder U order2) a
            pattern).1
          ↔ ∃ kv ∈ a, pattern.MatchString kv.1 = true ∧ key = kv.1
              ∧ value = U.TrimSpace kv.2)
    ∧ (FindAnnotationOrLabelByKeyPattern U a pattern).2.2
        = (FindAnnotationsOrLabelsByKeyPattern (withRangeOrder U order2) a pattern).2
    ∧ ((FindAnnotationOrLabelByKeyPattern U a pattern).2.2 = true ↔
        ∃ kv ∈ a, pattern.MatchString kv.1 = true)
    ∧ ((FindAnnotationOrLabelByKeyPattern U a pattern).2.2 = true →
        ((FindAnnotationOrLabelByKeyPattern U a pattern).1,
          (FindAnnotationOrLabelByKeyPattern U a pattern).2.1)
          ∈ (FindAnnotationsOrLabelsByKeyPattern (withRangeOrder U order2) a pattern).1)
    ∧ ((FindAnnotationOrLabelByKeyPattern U a pattern).2.2 = false →
        (FindAnnotationOrLabelByKeyPattern U a pattern).1 = ""
        ∧ (FindAnnotationOrLabelByKeyPattern U a pattern).2.1 = "") := by
  have hp := plural_eq (withRangeOrder U order2) a pattern hmap (h2 a)
  have hmem : ∀ key value,
      (key, value) ∈ (FindAnnotationsOrLabelsByKeyPattern (withRangeOrder U order2) a
          pattern).1
        ↔ ∃ kv ∈ a, pattern.MatchString kv.1 = true ∧ key = kv.1
            ∧ value = U.TrimSpace kv.2 := by
    intro key value
    rw [hp]
    simp only
    rw [mem_matchingEntries]
    constructor
    · rintro ⟨kv, hkv, hrest⟩
      exact ⟨kv, (h2 a).subset hkv, hrest⟩
    · rintro ⟨kv, hkv, hrest⟩
      exact ⟨kv, (h2 a).symm.subset hkv, hrest⟩
  have hfound : (FindAnnotationsOrLabelsByKeyPattern (withRangeOrder U order2) a pattern).2
      = true ↔ ∃ kv ∈ a, pattern.MatchString kv.1 = true := by
    constructor
    · intro h
      rw [hp] at h
      simp only [decide_eq_true_eq] at h
      obtain ⟨⟨key, value⟩, hkv⟩ := List.exists_mem_of_length_pos h
      have := (hmem key value).mp (by rw [hp]; exact hkv)
      obtain ⟨kv, hkv', hm, -⟩ := this
      exact ⟨kv, hkv', hm⟩
    · rintro ⟨kv, hkv, hm⟩
      have := (hmem kv.1 (U.TrimSpace kv.2)).mpr ⟨kv, hkv, hm, rfl, rfl⟩
      rw [hp] at this ⊢
      simp only [decide_eq_true_eq]
      exact List.length_pos_of_mem this
  rcases singular_cases U a pattern hmap (h1 a) with ⟨kv, hkv, hm, hs⟩ | ⟨hnone, hs⟩
  · refine ⟨hmem, ?_, ?_, ?_, ?_⟩
    · rw [hs]
      exact (hfound.mpr ⟨kv, hkv, hm⟩).symm
    · rw [hs]
      exact ⟨fun _ => ⟨kv, hkv, hm⟩, fun _ => rfl⟩
    · intro _
      rw [hs]
      exact (hmem _ _).mpr ⟨kv, hkv, hm, rfl, rfl⟩
    · intro h
      rw [hs] at h
      cases h
  · have hnot : ¬ ∃ kv ∈ a, pattern.MatchString kv.1 = true := by
      rintro ⟨kv, hkv, hm⟩
      rw [hnone kv hkv] at hm
      cases hm
    refine ⟨hmem, ?_, ?_, ?_, ?_⟩
    · rw [hs]
      cases hb : (FindAnnotationsOrLabelsByKeyPattern (withRangeOrder U order2) a
          pattern).2 with
      | false => rfl
      | true => exact absurd (hfound.mp hb) hnot
    · rw [hs]
      exact ⟨fun h => (by cases h), fun h => absurd h hnot⟩
    · intro h
      rw [hs] at h
      cases h
    · intro _
      rw [hs]
      exact ⟨rfl, rfl⟩

/-- C24: on every annotation map, `IsHook` is true iff some key matches the hook pattern -
whatever the values and the other keys, and whatever the order in which the map is ranged
over; it equals the found flag of `FindAnnotationsOrLabelsByKeyPattern` with the hook
pattern. For every pattern, when `FindAnnotationOrLabelByKeyPattern` reports found, the key
and the value it returns are an entry of the plural result, the value being the trimmed
value of that key in the map; when it reports not found, key and value are empty. -/
theorem isHook_iff_key_matches (U : UtilExt) (order2 : StrMap → StrMap) (a : StrMap)
    (hmap : IsGoMap a) (h1 : IsRangeOrder U.rangeOrder) (h2 : IsRangeOrder order2) :
    (IsHook U a = true ↔ ∃ kv ∈ a, U.annotationKeyPatternHook.MatchString kv.1 = true)
    ∧ IsHook U a
        = (FindAnnotationsOrLabelsByKeyPattern (withRangeOrder U order2) a
            U.annotationKeyPatternHook).2
    ∧ ∀ pattern : Regexp,
        ((FindAnnotationOrLabelByKeyPattern U a pattern).2.2 = true →
          ((FindAnnotationOrLabelByKeyPattern U a pattern).1,
            (FindAnnotationOrLabelByKeyPattern U a pattern).2.1)
            ∈ (FindAnnotationsOrLabelsByKeyPattern (withRangeOrder U order2) a pattern).1
          ∧ ∃ kv ∈ a, pattern.MatchString kv.1 = true
              ∧ (FindAnnotationOrLabelByKeyPattern U a pattern).1 = kv.1
              ∧ (FindAnnotationOrLabelByKeyPattern U a pattern).2.1 = U.TrimSpace kv.2)
        ∧ ((FindAnnotationOrLabelByKeyPattern U a pattern).2.2 = false →
            (FindAnnotationOrLabelByKeyPattern U a pattern).1 = ""
            ∧ (FindAnnotationOrLabelByKeyPattern U a pattern).2.1 = "")
        ∧ (∀ key value,
            (key, value) ∈ (FindAnnotationsOrLabelsByKeyPattern (withRangeOrder U order2) a
                pattern).1
              ↔ ∃ kv ∈ a, pattern.MatchString kv.1 = true ∧ key = kv.1
                  ∧ value = U.TrimSpace kv.2) := by
  obtain ⟨-, hflag, hiff, -, -⟩ :=
    singular_plural U order2 a U.annotationKeyPatternHook hmap h1 h2
  refine ⟨hiff, hflag, ?_⟩
  intro pattern
  obtain ⟨hmem, -, -, hin, hzero⟩ := singular_plural U order2 a pattern hmap h1 h2
  refine ⟨fun h => ⟨hin h, (hmem _ _).mp (hin h)⟩, hzero, hmem⟩

/-- C24, on the annotations of a hook, ranged over in list order by the singular helper and
in reverse by the plural one: `IsHook` is true, the singular helper returns the hook
annotation with its value trimmed, and that entry is in the plural result. -/
theorem isHook_iff_key_matches_witness :
    IsHook sampleUtilExt hookAnnotations = true
    ∧ FindAnnotationOrLabelByKeyPattern sampleUtilExt hookAnnotations sampleHookPattern
        = ("helm.sh/hook", "pre-install", true)
    ∧ FindAnnotationsOrLabelsByKeyPattern (withRangeOrder sampleUtilExt List.reverse)
        hookAnnotations sampleHookPattern
        = ([("helm.sh/hook-weight", "5"), ("helm.sh/hook", "pre-install")], true)
    ∧ IsHook sampleUtilExt hookAnnotations
        = (FindAnnotationsOrLabelsByKeyPattern (withRangeOrder sampleUtilExt List.reverse)
            hookAnnotations sampleUtilExt.annotationKeyPatternHook).2 :=
  ⟨by decide, by decide, by decide,
   (isHook_iff_key_matches sampleUtilExt List.reverse hookAnnotations
      (by unfold IsGoMap; decide)
      (fun _ => List.Perm.refl _) (fun m => List.reverse_perm m)).2.1⟩

/-! ## Properties of the permit formula -/

/-- The permit formula for a class of `n` resources out of `t`, with a parallelism of
at least 1: `p` when the class holds all the resources, 1 otherwise. -/
theorem limitFormula_cases (n t p : Int) (hn : 0 ≤ n) (hnt : n ≤ t) (hp1 : 1 ≤ p) :
    limitFormula n t p = if n = t ∧ 0 < t then p else 1 := by
  unfold limitFormula
  by_cases hc : n = t ∧ 0 < t
  · obtain ⟨rfl, hpos⟩ := hc
    have hmax : max n 1 = n := max_eq_left (by omega)
    rw [if_pos ⟨rfl, hpos⟩, hmax, Int.ediv_self (by omega), Int.one_mul]
    exact max_eq_left hp1
  · have hlt : n < max t 1 := by
      rcases lt_or_eq_of_le hnt with h | h
      · exact lt_of_lt_of_le h (le_max_left _ _)
      · have : t ≤ 0 := by
          by_contra hcon
          exact hc ⟨h, by omega⟩
        exact lt_of_le_of_lt (by omega) (lt_of_lt_of_le Int.zero_lt_one (le_max_right _ _))
    rw [if_neg hc, Int.ediv_eq_zero_of_lt hn hlt, Int.zero_mul]
    exact max_eq_right (by omega)

/-- The `routines` expression of the code, in Go `int` arithmetic, has the value of the
permit formula. -/
theorem routines_eq_limitFormula (n t p : Int) (hn : 0 ≤ n) (hnt : n ≤ t) (ht : t < 2 ^ 63)
    (hp1 : 1 ≤ p) (hp2 : p < 2 ^ 63) :
    routines n t p = limitFormula n t p := by
  rw [limitFormula_cases n t p hn hnt hp1]
  obtain ⟨hall, hpart⟩ := routines_eq n t p hn hnt ht hp1 hp2
  by_cases hc : n = t ∧ 0 < t
  · rw [if_pos hc, hall hc]
  · rw [if_neg hc, hpart hc]

/-- C25: for a parallelism `p` of at least 1, the limit of each of the four pools of
`BuildDeployableResourceInfos` is `max(floor(n / max(t, 1)) * p, 1)` for its class size `n`
and the grand total `t`, the division applied before the multiplication; this is `p` when
the class holds all the resources (`n = t > 0`) and 1 in every other case, so 1 for an empty
class; and when at least two classes are not empty, all four limits are 1 and sum to 4. -/
theorem pool_limit_formula (K : Ext) (releaseNamespace : String)
    (standaloneCRDs hookResources generalResources prevRel : List Resource) (parallelism : Int)
    (hp1 : 1 ≤ parallelism) (hp2 : parallelism < 2 ^ 63)
    (hlen : ((standaloneCRDs.length + hookResources.length + generalResources.length
      + prevRel.length : Nat) : Int) < 2 ^ 63) :
    (infoPools K releaseNamespace standaloneCRDs hookResources generalResources prevRel
        parallelism).limits
      = [limitFormula standaloneCRDs.length
            ((standaloneCRDs.length + hookResources.length + generalResources.length
              + prevRel.length : Nat) : Int) parallelism,
          limitFormula hookResources.length
            ((standaloneCRDs.length + hookResources.length + generalResources.length
              + prevRel.length : Nat) : Int) parallelism,
          limitFormula generalResources.length
            ((standaloneCRDs.length + hookResources.length + generalResources.length
              + prevRel.length : Nat) : Int) parallelism,
          limitFormula prevRel.length
            ((standaloneCRDs.length + hookResources.length + generalResources.length
              + prevRel.length : Nat) : Int) parallelism]
    ∧ (∀ n t : Nat, n ≤ t →
        limitFormula n t parallelism = if n = t ∧ 0 < t then parallelism else 1)
    ∧ (∀ t : Nat, limitFormula 0 t parallelism = 1)
    ∧ (2 ≤ (List.filter (fun n => decide (0 < n))
          [standaloneCRDs.length, hookResources.length, generalResources.length,
            prevRel.length]).length →
        (infoPools K releaseNamespace standaloneCRDs hookResources generalResources prevRel
          parallelism).limits = [1, 1, 1, 1]
        ∧ ((infoPools K releaseNamespace standaloneCRDs hookResources generalResources prevRel
          parallelism).limits).sum = 4) := by
  have hcast : ((standaloneCRDs.length : Int) + hookResources.length + generalResources.length
      + prevRel.length) = ((standaloneCRDs.length + hookResources.length
        + generalResources.length + prevRel.length : Nat) : Int) := by push_cast; rfl
  have htot : wrapInt ((standaloneCRDs.length : Int) + hookResources.length
      + generalResources.length + prevRel.length)
      = ((standaloneCRDs.length + hookResources.length + generalResources.length
        + prevRel.length : Nat) : Int) := by
    rw [hcast]
    exact wrapInt_of_range _ (by omega) hlen
  have key : ∀ n : Nat, n ≤ standaloneCRDs.length + hookResources.length
      + generalResources.length + prevRel.length →
      routines n ((standaloneCRDs.length + hookResources.length + generalResources.length
          + prevRel.length : Nat) : Int) parallelism
        = limitFormula n ((standaloneCRDs.length + hookResources.length
          + generalResources.length + prevRel.length : Nat) : Int) parallelism := by
    intro n hn
    exact routines_eq_limitFormula _ _ _ (by omega) (by omega) hlen hp1 hp2
  have hcases : ∀ n t : Nat, n ≤ t →
      limitFormula n t parallelism = if n = t ∧ 0 < t then parallelism else 1 := by
    intro n t hnt
    rw [limitFormula_cases n t parallelism (by omega) (by omega) hp1]
    by_cases hc : n = t ∧ 0 < t
    · rw [if_pos hc, if_pos ⟨by exact_mod_cast hc.1, by exact_mod_cast hc.2⟩]
    · rw [if_neg hc, if_neg]
      rintro ⟨h1, h2⟩
      exact hc ⟨by exact_mod_cast h1, by exact_mod_cast h2⟩
  have hlimits : (infoPools K releaseNamespace standaloneCRDs hookResources generalResources
      prevRel parallelism).limits
      = [limitFormula standaloneCRDs.length
            ((standaloneCRDs.length + hookResources.length + generalResources.length
              + prevRel.length : Nat) : Int) parallelism,
          limitFormula hookResources.length
            ((standaloneCRDs.length + hookResources.length + generalResources.length
              + prevRel.length : Nat) : Int) parallelism,
          limitFormula generalResources.length
            ((standaloneCRDs.length + hookResources.length + generalResources.length
              + prevRel.length : Nat) : Int) parallelism,
          limitFormula prevRel.length
            ((standaloneCRDs.length + hookResources.length + generalResources.length
              + prevRel.length : Nat) : Int) parallelism] := by
    simp only [infoPools, newPool, InfoPools.limits, htot]
    rw [key standaloneCRDs.length (by omega), key hookResources.length (by omega),
      key generalResources.length (by omega), key prevRel.length (by omega)]
  refine ⟨hlimits, hcases, ?_, ?_⟩
  · intro t
    have := hcases 0 t (Nat.zero_le _)
    rw [Nat.cast_zero] at this
    rw [this, if_neg]
    · rintro ⟨h1, h2⟩
      omega
  · intro htwo
    have hlt : standaloneCRDs.length < standaloneCRDs.length + hookResources.length
          + generalResources.length + prevRel.length
        ∧ hookResources.length < standaloneCRDs.length + hookResources.length
          + generalResources.length + prevRel.length
        ∧ generalResources.length < standaloneCRDs.length + hookResources.length
          + generalResources.length + prevRel.length
        ∧ prevRel.length < standaloneCRDs.length + hookResources.length
          + generalResources.length + prevRel.length := by
      by_cases h1 : 0 < standaloneCRDs.length <;> by_cases h2 : 0 < hookResources.length <;>
        by_cases h3 : 0 < generalResources.length <;> by_cases h4 : 0 < prevRel.length <;>
        simp [List.filter_cons, h1, h2, h3, h4] at htwo <;> omega
    obtain ⟨l1, l2, l3, l4⟩ := hlt
    have hone : ∀ n : Nat, n < standaloneCRDs.length + hookResources.length
        + generalResources.length + prevRel.length →
        limitFormula n ((standaloneCRDs.length + hookResources.length
          + generalResources.length + prevRel.length : Nat) : Int) parallelism = 1 := by
      intro n hn
      rw [hcases n _ (Nat.le_of_lt hn), if_neg]
      rintro ⟨h1, -⟩
      omega
    rw [hlimits, hone _ l1, hone _ l2, hone _ l3, hone _ l4]
    exact ⟨rfl, rfl⟩

/-- C25, with a parallelism of 30: one general resource alone gets the limit 30 and the
empty classes 1; with a hook besides it, all four limits are 1. -/
theorem pool_limit_formula_witness :
    (infoPools sampleExt "prod" [] [] [webDeployment] [] 30).limits = [1, 1, 30, 1]
    ∧ (infoPools sampleExt "prod" [] [preInstallJob] [webDeployment] [] 30).limits = [1, 1, 1, 1]
    ∧ ((infoPools sampleExt "prod" [] [preInstallJob] [webDeployment] [] 30).limits).sum = 4 :=
  ⟨by decide,
   ((pool_limit_formula sampleExt "prod" [] [preInstallJob] [webDeployment] [] 30 (by decide)
      (by decide) (by decide)).2.2.2 (by decide)).1,
   ((pool_limit_formula sampleExt "prod" [] [preInstallJob] [webDeployment] [] 30 (by decide)
      (by decide) (by decide)).2.2.2 (by decide)).2⟩

/-! ## The types given to the patchers of standalone CRDs -/

/-- C26, evaluated on the standalone CRD `widgets.example.com`: in
`buildDeployableStandaloneCRDs` the release-metadata patcher is given the type
`TypeHookResource` by `Match` and the type `TypeStandaloneCRD` by `Patch` for one and the
same CRD, whereas `buildDeployableHookResources` and `buildDeployableGeneralResources` give
one type to both calls. -/
theorem standaloneCRD_match_type_differs :
    matchCallTypes (buildDeployableStandaloneCRDs sampleExt
        (sampleProcessor DeployType.DeployTypeInitial [widgetCRD] [] [] bareOptions)
        { next := 200, log := [] }).mem.log
      = [("release-metadata", ResourceType.TypeHookResource)]
    ∧ patchCallTypes (buildDeployableStandaloneCRDs sampleExt
        (sampleProcessor DeployType.DeployTypeInitial [widgetCRD] [] [] bareOptions)
        { next := 200, log := [] }).mem.log
      = [("release-metadata", ResourceType.TypeStandaloneCRD)]
    ∧ matchCallTypes (buildDeployableHookResources sampleExt
        (sampleProcessor DeployType.DeployTypeInitial [] [preInstallJob] [] bareOptions)
        { next := 200, log := [] }).mem.log
      = [("release-metadata", ResourceType.TypeHookResource)]
    ∧ patchCallTypes (buildDeployableHookResources sampleExt
        (sampleProcessor DeployType.DeployTypeInitial [] [preInstallJob] [] bareOptions)
        { next := 200, log := [] }).mem.log
      = [("release-metadata", ResourceType.TypeHookResource)]
    ∧ matchCallTypes (buildDeployableGeneralResources sampleExt
        (sampleProcessor DeployType.DeployTypeInitial [] [] [webDeployment] bareOptions)
        { next := 200, log := [] }).mem.log
      = [("release-metadata", ResourceType.TypeGeneralResource)]
    ∧ patchCallTypes (buildDeployableGeneralResources sampleExt
        (sampleProcessor DeployType.DeployTypeInitial [] [] [webDeployment] bareOptions)
        { next := 200, log := [] }).mem.log
      = [("release-metadata", ResourceType.TypeGeneralResource)]
    ∧ (matchInfoOf deployableStandaloneCRDLoop widgetCRD).Typ
      ≠ (patchInfoOf deployableStandaloneCRDLoop widgetCRD widgetCRD.unstruct).Typ := by
  refine ⟨by decide, by decide, by decide, by decide, by decide, by decide, by decide⟩

/-! ## The text of the release-namespace error -/

/-- C27, evaluated on a chart that gives the release namespace `prod` as a resource: the
error of `validateNoDuplicates` reads `release namespace %!q(MISSING) cannot be deployed as
part of the release`; it does not contain the name of the namespace, quoted or not. With the
namespace given twice - a duplicate besides - the error is the same one: the namespace is
checked before the duplicates. -/
theorem namespace_error_lacks_name :
    validateNoDuplicates sampleExt
        (sampleProcessor DeployType.DeployTypeInitial [] [] [prodNamespace] bareOptions)
      = some "release namespace %!q(MISSING) cannot be deployed as part of the release"
    ∧ containsText
        "release namespace %!q(MISSING) cannot be deployed as part of the release"
        (quote "prod") = false
    ∧ containsText
        "release namespace %!q(MISSING) cannot be deployed as part of the release"
        "prod" = false
    ∧ validateNoDuplicates sampleExt
        (sampleProcessor DeployType.DeployTypeInitial [] []
          [webDeployment, prodNamespace, webDeployment, prodNamespace] bareOptions)
      = some "release namespace %!q(MISSING) cannot be deployed as part of the release"
    ∧ validateNoDuplicates sampleExt
        (sampleProcessor DeployType.DeployTypeInitial [] []
          [webDeployment, webDeployment] bareOptions)
      = some "duplicated resources found: Deployment/web, Deployment/web" := by
  refine ⟨by decide, by decide, by decide, by decide, by decide⟩

/-! ## Properties of a failing reconciliation -/

/-- The values `BuildDeployableResourceInfos` returns with an error: no namespace info and
no list. -/
theorem infosFailure_empty (err : String) :
    (infosFailure err).releaseNamespaceInfo = none
    ∧ (infosFailure err).standaloneCRDsInfos = []
    ∧ (infosFailure err).hookResourcesInfos = []
    ∧ (infosFailure err).generalResourcesInfos = []
    ∧ (infosFailure err).prevReleaseGeneralResourceInfos = []
    ∧ (infosFailure err).err = some err :=
  ⟨rfl, rfl, rfl, rfl, rfl, rfl⟩

/-- The outcome of waiting for the four pools in order: the failure of the first pool whose
`Wait` returns an error, or the four sorted lists. -/
theorem waitAndSort_cases (K : Ext) (pools : InfoPools) :
    (∃ e, pools.standaloneCRDsPool.Wait K = Except.error e
        ∧ waitAndSort K pools
          = infosFailure (wrapErr "error waiting for standalone crds pool" e))
    ∨ (∃ o1 e, pools.standaloneCRDsPool.Wait K = Except.ok o1
        ∧ pools.hookResourcesPool.Wait K = Except.error e
        ∧ waitAndSort K pools
          = infosFailure (wrapErr "error waiting for hook resources pool" e))
    ∨ (∃ o1 o2 e, pools.standaloneCRDsPool.Wait K = Except.ok o1
        ∧ pools.hookResourcesPool.Wait K = Except.ok o2
        ∧ pools.generalResourcesPool.Wait K = Except.error e
        ∧ waitAndSort K pools
          = infosFailure (wrapErr "error waiting for general resources pool" e))
    ∨ (∃ o1 o2 o3 e, pools.standaloneCRDsPool.Wait K = Except.ok o1
        ∧ pools.hookResourcesPool.Wait K = Except.ok o2
        ∧ pools.generalResourcesPool.Wait K = Except.ok o3
        ∧ pools.prevReleaseGeneralResourcesPool.Wait K = Except.error e
        ∧ waitAndSort K pools
          = infosFailure (wrapErr "error waiting for general resources pool" e))
    ∨ (∃ o1 o2 o3 o4, pools.standaloneCRDsPool.Wait K = Except.ok o1
        ∧ pools.hookResourcesPool.Wait K = Except.ok o2
        ∧ pools.generalResourcesPool.Wait K = Except.ok o3
        ∧ pools.prevReleaseGeneralResourcesPool.Wait K = Except.ok o4
        ∧ waitAndSort K pools
          = { releaseNamespaceInfo := none
              standaloneCRDsInfos := SliceStable (infoLess K) o1
              hookResourcesInfos := SliceStable (infoLess K) o2
              generalResourcesInfos := SliceStable (infoLess K) o3
              prevReleaseGeneralResourceInfos := SliceStable (infoLess K) o4
              err := none }) := by
  unfold waitAndSort
  cases h1 : pools.standaloneCRDsPool.Wait K with
  | error e => exact Or.inl ⟨e, rfl, rfl⟩
  | ok o1 =>
    cases h2 : pools.hookResourcesPool.Wait K with
    | error e => exact Or.inr (Or.inl ⟨o1, e, rfl, rfl, rfl⟩)
    | ok o2 =>
      cases h3 : pools.generalResourcesPool.Wait K with
      | error e => exact Or.inr (Or.inr (Or.inl ⟨o1, o2, e, rfl, rfl, rfl, rfl⟩))
      | ok o3 =>
        cases h4 : pools.prevReleaseGeneralResourcesPool.Wait K with
        | error e =>
          exact Or.inr (Or.inr (Or.inr (Or.inl ⟨o1, o2, o3, e, rfl, rfl, rfl, rfl, rfl⟩)))
        | ok o4 =>
          exact Or.inr (Or.inr (Or.inr (Or.inr ⟨o1, o2, o3, o4, rfl, rfl, rfl, rfl, rfl⟩)))

/-- C28: `BuildDeployableResourceInfos` returns no release-namespace info on any path.
When it returns an error, the four info lists are empty, and the error is the wrapped error
of the first pool, in the order standalone CRDs, hooks, generals, previous-release
generals, whose `Wait` fails; it returns no error exactly when the four pools succeed. The
processor takes what is returned: after a failing `buildDeployableResourceInfos` its four
info lists are empty and it has no namespace info, and so they are after a `Process` that
fails at this stage. -/
theorem infos_failure_and_namespace (K : Ext) (ns : String)
    (crds hooks gens prev : List Resource) (par : Int) (p : DeployableResourcesProcessor)
    (m : Mem) :
    (BuildDeployableResourceInfos K ns crds hooks gens prev par).releaseNamespaceInfo = none
    ∧ ((BuildDeployableResourceInfos K ns crds hooks gens prev par).err ≠ none →
        (BuildDeployableResourceInfos K ns crds hooks gens prev par).standaloneCRDsInfos = []
        ∧ (BuildDeployableResourceInfos K ns crds hooks gens prev par).hookResourcesInfos = []
        ∧ (BuildDeployableResourceInfos K ns crds hooks gens prev par).generalResourcesInfos
            = []
        ∧ (BuildDeployableResourceInfos K ns crds hooks gens prev
            par).prevReleaseGeneralResourceInfos = [])
    ∧ (∀ e, (infoPools K ns crds hooks gens prev par).standaloneCRDsPool.Wait K
          = Except.error e →
        (BuildDeployableResourceInfos K ns crds hooks gens prev par).err
          = some (wrapErr "error waiting for standalone crds pool" e))
    ∧ (∀ o1 e, (infoPools K ns crds hooks gens prev par).standaloneCRDsPool.Wait K
          = Except.ok o1 →
        (infoPools K ns crds hooks gens prev par).hookResourcesPool.Wait K
          = Except.error e →
        (BuildDeployableResourceInfos K ns crds hooks gens prev par).err
          = some (wrapErr "error waiting for hook resources pool" e))
    ∧ (∀ o1 o2 e, (infoPools K ns crds hooks gens prev par).standaloneCRDsPool.Wait K
          = Except.ok o1 →
        (infoPools K ns crds hooks gens prev par).hookResourcesPool.Wait K = Except.ok o2 →
        (infoPools K ns crds hooks gens prev par).generalResourcesPool.Wait K
          = Except.error e →
        (BuildDeployableResourceInfos K ns crds hooks gens prev par).err
          = some (wrapErr "error waiting for general resources pool" e))
    ∧ (∀ o1 o2 o3 e, (infoPools K ns crds hooks gens prev par).standaloneCRDsPool.Wait K
          = Except.ok o1 →
        (infoPools K ns crds hooks gens prev par).hookResourcesPool.Wait K = Except.ok o2 →
        (infoPools K ns crds hooks gens prev par).generalResourcesPool.Wait K
          = Except.ok o3 →
        (infoPools K ns crds hooks gens prev par).prevReleaseGeneralResourcesPool.Wait K
          = Except.error e →
        (BuildDeployableResourceInfos K ns crds hooks gens prev par).err
          = some (wrapErr "error waiting for general resources pool" e))
    ∧ ((BuildDeployableResourceInfos K ns crds hooks gens prev par).err = none ↔
        ∃ o1 o2 o3 o4,
          (infoPools K ns crds hooks gens prev par).standaloneCRDsPool.Wait K = Except.ok o1
          ∧ (infoPools K ns crds hooks gens prev par).hookResourcesPool.Wait K = Except.ok o2
          ∧ (infoPools K ns crds hooks gens prev par).generalResourcesPool.Wait K
              = Except.ok o3
          ∧ (infoPools K ns crds hooks gens prev par).prevReleaseGeneralResourcesPool.Wait K
              = Except.ok o4)
    ∧ ((buildDeployableResourceInfos K p m).err ≠ none →
        (buildDeployableResourceInfos K p m).p.deployableReleaseNamespaceInfo = none
        ∧ DeployableStandaloneCRDsInfos (buildDeployableResourceInfos K p m).p = []
        ∧ DeployableHookResourcesInfos (buildDeployableResourceInfos K p m).p = []
        ∧ DeployableGeneralResourcesInfos (buildDeployableResourceInfos K p m).p = []
        ∧ DeployablePrevReleaseGeneralResourcesInfos (buildDeployableResourceInfos K p m).p
            = [])
    ∧ (p.allowClusterAccess = true →
        (runStages (offlineStages K) p m).err = none →
        (buildDeployableResourceInfos K (runStages (offlineStages K) p m).p
          (runStages (offlineStages K) p m).mem).err ≠ none →
        (Process K p m).err ≠ none
        ∧ (Process K p m).p.deployableReleaseNamespaceInfo = none
        ∧ DeployableStandaloneCRDsInfos (Process K p m).p = []
        ∧ DeployableHookResourcesInfos (Process K p m).p = []
        ∧ DeployableGeneralResourcesInfos (Process K p m).p = []
        ∧ DeployablePrevReleaseGeneralResourcesInfos (Process K p m).p = []) := by
  have hfail : ∀ (ns' : String) (c h g v : List Resource) (par' : Int),
      (BuildDeployableResourceInfos K ns' c h g v par').releaseNamespaceInfo = none
      ∧ ((BuildDeployableResourceInfos K ns' c h g v par').err ≠ none →
        (BuildDeployableResourceInfos K ns' c h g v par').standaloneCRDsInfos = []
        ∧ (BuildDeployableResourceInfos K ns' c h g v par').hookResourcesInfos = []
        ∧ (BuildDeployableResourceInfos K ns' c h g v par').generalResourcesInfos = []
        ∧ (BuildDeployableResourceInfos K ns' c h g v par').prevReleaseGeneralResourceInfos
            = []) := by
    intro ns' c h g v par'
    unfold BuildDeployableResourceInfos
    rcases waitAndSort_cases K (infoPools K ns' c h g v par') with
      ⟨e, -, hw⟩ | ⟨o1, e, -, -, hw⟩ | ⟨o1, o2, e, -, -, -, hw⟩
      | ⟨o1, o2, o3, e, -, -, -, -, hw⟩ | ⟨o1, o2, o3, o4, -, -, -, -, hw⟩
    · rw [hw]; exact ⟨rfl, fun _ => ⟨rfl, rfl, rfl, rfl⟩⟩
    · rw [hw]; exact ⟨rfl, fun _ => ⟨rfl, rfl, rfl, rfl⟩⟩
    · rw [hw]; exact ⟨rfl, fun _ => ⟨rfl, rfl, rfl, rfl⟩⟩
    · rw [hw]; exact ⟨rfl, fun _ => ⟨rfl, rfl, rfl, rfl⟩⟩
    · rw [hw]; exact ⟨rfl, fun hne => absurd rfl hne⟩
  have hstage : ∀ (q : DeployableResourcesProcessor) (m' : Mem),
      (buildDeployableResourceInfos K q m').err ≠ none →
      (buildDeployableResourceInfos K q m').p.deployableReleaseNamespaceInfo = none
      ∧ DeployableStandaloneCRDsInfos (buildDeployableResourceInfos K q m').p = []
      ∧ DeployableHookResourcesInfos (buildDeployableResourceInfos K q m').p = []
      ∧ DeployableGeneralResourcesInfos (buildDeployableResourceInfos K q m').p = []
      ∧ DeployablePrevReleaseGeneralResourcesInfos (buildDeployableResourceInfos K q m').p
          = [] := by
    intro q m' herr
    obtain ⟨hn, hl⟩ := hfail q.releaseNamespace q.deployableStandaloneCRDs
      q.deployableHookResources q.deployableGeneralResources q.prevRelGeneralResources
      q.networkParallelism
    have herr' : (BuildDeployableResourceInfos K q.releaseNamespace q.deployableStandaloneCRDs
        q.deployableHookResources q.deployableGeneralResources q.prevRelGeneralResources
        q.networkParallelism).err ≠ none := by
      intro hnone
      apply herr
      simp only [buildDeployableResourceInfos, hnone, Option.map_none']
    obtain ⟨l1, l2, l3, l4⟩ := hl herr'
    exact ⟨hn, l1, l2, l3, l4⟩
  refine ⟨(hfail ns crds hooks gens prev par).1, (hfail ns crds hooks gens prev par).2,
    ?_, ?_, ?_, ?_, ?_, hstage p m, ?_⟩
  · intro e h1
    simp only [BuildDeployableResourceInfos, waitAndSort, h1, infosFailure]
  · intro o1 e h1 h2
    simp only [BuildDeployableResourceInfos, waitAndSort, h1, h2, infosFailure]
  · intro o1 o2 e h1 h2 h3
    simp only [BuildDeployableResourceInfos, waitAndSort, h1, h2, h3, infosFailure]
  · intro o1 o2 o3 e h1 h2 h3 h4
    simp only [BuildDeployableResourceInfos, waitAndSort, h1, h2, h3, h4, infosFailure]
  · unfold BuildDeployableResourceInfos
    rcases waitAndSort_cases K (infoPools K ns crds hooks gens prev par) with
      ⟨e, h1, hw⟩ | ⟨o1, e, h1, h2, hw⟩ | ⟨o1, o2, e, h1, h2, h3, hw⟩
      | ⟨o1, o2, o3, e, h1, h2, h3, h4, hw⟩ | ⟨o1, o2, o3, o4, h1, h2, h3, h4, hw⟩
    · rw [hw]
      constructor
      · intro h; cases h
      · rintro ⟨o1, o2, o3, o4, w1, -⟩
        rw [h1] at w1
        cases w1
    · rw [hw]
      constructor
      · intro h; cases h
      · rintro ⟨q1, q2, q3, q4, -, w2, -⟩
        rw [h2] at w2
        cases w2
    · rw [hw]
      constructor
      · intro h; cases h
      · rintro ⟨q1, q2, q3, q4, -, -, w3, -⟩
        rw [h3] at w3
        cases w3
    · rw [hw]
      constructor
      · intro h; cases h
      · rintro ⟨q1, q2, q3, q4, -, -, -, w4⟩
        rw [h4] at w4
        cases w4
    · rw [hw]
      exact ⟨fun _ => ⟨o1, o2, o3, o4, h1, h2, h3, h4⟩, fun _ => rfl⟩
  · intro hflag hoff hbad
    have hlast : lastStages K p = clusterStages K := by
      unfold lastStages
      rw [if_pos hflag]
    unfold Process
    rw [runStages_append _ _ p m hoff, hlast]
    generalize runStages (offlineStages K) p m = rA at hbad ⊢
    obtain ⟨hn, l1, l2, l3, l4⟩ := hstage _ _ hbad
    cases herr : (buildDeployableResourceInfos K rA.p rA.mem).err with
    | none => exact absurd herr hbad
    | some err =>
      have hrun : runStages (clusterStages K) rA.p rA.mem
          = { mem := (buildDeployableResourceInfos K rA.p rA.mem).mem
              p := (buildDeployableResourceInfos K rA.p rA.mem).p
              err := some (wrapErr "error building deployable resource infos" err) } := by
        simp only [clusterStages, runStages, herr]
      rw [hrun]
      exact ⟨fun h => (by cases h), hn, l1, l2, l3, l4⟩

/-- C28, on a cluster that refuses the GET of hooks and times out on the GET of generals,
for a chart with one hook and one general resource: the error is that of the hooks pool,
the first to fail, and the four lists are empty. -/
theorem infos_failure_and_namespace_witness :
    (BuildDeployableResourceInfos failingExt "prod" [] [preInstallJob] [webDeployment] []
        30).err
      = some ("error waiting for hook resources pool: "
          ++ "error constructing hook resource info: connection refused")
    ∧ (BuildDeployableResourceInfos failingExt "prod" [] [preInstallJob] [webDeployment] []
        30).generalResourcesInfos = []
    ∧ (BuildDeployableResourceInfos failingExt "prod" [] [preInstallJob] [webDeployment] []
        30).hookResourcesInfos = [] :=
  ⟨by decide,
   ((infos_failure_and_namespace failingExt "prod" [] [preInstallJob] [webDeployment] [] 30
      (sampleProcessor DeployType.DeployTypeInitial [] [] [] bareOptions)
      { next := 0, log := [] }).2.1 (by decide)).2.2.1,
   ((infos_failure_and_namespace failingExt "prod" [] [preInstallJob] [webDeployment] [] 30
      (sampleProcessor DeployType.DeployTypeInitial [] [] [] bareOptions)
      { next := 0, log := [] }).2.1 (by decide)).2.1⟩

end Nelm
